import Mathlib

/-!
# lcagent: a verification development of the relay engine

Shallow embedding of the parts of `TikBridge/lcagent` that the specification
makes claims about, followed by the theorems that settle those claims.

Conventions of the embedding:

* Go `uint8` / `uint64` values are natural numbers; every place where the Go
  code can overflow carries an explicit `% 256` or `% 2 ^ 64`.
* Byte strings (`[]byte`) and 32-byte hashes (`common.Hash`) are lists of
  byte values.
* Functions of imported packages (`go-common`, `go-tkmrpc`, `urfave/cli`,
  redis) are not part of this repository: they are parameters of the
  definitions that call them, or recorded outcomes of the call.
* Loops that the Go code writes without a static bound take a fuel argument and
  return `none` when the fuel runs out before the loop exits.
-/

namespace LcAgent

/-! ## Merkle proof chains (`lightnode.go`, `adapter.go`) -/

/-- A Go byte slice. -/
abbrev Bytes := List Nat

/-- The 32-byte `common.Hash`. -/
abbrev CommonHash := List Nat

/-- The type of `common.HashPairOrder` with its error result dropped, as every
call site in `lightnode.go` does (`root, _ = common.HashPairOrder(...)`). -/
abbrev HashPairOrder := Bool → Bytes → Bytes → Bytes

/-- Go `lightnode.go`: `MerkleProof struct { Hash; Position bool; Repeat uint8 }`. -/
structure MerkleProof where
  Hash : CommonHash
  Position : Bool
  Repeat : Nat
  deriving DecidableEq, Repr

/-- Go `lightnode.go`: `type MerkleProofs []MerkleProof`. -/
abbrev MerkleProofs := List MerkleProof

/-- Go `(mp *MerkleProof) Same`: a nil receiver (`none`) is never the same. -/
def MerkleProof.Same (mp : Option MerkleProof) (oneHash : CommonHash) (pos : Bool) : Bool :=
  match mp with
  | none => false
  | some m => m.Hash == oneHash && m.Position == pos

/-- One step of a `trie.ProofChain` as `Iterate` hands it to its callback: the
sibling value, already a 32-byte hash, and the order flag. -/
abbrev ProofStep := CommonHash × Bool

/-- The two local variables of `TKM2LightNode.MerkleProofs`. `mps` holds the
entries appended before the one `last` points to; `last` is the entry the
pointer `last` refers to, which the callback still mutates in place. -/
structure CompactState where
  mps : List MerkleProof
  last : Option MerkleProof
  deriving DecidableEq, Repr

/-- The callback passed to `pchain.Iterate` in `TKM2LightNode.MerkleProofs`:
`last.Repeat += 1` is a `uint8` increment. -/
def CompactState.callback (s : CompactState) (step : ProofStep) : CompactState :=
  match s.last with
  | some l =>
    if MerkleProof.Same (some l) step.1 step.2 then
      { s with last := some { l with Repeat := (l.Repeat + 1) % 256 } }
    else
      { mps := s.mps ++ [l],
        last := some { Hash := step.1, Position := step.2, Repeat := 0 } }
  | none =>
    { mps := s.mps,
      last := some { Hash := step.1, Position := step.2, Repeat := 0 } }

/-- The slice `mps` of the Go code once iteration is over: the finished entries
followed by the one `last` points to. -/
def CompactState.result (s : CompactState) : List MerkleProof :=
  match s.last with
  | some l => s.mps ++ [l]
  | none => s.mps

/-- Go `adapter.go`: `(tl TKM2LightNode) MerkleProofs(pchain)`. -/
def T2LN.MerkleProofs (pchain : List ProofStep) : List MerkleProof :=
  (pchain.foldl CompactState.callback { mps := [], last := none }).result

/-- The `for i := uint8(0); i <= mp.Repeat; i++` loop of `MerkleProof.Proof`,
entered with counter `i` and accumulator `root`; `i++` is a `uint8` increment.
`none` when `fuel` iterations were not enough to leave the loop. -/
def MerkleProof.ProofLoop (hp : HashPairOrder) (mp : MerkleProof) :
    Nat → Nat → Bytes → Option Bytes
  | 0, _, _ => none
  | fuel + 1, i, root =>
    if i ≤ mp.Repeat then
      MerkleProof.ProofLoop hp mp fuel ((i + 1) % 256) (hp mp.Position mp.Hash root)
    else
      some root

/-- Go `(mp *MerkleProof) Proof(val)` for a non-nil receiver. -/
def MerkleProof.Proof (hp : HashPairOrder) (mp : MerkleProof) (fuel : Nat) (val : Bytes) :
    Option Bytes :=
  MerkleProof.ProofLoop hp mp fuel 0 val

/-- Go `(mps MerkleProofs) Proof(start)`: each element's `Proof` gets `fuel`
loop iterations. -/
def MerkleProofs.Proof (hp : HashPairOrder) (fuel : Nat) :
    MerkleProofs → Bytes → Option Bytes
  | [], start => some start
  | mp :: rest, start =>
    match MerkleProof.Proof hp mp fuel start with
    | none => none
    | some root => MerkleProofs.Proof hp fuel rest root

/-- Go `(mps MerkleProofs) Size()`. -/
def MerkleProofs.Size (mps : MerkleProofs) : Nat :=
  mps.foldl (fun c mp => if mp.Repeat > 0 then c + mp.Repeat else c) mps.length

/-- The fold the specification compares against: one
`HashPairOrder(position, sibling, accumulator)` per step of the original,
uncompacted chain. -/
def foldChain (hp : HashPairOrder) (pchain : List ProofStep) (leaf : Bytes) : Bytes :=
  pchain.foldl (fun acc step => hp step.2 step.1 acc) leaf

/-- The chain a compacted chain stands for: each triple repeated `Repeat + 1` times. -/
def expandProofs : List MerkleProof → List ProofStep
  | [] => []
  | mp :: rest => List.replicate (mp.Repeat + 1) (mp.Hash, mp.Position) ++ expandProofs rest

/-- No `n` consecutive steps of the chain are equal. -/
def noRunOf (n : Nat) (pchain : List ProofStep) : Prop :=
  ∀ (a b : List ProofStep) (s : ProofStep), pchain ≠ a ++ List.replicate n s ++ b

/-! ## Errors (`types.go`, `errors`, `urfave/cli`) -/

/-- Go `error` values as far as the relay distinguishes them. Messages keep the
constant part of the format string only.

* `plain`: `errors.New`, or `fmt.Errorf` without a wrapped error;
* `wrap`: `fmt.Errorf("...: %w", inner)`;
* `exit`: `cli.Exit(inner, code)`, the only `cli.ExitCoder` the code creates;
* `notUnlock`: `NotUnlockError(inner)`, the `*notUnlockError` of `types.go`,
  which has no `Unwrap` method. -/
inductive GoError where
  | plain (msg : String)
  | wrap (msg : String) (inner : GoError)
  | exit (code : Nat) (inner : GoError)
  | notUnlock (inner : GoError)
  deriving DecidableEq, Repr

/-- Go `errors.As(err, &exitErr)` with `exitErr` of type `cli.ExitCoder`: walks the
`Unwrap` chain and stops at a `*notUnlockError`, which unwraps to nothing. -/
def GoError.asExitCoder : GoError → Bool
  | .plain _ => false
  | .wrap _ inner => inner.asExitCoder
  | .exit _ _ => true
  | .notUnlock _ => false

/-- Go `errors.As(err, &unlockErr)` with `unlockErr` of type `LockError`: the value of
`Unlock()` of the first `LockError` on the `Unwrap` chain. The only implementation
is `*notUnlockError`, whose `Unlock()` is `false`. `doWork` asks this question only
of errors that wrap no `ExitCoder`, so the `exit` case is never consulted there. -/
def GoError.asLockError : GoError → Option Bool
  | .plain _ => none
  | .wrap _ inner => inner.asLockError
  | .exit _ inner => inner.asLockError
  | .notUnlock _ => some false

/-- Go `types.go`: `NotUnlockError(err)`. -/
def NotUnlockError (err : GoError) : GoError := .notUnlock err

def ExitByContext : Nat := 0x41
def ExitLCErr : Nat := 0x43
def ExitLooperHandlerErr : Nat := 0x55

/-- Go `cctx.Err()` of a cancelled context. -/
def ctxErr : GoError := .plain "context canceled"

/-! ## Blocks (`go-tkmrpc/models`, fields the relay reads) -/

/-- Go `models.Committee`: the ordered member list. -/
structure Committee where
  Members : List Bytes
  deriving DecidableEq, Repr

/-- Go `models.PubAndSig`. -/
structure PubAndSig where
  PublicKey : Bytes
  Signature : Bytes
  deriving DecidableEq, Repr

/-- Go `models.PubAndSigs`: a slice of pointers, entries possibly nil. -/
abbrev PubAndSigs := List (Option PubAndSig)

/-- Go `models.BlockHeader`, the fields the relay reads. -/
structure BlockHeader where
  ChainID : Nat
  Height : Nat
  ElectedNextRoot : Option CommonHash
  deriving DecidableEq, Repr

/-- Go `models.Log`. -/
structure Log where
  Address : Bytes
  Topics : List CommonHash
  Data : Bytes
  deriving DecidableEq, Repr

/-- Go `models.Transaction`, the fields the relay reads, with the value of
`tx.Hash()`. -/
structure Transaction where
  To : Option Bytes
  Input : Bytes
  TxHash : CommonHash
  deriving DecidableEq, Repr

/-- Go `models.BlockBody`, the fields the relay reads. -/
structure BlockBody where
  NextCommittee : Option Committee
  NextRealCommittee : Option Committee
  Txs : List Transaction
  deriving DecidableEq, Repr

/-- Go `models.BlockEMessage`. -/
structure BlockEMessage where
  BlockHeader : Option BlockHeader
  BlockBody : Option BlockBody
  BlockPass : PubAndSigs
  deriving DecidableEq, Repr

/-- Go `client.RpcBlocks`: the batch and the source chain's current height. -/
structure RpcBlocks where
  Blocks : List (Option BlockEMessage)
  Current : Nat
  deriving DecidableEq, Repr

/-! ## Imported functions -/

/-- Functions and constants of `go-common` / `go-tkmrpc` that the code under
study calls and that are not part of this repository. -/
structure Lib where
  /-- Go `common.NilHeight`. -/
  NilHeight : Nat
  /-- Go `(h Height) Compare(o Height) int`. -/
  HeightCompare : Nat → Nat → Int
  /-- Go `(h Height) EpochNum() EpochNum`. -/
  HeightEpochNum : Nat → Nat
  /-- Go `(e EpochNum) Diff(o EpochNum) (diff uint64, cmp int)`. -/
  EpochDiff : Nat → Nat → Nat × Int
  /-- Go `(h *Hash) Equal(o *Hash) bool`, the argument possibly nil. -/
  HashEqual : CommonHash → Option CommonHash → Bool
  /-- Go `rtl.Numeric.BytesToUint64`. -/
  BytesToUint64 : Bytes → Nat
  /-- Go `(b *BlockEMessage) GetHeight()` on a block without header. -/
  noHeaderHeight : Nat
  /-- Go `(c *Committee) IsAvailable()`, the receiver possibly nil. -/
  CommIsAvailable : Option Committee → Bool
  /-- Go `(c *Committee) Hash()`. -/
  CommHash : Option Committee → CommonHash
  /-- Go `(id ChainID) IsMain()`. -/
  ChainIDIsMain : Nat → Bool
  /-- Go `(h *BlockHeader) Hash()`. -/
  HeaderHash : BlockHeader → CommonHash
  /-- Go `(ps PubAndSigs) Verify(hash) (n int, err error)`. -/
  PaSsVerify : PubAndSigs → Bytes → Int × Option GoError
  /-- Go `(h Height) Diff(o Height) (diff uint64, cmp int)`. -/
  HeightDiff : Nat → Nat → Nat × Int
  /-- Go `common.BlocksInEpoch`. -/
  BlocksInEpoch : Nat
  /-- Go `(logs Logs) MerkleRoot(index, proofs)`: the proof chain it appends, or the
  error. -/
  LogsMerkleRoot : List Log → Nat → Except GoError (List ProofStep)
  /-- Go `common.EmptyAddress`: the zero address. -/
  EmptyAddress : Bytes
  /-- Go `strings.ToUpper`. -/
  stringsToUpper : String → String
  /-- Go `strings.ToLower`. -/
  stringsToLower : String → String
  /-- Go `(c *Committee) Size()`, the receiver possibly nil. -/
  CommSize : Option Committee → Nat
  /-- Go `common.AddressFromPubSlice(models.TKMCipher.PubFromNodeId(nid[:]))`, the
  address returned. -/
  NodeAddress : Bytes → Bytes
  /-- Go `common.NilEpoch`. -/
  NilEpoch : Nat
  /-- Go `(e EpochNum) LastHeight() Height`. -/
  EpochLastHeight : Nat → Nat
  /-- Go `(e EpochNum) Compare(o EpochNum) int`. -/
  EpochCompare : Nat → Nat → Int
  /-- Go `common.AddressLength`. -/
  AddressLength : Nat

/-- Go `(h Height) IsNil()`. -/
def Lib.HeightIsNil (lib : Lib) (h : Nat) : Bool := h == lib.NilHeight

/-- Go `(e EpochNum) IsNil()`. -/
def Lib.EpochIsNil (lib : Lib) (e : Nat) : Bool := e == lib.NilEpoch

/-- Go `(b *BlockEMessage) GetHeight()`. -/
def BlockEMessage.GetHeight (lib : Lib) : Option BlockEMessage → Nat
  | some b =>
    match b.BlockHeader with
    | some h => h.Height
    | none => lib.noHeaderHeight
  | none => lib.noHeaderHeight

/-- The guard `block != nil && block.BlockHeader != nil && block.BlockBody != nil`
of `looper.processBlocks`, returning the three non-nil values. -/
def wellFormed : Option BlockEMessage → Option (BlockEMessage × BlockHeader × BlockBody)
  | some b =>
    match b.BlockHeader, b.BlockBody with
    | some h, some body => some (b, h, body)
    | _, _ => none
  | none => none

/-! ## The cursor loop (`runner.go`) -/

/-- What a mode handler does besides returning: calls on the leases, the source
and the target, in call order. -/
inductive Effect where
  /-- Go `_maxProvableHeights` / `_maxProvableHeight`. -/
  | provableHeights
  /-- Go `runningLock.Refresh`. -/
  | runningRefresh
  /-- Go `_txFinalProof` / `_txLocalProof` for the transaction hash. -/
  | proofFetch (txHash : CommonHash)
  /-- Go `_checkOrderId`. -/
  | orderCheck (orderId : CommonHash)
  /-- Go `sendingLock.Fetch`. -/
  | sendingFetch
  /-- Go `redisLocks.Refresh` on both leases. -/
  | locksRefresh
  /-- Go `_targetSuggestBalance`, which asks for the gas price. -/
  | suggestGasPrice
  /-- Go `nonceWithBalanceMoreThan`. -/
  | nonceQuery
  /-- Go `sendLegacyTx` with the nonce. -/
  | txSend (nonce : Nat)
  /-- Go `checkReceipt` / `checkReceipts`. -/
  | receiptPoll
  /-- Go `sendingLock.Release`. -/
  | sendingRelease
  /-- Go `_getSyncingEpoch` of `xmaintain.go`: `redis.Get` on the xsync cursor key. -/
  | syncingEpochRead
  deriving DecidableEq, Repr

/-- Calls made by the cursor loop, in call order. -/
inductive Event where
  /-- Go `runningLock.FetchOrRefresh`. -/
  | runningFetchOrRefresh
  /-- Go `runningLock.Refresh` at the top of an iteration of `iterateBlocks`. -/
  | runningRefresh
  /-- Go `NodeClient.GetBlocks` for the start height. -/
  | getBlocks (start : Nat)
  /-- Go `lHander.processBlock` on the block at index `i` of the batch. -/
  | processBlock (i : Nat) (block : BlockEMessage)
  /-- A call made inside the handler. -/
  | effect (e : Effect)
  /-- Go `updateStartHeight`: redis `Set` on the cursor key. -/
  | cursorSet (v : Nat)
  /-- Go `runningLock.Release`. -/
  | runningRelease
  /-- Go `sendingLock.Release` issued by `doWork`. -/
  | sendingRelease
  deriving DecidableEq, Repr

/-- The values passed to `updateStartHeight`, in call order. -/
def cursorWrites : List Event → List Nat
  | [] => []
  | .cursorSet v :: rest => v :: cursorWrites rest
  | _ :: rest => cursorWrites rest

/-- The result pair of a handler's `processBlock` with the calls it made. -/
structure HandlerResult where
  effects : List Effect
  fatal : Option GoError
  warning : Option GoError
  deriving DecidableEq, Repr

/-- The reply of the source to `GetBlocks`, as `_tkmBlocks` distinguishes it. -/
inductive SourceReply where
  | rpcError (e : GoError)
  | notSuccess
  | unmarshalError (e : GoError)
  | blocks (b : Option RpcBlocks)
  deriving DecidableEq, Repr

/-- Everything outside the looper that one iteration of the `for` loop of
`iterateBlocks` depends on. -/
structure IterEnv where
  /-- Go `cctx.Done()` is ready at the top of the iteration. -/
  ctxDone : Bool
  /-- Go `lHander.prepareToGet(cctx, start)`. -/
  prepareToGet : Nat → List Effect × Option GoError
  /-- The source's reply to `GetBlocks`. -/
  reply : SourceReply
  /-- Go `cctx.Done()` is ready when `processBlocks` reaches index `i`. -/
  ctxDoneAt : Nat → Bool
  /-- Go `lHander.processBlock(cctx, block)` for the block at index `i`. -/
  processBlock : Nat → BlockEMessage → HandlerResult

/-- Go `(a *looper) prepareBlocks`: no mode overrides it. -/
def looper.prepareBlocks (_blocks : Option RpcBlocks) : Bool × Option GoError :=
  (true, none)

/-- The `for i, block := range blocks.Blocks` loop of `looper.processBlocks`,
at index `i` with the local `start`. Returns the calls made and the function's
result `(next, errr)`. -/
def looper.processBlocksLoop (lib : Lib) (env : IterEnv) :
    Nat → Nat → List (Option BlockEMessage) → List Event × Nat × Option GoError
  | _, start, [] => ([], start, none)
  | i, start, block :: rest =>
    if env.ctxDoneAt i then
      ([], start, some (.exit ExitByContext ctxErr))
    else
      match wellFormed block with
      | some (b, _, _) =>
        let r := env.processBlock i b
        let called := Event.processBlock i b :: r.effects.map Event.effect
        match r.fatal with
        | some fatal => (called, start, some (.wrap "processing fatal" fatal))
        | none =>
          let start1 := (BlockEMessage.GetHeight lib block + 1) % 2 ^ 64
          let (evs, next, err) := looper.processBlocksLoop lib env (i + 1) start1 rest
          (called ++ Event.cursorSet start1 :: evs, next, err)
      | none => looper.processBlocksLoop lib env (i + 1) start rest

/-- Go `(a *looper) processBlocks`. -/
def looper.processBlocks (lib : Lib) (env : IterEnv) (blocks : Option RpcBlocks) :
    List Event × Nat × Option GoError :=
  match looper.prepareBlocks blocks with
  | (_, some err) => ([], lib.NilHeight, some err)
  | (false, none) => ([], lib.NilHeight, none)
  | (true, none) =>
    match blocks with
    | none => ([], lib.NilHeight, none)
    | some bs =>
      match bs.Blocks with
      | [] => ([], lib.NilHeight, none)
      | first :: rest =>
        looper.processBlocksLoop lib env 0 (BlockEMessage.GetHeight lib first) (first :: rest)

/-- Go `(a *looper) _tkmBlocks`: the calls made and `(blocks, err)`. -/
def looper._tkmBlocks (env : IterEnv) (start : Nat) :
    List Event × Option RpcBlocks × Option GoError :=
  match env.prepareToGet start with
  | (effs, some err) => (effs.map Event.effect, none, some err)
  | (effs, none) =>
    let evs := effs.map Event.effect ++ [Event.getBlocks start]
    match env.reply with
    | .rpcError e => (evs, none, some (.wrap "get blocks failed" e))
    | .notSuccess => (evs, none, none)
    | .unmarshalError e => (evs, none, some (.wrap "unmarshal blocks failed" e))
    | .blocks none => (evs, none, none)
    | .blocks (some bs) =>
      match bs.Blocks with
      | [] => (evs, none, none)
      | _ :: _ => (evs, some bs, none)

/-- The `for` loop of `looper.iterateBlocks` with the local `start`; one
`IterEnv` is consumed per iteration. The second component is `none` when the
loop is still running after the last recorded iteration, `some r` when the
function returned `r`. -/
def looper.iterateLoop (lib : Lib) : Nat → List IterEnv → List Event × Option (Option GoError)
  | _, [] => ([], none)
  | start, env :: envs =>
    if env.ctxDone then
      ([], some (some (.exit ExitByContext ctxErr)))
    else
      match looper._tkmBlocks env start with
      | (evs, _, some err) => (Event.runningRefresh :: evs, some (some err))
      | (evs, none, none) => (Event.runningRefresh :: evs, some none)
      | (evs, some blocks, none) =>
        match looper.processBlocks lib env (some blocks) with
        | (pevs, _, some err) => (Event.runningRefresh :: (evs ++ pevs), some (some err))
        | (pevs, next, none) =>
          let advance := decide (lib.HeightCompare next start ≥ 0)
          let start1 := if advance then next else start
          let wevs := if advance then [Event.cursorSet start1] else []
          if lib.HeightCompare start1 blocks.Current > 0 then
            (Event.runningRefresh :: (evs ++ pevs ++ wevs), some none)
          else
            let (revs, r) := looper.iterateLoop lib start1 envs
            (Event.runningRefresh :: (evs ++ pevs ++ wevs ++ revs), r)

/-- Go `(a *looper) getStartHeight`: the stored cursor, or the configured start
height when the key cannot be read as an unsigned integer. -/
def looper.getStartHeight (cursor : Option Nat) (srcStartHeight : Nat) : Nat :=
  match cursor with
  | none => srcStartHeight
  | some h => h

/-- The local `start` with which `iterateBlocks` enters its loop. -/
def looper.tickStart (lib : Lib) (cursor : Option Nat) (srcStartHeight : Nat) : Nat :=
  let start := looper.getStartHeight cursor srcStartHeight
  if lib.HeightIsNil start then 0 else start

/-- Go `(a *looper) iterateBlocks`. `hasHandler` is `a.lHander != nil`. -/
def looper.iterateBlocks (lib : Lib) (hasHandler : Bool) (cursor : Option Nat)
    (srcStartHeight : Nat) (envs : List IterEnv) : List Event × Option (Option GoError) :=
  if !hasHandler then
    ([], some (some (.exit ExitLooperHandlerErr (.plain "looper handler is missing"))))
  else
    looper.iterateLoop lib (looper.tickStart lib cursor srcStartHeight) envs

/-- The part of the configuration the cursor loop reads. -/
structure LooperConf where
  /-- Whether `a.lHander` is set (every mode but `update` sets it). -/
  hasHandler : Bool
  /-- Go field `conf.SrcStartHeight`. -/
  SrcStartHeight : Nat

/-- Everything outside the looper that one pass of the `for`/`select` loop of
`looper.doWork` depends on. -/
structure TickEnv where
  /-- The `select` takes the `ctx.Done()` case rather than the timer case. -/
  ctxDone : Bool
  /-- The error result of `runningLock.FetchOrRefresh`. -/
  fetchOrRefresh : Option GoError
  /-- The cursor key as `getStartHeight` reads it: `none` when the key is absent
  or unreadable. -/
  cursor : Option Nat
  /-- The iterations of `iterateBlocks` in this pass. -/
  iters : List IterEnv

/-- How one pass of the loop of `looper.doWork` ends. -/
inductive TickResult where
  /-- Go: `doWork` returns the error: the loop is over. -/
  | returned (e : GoError)
  /-- The timer is reset and the loop goes on to the next tick. -/
  | continues
  /-- The call of `iterateBlocks` is still running after the last recorded iteration. -/
  | running
  deriving DecidableEq, Repr

/-- Go `(a *runner) connectionCheck`, which returns nil. -/
def runner.connectionCheck : Option GoError := none

/-- One pass of the `for`/`select` loop of `(a *looper) doWork`: the calls made
and how the pass ends. -/
def looper.doWorkTick (lib : Lib) (conf : LooperConf) (env : TickEnv) :
    List Event × TickResult :=
  if env.ctxDone then
    ([], .returned (.exit ExitByContext ctxErr))
  else
    match runner.connectionCheck with
    | some err => ([], .returned err)
    | none =>
      match env.fetchOrRefresh with
      | some _ => ([Event.runningFetchOrRefresh], .continues)
      | none =>
        match looper.iterateBlocks lib conf.hasHandler env.cursor conf.SrcStartHeight env.iters with
        | (evs, none) => (Event.runningFetchOrRefresh :: evs, .running)
        | (evs, some none) => (Event.runningFetchOrRefresh :: evs, .continues)
        | (evs, some (some err)) =>
          if err.asExitCoder then
            (Event.runningFetchOrRefresh :: evs, .returned err)
          else if err.asLockError = some false then
            (Event.runningFetchOrRefresh :: evs, .continues)
          else
            (Event.runningFetchOrRefresh :: (evs ++ [Event.runningRelease, Event.sendingRelease]),
              .continues)

/-- Go `(a *looper) doWork`: one `TickEnv` per pass of the loop. The result is
`none` when the loop is still running after the last recorded pass. -/
def looper.doWork (lib : Lib) (conf : LooperConf) : List TickEnv → List Event × Option GoError
  | [] => ([], none)
  | env :: envs =>
    match looper.doWorkTick lib conf env with
    | (evs, .returned e) => (evs, some e)
    | (evs, .running) => (evs, none)
    | (evs, .continues) =>
      let (revs, r) := looper.doWork lib conf envs
      (evs ++ revs, r)

/-- The calls the looper makes for a run of blocks none of which ends fatally,
the first at batch index `i`: `processBlock` on each block in order, each
followed by the handler's own calls and by a cursor write of the block's height
plus one. -/
def batchTrace (lib : Lib) (env : IterEnv) : Nat → List BlockEMessage → List Event
  | _, [] => []
  | i, b :: rest =>
    Event.processBlock i b :: (env.processBlock i b).effects.map Event.effect
      ++ Event.cursorSet ((BlockEMessage.GetHeight lib (some b) + 1) % 2 ^ 64)
      :: batchTrace lib env (i + 1) rest

/-- No block of the run, the first at batch index `i`, ends fatally and the
context is not cancelled while the run is processed. -/
def passes (env : IterEnv) : Nat → List BlockEMessage → Prop
  | _, [] => True
  | i, b :: rest =>
    env.ctxDoneAt i = false ∧ (env.processBlock i b).fatal = none ∧ passes env (i + 1) rest

/-- The height of a delivered block that has a header, that is, for which
`block != nil && block.BlockHeader != nil` holds. -/
def headerHeight : Option BlockEMessage → Option Nat
  | some b =>
    match b.BlockHeader with
    | some h => some h.Height
    | none => none
  | none => none

/-- The heights of the blocks with a header that the source delivers during a tick,
in delivery order, whether the blocks have a body or not. -/
def deliveredHeights : List IterEnv → List Nat
  | [] => []
  | env :: envs =>
    match env.reply with
    | .blocks (some bs) => bs.Blocks.filterMap headerHeight ++ deliveredHeights envs
    | _ => deliveredHeights envs

/-- The height of a delivered block that `processBlocks` hands to the handler, that
is, for which `block != nil && block.BlockHeader != nil && block.BlockBody != nil`
holds. -/
def processedHeight (ob : Option BlockEMessage) : Option Nat :=
  match wellFormed ob with
  | some (_, hd, _) => some hd.Height
  | none => none

/-- The heights of the blocks with a header and a body that the source delivers
during a tick, in delivery order. -/
def processedHeights : List IterEnv → List Nat
  | [] => []
  | env :: envs =>
    match env.reply with
    | .blocks (some bs) => bs.Blocks.filterMap processedHeight ++ processedHeights envs
    | _ => processedHeights envs

/-- What the cursor loop relies on in `go-common` and `go-tkmrpc`: the nil height is
a `uint64` above 0, `GetHeight` of a block without header is the nil height or 0,
`Compare` orders heights other than the nil height as numbers and puts the nil
height below them. -/
def Lib.heightsOrdered (lib : Lib) : Prop :=
  0 < lib.NilHeight ∧ lib.NilHeight < 2 ^ 64
    ∧ (lib.noHeaderHeight = lib.NilHeight ∨ lib.noHeaderHeight = 0)
    ∧ (∀ a b, a ≠ lib.NilHeight → b ≠ lib.NilHeight → (lib.HeightCompare a b ≥ 0 ↔ b ≤ a))
    ∧ ∀ b, b ≠ lib.NilHeight → lib.HeightCompare lib.NilHeight b < 0

/-! ## The sync and xsync handlers (`sync.go`, `xsync.go`) -/

/-- Go `models.Receipt`, the fields the relay reads. -/
structure Receipt where
  Status : Nat
  Logs : List Log
  TxHash : CommonHash
  Version : Nat
  deriving DecidableEq, Repr

/-- Go `models.TxFinalProof`, the fields the handlers read. -/
structure TxFinalProof where
  Header : Option BlockHeader
  Receipt : Option Receipt
  ReceiptProof : List ProofStep
  Sigs : PubAndSigs
  deriving DecidableEq, Repr

/-- Go `MapTransferOutLog`, the fields the handlers read. -/
structure MapTransferOutLog where
  OrderId : CommonHash
  ToChain : Option Int
  deriving DecidableEq, Repr

/-- Go `locateLog` of `utils.go`: index and value of the first log of the contract
whose first topic is the topic id; `none` for the result `(-1, nil)`. -/
def locateLogFrom (contractAddr : Bytes) (topicId : CommonHash) :
    Nat → List Log → Option (Nat × Log)
  | _, [] => none
  | i, l :: rest =>
    if l.Address == contractAddr && decide (l.Topics.length > 0)
        && l.Topics.head? == some topicId then
      some (i, l)
    else
      locateLogFrom contractAddr topicId (i + 1) rest

/-- Go `locateLog(logs, contractAddr, topicId)`. -/
def locateLog (logs : List Log) (contractAddr : Bytes) (topicId : CommonHash) :
    Option (Nat × Log) :=
  locateLogFrom contractAddr topicId 0 logs

/-- Outcomes of the calls `_mcsProofs` makes; the index is the position of the
proof in the list. -/
structure McsEnv where
  /-- The error result of `sendingLock.Fetch`. -/
  sendingFetch : Option GoError
  /-- The result of `nonceWithBalanceMoreThan`. -/
  nonce : Except GoError Nat
  /-- The error result of `T2LN.ReceiptProof` (sync) or `T2LN.ReceiptData` (xsync). -/
  receiptProof : Nat → Option GoError
  /-- The error result of packing the proof record. -/
  packData : Nat → Option GoError
  /-- The error result of packing the `transferIn` input. -/
  packInput : Nat → Option GoError
  /-- The error result of `sendLegacyTx`. -/
  sendTx : Nat → Option GoError
  /-- The result of `checkReceipts`: per transaction no receipt, or `Success()`. -/
  checkReceipts : Except GoError (List (Option Bool))

/-- The `for i, txProof := range txProofs` loop of `_mcsProofs` at index `i` with
the local `nonce`. -/
def mcsSendLoop (env : McsEnv) : Nat → Nat → List TxFinalProof → List Effect × Option GoError
  | _, _, [] => ([], none)
  | i, nonce, _ :: rest =>
    match env.receiptProof i with
    | some e => ([], some e)
    | none =>
      match env.packData i with
      | some e => ([], some (.wrap "packdata failed" e))
      | none =>
        match env.packInput i with
        | some e => ([], some (.wrap "packinput failed" e))
        | none =>
          match env.sendTx i with
          | some e => ([Effect.txSend nonce], some (.wrap "send tx failed" e))
          | none =>
            let refresh := if i > 0 ∧ i % 10 = 0 then [Effect.locksRefresh] else []
            let (effs, r) := mcsSendLoop env (i + 1) ((nonce + 1) % 2 ^ 64) rest
            (Effect.txSend nonce :: refresh ++ effs, r)

/-- Go `(n *syncer) _mcsProofs` and `(n *xsyncer) _mcsProofs`, which differ in the
proof record they build and pack only. The deferred `sendingLock.Release` runs on
every return after a successful `Fetch`. -/
def _mcsProofs (env : McsEnv) (txProofs : List TxFinalProof) : List Effect × Option GoError :=
  if txProofs.length = 0 then
    ([], none)
  else
    match env.sendingFetch with
    | some e => ([Effect.sendingFetch], some (.wrap "is sending, fetch failed" e))
    | none =>
      let pre := [Effect.sendingFetch, Effect.locksRefresh, Effect.suggestGasPrice,
        Effect.nonceQuery]
      match env.nonce with
      | .error e => (pre ++ [Effect.sendingRelease], some e)
      | .ok nonce =>
        match mcsSendLoop env 0 nonce txProofs with
        | (effs, some e) => (pre ++ effs ++ [Effect.sendingRelease], some e)
        | (effs, none) =>
          match env.checkReceipts with
          | .error e =>
            (pre ++ effs ++ [Effect.receiptPoll, Effect.sendingRelease],
              some (.wrap "get receipt failed" e))
          | .ok rcpts =>
            if (rcpts.filter (fun r => r != some true)).length > 0 then
              (pre ++ effs ++ [Effect.receiptPoll, Effect.sendingRelease],
                some (.plain "transfer failed occurs"))
            else
              (pre ++ effs ++ [Effect.receiptPoll, Effect.sendingRelease], none)

/-- The part of the configuration the sync and xsync handlers read. -/
structure SyncConf where
  /-- Go `conf.Synchronizer.TkmMCSAddress` (sync), `conf.XSynchronizer.XMCSAddress`
  (xsync). -/
  mcsAddress : Bytes
  /-- Go field `watchTopicId`. -/
  watchTopicId : CommonHash
  /-- Go `conf.TargetChainID`. -/
  TargetChainID : Option Int

/-- Outcomes of the calls one invocation of `syncer.processBlock` or
`syncer.prepareToGet` makes. -/
structure SyncEnv where
  /-- Go `_maxProvableHeights`: `(main, sub)` or the error. -/
  maxProvableHeights : Except GoError (Nat × Nat)
  /-- Go `_txFinalProof(ctx, chainid, txHash, anchorHeight)`. -/
  txFinalProof : CommonHash → Nat → Except GoError (Option TxFinalProof)
  /-- Go `(r *Receipt) Success()`, the receiver possibly nil. -/
  receiptSuccess : Option Receipt → Bool
  /-- Go `proof.FinalVerify()`. -/
  finalVerify : TxFinalProof → Option GoError
  /-- Go `MCSRelayAbi.UnpackEvent`. -/
  unpackEvent : Log → Except GoError MapTransferOutLog
  /-- Go `_checkOrderId`. -/
  checkOrderId : CommonHash → Except GoError Bool
  /-- The calls of `_mcsProofs`. -/
  mcs : McsEnv

/-- Go `(n *syncer) prepareToGet`. -/
def syncer.prepareToGet (lib : Lib) (env : SyncEnv) (start : Nat) :
    List Effect × Option GoError :=
  match env.maxProvableHeights with
  | .error err => ([Effect.provableHeights], some err)
  | .ok (_, maxSub) =>
    if lib.HeightCompare start maxSub > 0 then
      ([Effect.provableHeights],
        some (NotUnlockError (.plain "max provable height exceeded")))
    else
      ([Effect.provableHeights], none)

/-- The `for _, tx := range block.BlockBody.Txs` loop of `syncer.processBlock` with
the local `txproofs`: the calls made and either the fatal error returned from inside
the loop or the proofs collected. -/
def syncer.txLoop (conf : SyncConf) (env : SyncEnv) (maxMain : Nat) :
    List Transaction → List TxFinalProof → List Effect × Except GoError (List TxFinalProof)
  | [], txproofs => ([], .ok txproofs)
  | tx :: rest, txproofs =>
    if tx.To.isSome && decide (tx.Input.length > 0) then
      let head := [Effect.runningRefresh, Effect.proofFetch tx.TxHash]
      match env.txFinalProof tx.TxHash maxMain with
      | .error err => (head, .error (.wrap "get final proof failed" err))
      | .ok none => (head, .error (.plain "get final proof failed"))
      | .ok (some proof) =>
        if !env.receiptSuccess proof.Receipt then
          let (effs, r) := syncer.txLoop conf env maxMain rest txproofs
          (head ++ effs, r)
        else
          match env.finalVerify proof with
          | some err => (head, .error (.wrap "final proof verify failed" err))
          | none =>
            match proof.Receipt with
            | none => (head, .error (.plain "get receipt failed"))
            | some rcpt =>
              match locateLog rcpt.Logs conf.mcsAddress conf.watchTopicId with
              | none =>
                let (effs, r) := syncer.txLoop conf env maxMain rest txproofs
                (head ++ effs, r)
              | some (_, rlog) =>
                match env.unpackEvent rlog with
                | .error err => (head, .error (.wrap "unpack log failed" err))
                | .ok out =>
                  match env.checkOrderId out.OrderId with
                  | .error err =>
                    (head ++ [Effect.orderCheck out.OrderId],
                      .error (.wrap "check orderid failed" err))
                  | .ok true =>
                    let (effs, r) := syncer.txLoop conf env maxMain rest txproofs
                    (head ++ Effect.orderCheck out.OrderId :: effs, r)
                  | .ok false =>
                    let (effs, r) :=
                      syncer.txLoop conf env maxMain rest (txproofs ++ [proof])
                    (head ++ Effect.orderCheck out.OrderId :: effs, r)
    else
      syncer.txLoop conf env maxMain rest txproofs

/-- Go `(n *syncer) processBlock`. -/
def syncer.processBlock (lib : Lib) (conf : SyncConf) (env : SyncEnv)
    (block : BlockEMessage) : HandlerResult :=
  match env.maxProvableHeights with
  | .error err => { effects := [Effect.provableHeights], fatal := some err, warning := none }
  | .ok (maxMain, maxSub) =>
    match wellFormed (some block) with
    | none => { effects := [Effect.provableHeights], fatal := none, warning := none }
    | some (_, header, body) =>
      if lib.HeightCompare header.Height maxSub > 0 then
        { effects := [Effect.provableHeights],
          fatal := some (NotUnlockError (.plain "max provable height exceeded")),
          warning := none }
      else
        match syncer.txLoop conf env maxMain body.Txs [] with
        | (effs, .error err) =>
          { effects := Effect.provableHeights :: effs, fatal := some err, warning := none }
        | (effs, .ok txproofs) =>
          match _mcsProofs env.mcs txproofs with
          | (meffs, some err) =>
            { effects := Effect.provableHeights :: effs ++ meffs,
              fatal := some (.wrap "MCS proof failed" err), warning := none }
          | (meffs, none) =>
            { effects := Effect.provableHeights :: effs ++ meffs,
              fatal := none, warning := none }

/-- Outcomes of the calls one invocation of `xsyncer.processBlock` or
`xsyncer.prepareToGet` makes. -/
structure XSyncEnv where
  /-- Go `_maxProvableHeight`: the height or the error. -/
  maxProvableHeight : Except GoError Nat
  /-- Go `_txLocalProof(ctx, chainid, txHash)`. -/
  txLocalProof : CommonHash → Except GoError (Option TxFinalProof)
  /-- Go `(r *Receipt) Success()`, the receiver possibly nil. -/
  receiptSuccess : Option Receipt → Bool
  /-- Go `proof.LocalVerify()`. -/
  localVerify : TxFinalProof → Option GoError
  /-- Go `MCSRelayAbi.UnpackEvent`. -/
  unpackEvent : Log → Except GoError MapTransferOutLog
  /-- Go `math.CompareBigInt`. -/
  compareBigInt : Option Int → Option Int → Int
  /-- Go `_checkOrderId`. -/
  checkOrderId : CommonHash → Except GoError Bool
  /-- The calls of `_mcsProofs`. -/
  mcs : McsEnv

/-- Go `(n *xsyncer) prepareToGet`. -/
def xsyncer.prepareToGet (lib : Lib) (env : XSyncEnv) (start : Nat) :
    List Effect × Option GoError :=
  match env.maxProvableHeight with
  | .error err => ([Effect.provableHeights], some err)
  | .ok max =>
    if lib.HeightCompare start max > 0 then
      ([Effect.provableHeights],
        some (NotUnlockError (.plain "max provable height exceeded")))
    else
      ([Effect.provableHeights], none)

/-- The `for _, tx := range block.BlockBody.Txs` loop of `xsyncer.processBlock`. -/
def xsyncer.txLoop (conf : SyncConf) (env : XSyncEnv) :
    List Transaction → List TxFinalProof → List Effect × Except GoError (List TxFinalProof)
  | [], txproofs => ([], .ok txproofs)
  | tx :: rest, txproofs =>
    if tx.To.isSome && decide (tx.Input.length > 0) then
      let head := [Effect.runningRefresh, Effect.proofFetch tx.TxHash]
      match env.txLocalProof tx.TxHash with
      | .error err => (head, .error (.wrap "get local proof failed" err))
      | .ok none => (head, .error (.plain "get local proof failed"))
      | .ok (some proof) =>
        if !env.receiptSuccess proof.Receipt then
          let (effs, r) := xsyncer.txLoop conf env rest txproofs
          (head ++ effs, r)
        else
          match env.localVerify proof with
          | some err => (head, .error (.wrap "local proof verify failed" err))
          | none =>
            match proof.Receipt with
            | none => (head, .error (.plain "get receipt failed"))
            | some rcpt =>
              match locateLog rcpt.Logs conf.mcsAddress conf.watchTopicId with
              | none =>
                let (effs, r) := xsyncer.txLoop conf env rest txproofs
                (head ++ effs, r)
              | some (_, rlog) =>
                match env.unpackEvent rlog with
                | .error err => (head, .error (.wrap "unpack log failed" err))
                | .ok out =>
                  if env.compareBigInt out.ToChain conf.TargetChainID = 0 then
                    match env.checkOrderId out.OrderId with
                    | .error err =>
                      (head ++ [Effect.orderCheck out.OrderId],
                        .error (.wrap "check orderid failed" err))
                    | .ok true =>
                      let (effs, r) := xsyncer.txLoop conf env rest txproofs
                      (head ++ Effect.orderCheck out.OrderId :: effs, r)
                    | .ok false =>
                      let (effs, r) := xsyncer.txLoop conf env rest (txproofs ++ [proof])
                      (head ++ Effect.orderCheck out.OrderId :: effs, r)
                  else
                    let (effs, r) := xsyncer.txLoop conf env rest txproofs
                    (head ++ effs, r)
    else
      xsyncer.txLoop conf env rest txproofs

/-- Go `(n *xsyncer) processBlock`. -/
def xsyncer.processBlock (lib : Lib) (conf : SyncConf) (env : XSyncEnv)
    (block : BlockEMessage) : HandlerResult :=
  match env.maxProvableHeight with
  | .error err => { effects := [Effect.provableHeights], fatal := some err, warning := none }
  | .ok max =>
    match wellFormed (some block) with
    | none => { effects := [Effect.provableHeights], fatal := none, warning := none }
    | some (_, header, body) =>
      if lib.HeightCompare header.Height max > 0 then
        { effects := [Effect.provableHeights],
          fatal := some (NotUnlockError (.plain "max provable height exceeded")),
          warning := none }
      else
        match xsyncer.txLoop conf env body.Txs [] with
        | (effs, .error err) =>
          { effects := Effect.provableHeights :: effs, fatal := some err, warning := none }
        | (effs, .ok txproofs) =>
          match _mcsProofs env.mcs txproofs with
          | (meffs, some err) =>
            { effects := Effect.provableHeights :: effs ++ meffs,
              fatal := some (.wrap "MCS proof failed" err), warning := none }
          | (meffs, none) =>
            { effects := Effect.provableHeights :: effs ++ meffs,
              fatal := none, warning := none }

/-- Go `CommitteeProof` of `types.go`. -/
structure CommitteeProof where
  Header : Option BlockHeader
  Comm : Option Committee
  PaSs : PubAndSigs
  SyncingEpoch : Nat
  deriving DecidableEq, Repr

/-- Go `(p *CommitteeProof) Verify(mainchainNeeded)`: `none` for a nil error. -/
def CommitteeProof.Verify (lib : Lib) (p : CommitteeProof) (mainchainNeeded : Bool) :
    Option GoError :=
  match p.Header with
  | none => some (.plain "missing header or committee")
  | some header =>
    if !lib.CommIsAvailable p.Comm then
      some (.plain "missing header or committee")
    else if mainchainNeeded && !lib.ChainIDIsMain header.ChainID then
      some (.plain "not a main chain header")
    else if !lib.HashEqual (lib.CommHash p.Comm) header.ElectedNextRoot then
      some (.plain "committee not match with Header.ElectedNextRoot")
    else
      match lib.PaSsVerify p.PaSs (lib.HeaderHash header) with
      | (_, some err) => some (.wrap "signature list verify failed" err)
      | (n, none) =>
        if n ≤ 0 then some (.plain "signature list verify failed") else none

/-- Go `updateEvent` of `types.go`. -/
structure updateEvent where
  Epoch : Nat
  CommHash : CommonHash
  deriving DecidableEq, Repr

/-- Go `client.ReceiptWithFwds` as `_targetUpdateComm` reads it: the values of
`Success()` and `Err()`, and the logs, entries possibly nil. -/
structure ReceiptWithFwds where
  Success : Bool
  Err : GoError
  Logs : List (Option Log)
  deriving DecidableEq, Repr

/-- Go `(a *maintainer) _parseLNUpdateEvent` and `(a *xmaintainer) _parseLNUpdateEvent`,
which are the same function: the epoch is read from the last 8 bytes of topic 1. -/
def _parseLNUpdateEvent (lib : Lib) (l : Option Log) : Except GoError updateEvent :=
  match l with
  | none => .error (.plain "invalid log")
  | some lg =>
    match lg.Topics with
    | _ :: t1 :: t2 :: _ =>
      .ok { Epoch := lib.BytesToUint64 (t1.drop 24), CommHash := t2 }
    | _ => .error (.plain "invalid log")

/-- The `for _, l := range rcpt.Logs` loop that ends `_targetUpdateComm`, with the
`return` after it: the first non-nil log whose first topic is the event id decides. -/
def updateEventLoop (lib : Lib) (eventID : CommonHash) (header : BlockHeader) :
    List (Option Log) → Option GoError
  | [] => some (.plain "no update committee event found")
  | l :: rest =>
    match l with
    | some lg =>
      if decide (lg.Topics.length > 0) && lg.Topics.head? == some eventID then
        match _parseLNUpdateEvent lib (some lg) with
        | .error err => some (.wrap "event parse failed" err)
        | .ok event =>
          let headerEpoch := lib.HeightEpochNum header.Height
          let (diff, cmp) := lib.EpochDiff headerEpoch event.Epoch
          if cmp ≥ 0 ∨ diff ≠ 1 then
            some (.plain "updates are not performing as expected: want Epoch")
          else if !lib.HashEqual event.CommHash header.ElectedNextRoot then
            some (.plain "updates are not performing as expected: want Comm")
          else
            none
      else
        updateEventLoop lib eventID header rest
    | none => updateEventLoop lib eventID header rest

/-- Outcomes of the calls `_targetUpdateComm` makes after `comm.Verify`. -/
structure UpdateEnv where
  /-- The error result of `sendingLock.Fetch`. -/
  sendingFetch : Option GoError
  /-- The error result of packing the proof: `Inputs.Pack(proof)` in maintain,
  `comm.ForXDataABI()` in xmaintain. -/
  packData : Option GoError
  /-- The error result of packing the call input. -/
  packInput : Option GoError
  /-- The result of `nonceWithBalanceMoreThan`. -/
  nonce : Except GoError Nat
  /-- The error result of `sendLegacyTx`. -/
  sendTx : Option GoError
  /-- The result of `checkReceipt`. -/
  checkReceipt : Except GoError ReceiptWithFwds
  /-- The id of the `UpdateCommittee` event in the ABI. -/
  eventID : CommonHash

/-- The body shared by `(a *maintainer) _targetUpdateComm` and
`(a *xmaintainer) _targetUpdateComm`, which differ in the argument of `Verify`, in the
ABI and in the message of a failed proof packing. The deferred `sendingLock.Release`
runs on every return after a successful `Fetch`. A nil `comm.Header` cannot get past
`Verify`. -/
def targetUpdateComm (lib : Lib) (mainchainNeeded : Bool) (packMsg : String)
    (env : UpdateEnv) (comm : CommitteeProof) : List Effect × Option GoError :=
  match CommitteeProof.Verify lib comm mainchainNeeded with
  | some err => ([], some err)
  | none =>
    match env.sendingFetch with
    | some err => ([Effect.sendingFetch], some (.wrap "is sending, fetch failed" err))
    | none =>
      match env.packData with
      | some err =>
        ([Effect.sendingFetch, Effect.sendingRelease], some (.wrap packMsg err))
      | none =>
        match env.packInput with
        | some err =>
          ([Effect.sendingFetch, Effect.sendingRelease], some (.wrap "packinput failed" err))
        | none =>
          let pre := [Effect.sendingFetch, Effect.suggestGasPrice, Effect.nonceQuery]
          match env.nonce with
          | .error err => (pre ++ [Effect.sendingRelease], some err)
          | .ok nonce =>
            match env.sendTx with
            | some err =>
              (pre ++ [Effect.txSend nonce, Effect.sendingRelease],
                some (.wrap "send tx failed" err))
            | none =>
              let sent := pre ++ [Effect.txSend nonce, Effect.receiptPoll, Effect.sendingRelease]
              match env.checkReceipt with
              | .error err => (sent, some (.wrap "get receipt failed" err))
              | .ok rcpt =>
                if !rcpt.Success then
                  (sent, some (.wrap "tx failed" rcpt.Err))
                else
                  match comm.Header with
                  | none => (sent, some (.plain "nil pointer dereference"))
                  | some header => (sent, updateEventLoop lib env.eventID header rcpt.Logs)

/-- Go `(a *maintainer) _targetUpdateComm`. -/
def maintainer._targetUpdateComm (lib : Lib) (env : UpdateEnv) (comm : CommitteeProof) :
    List Effect × Option GoError :=
  targetUpdateComm lib true "packdata failed" env comm

/-- Go `(a *xmaintainer) _targetUpdateComm`. -/
def xmaintainer._targetUpdateComm (lib : Lib) (env : UpdateEnv) (comm : CommitteeProof) :
    List Effect × Option GoError :=
  targetUpdateComm lib false "failed at ForXDataABI" env comm

/-- The distance and the order of two epoch numbers as numbers: `(b - a, -1)` below,
`(0, 0)` equal, `(a - b, 1)` above. -/
def numericDiff (a b : Nat) : Nat × Int :=
  if a = b then (0, 0) else if a < b then (b - a, -1) else (a - b, 1)

/-- Whether a log entry of a receipt is taken as the `UpdateCommittee` event: the
guard of the loop that ends `_targetUpdateComm`. -/
def isUpdateLog (eventID : CommonHash) : Option Log → Bool
  | some lg => decide (lg.Topics.length > 0) && lg.Topics.head? == some eventID
  | none => false

/-- Go `int64` arithmetic: the value of a sum as the machine stores it. -/
def wrapInt64 (x : Int) : Int := (x + 2 ^ 63) % 2 ^ 64 - 2 ^ 63

/-- Go `Expirable[T]` of `types.go` without its mutex: the value, the time to live in
milliseconds and the expiry time stamp, both `int64`. -/
structure Expirable (T : Type) where
  value : T
  ttlms : Int
  expires : Int

/-- Go `NewExpirable(val, ttlms, expires)`. -/
def NewExpirable {T : Type} (val : T) (ttlms : Int) (expires : Int) : Expirable T :=
  { value := val, ttlms := ttlms, expires := expires }

/-- Go `(e *Expirable[T]) Get()` when `time.Now().UnixMilli()` is `now`, milliseconds
since the Unix epoch: the state it leaves and the pair it returns. -/
def Expirable.Get {T : Type} (e : Expirable T) (now : Nat) : Expirable T × T × Bool :=
  if (now : Int) ≥ e.expires then (e, e.value, false) else (e, e.value, true)

/-- Go `(e *Expirable[T]) Update(val)` when `time.Now().UnixMilli()` is `now`. -/
def Expirable.Update {T : Type} (e : Expirable T) (now : Nat) (val : T) : Expirable T :=
  { e with value := val, expires := wrapInt64 ((now : Int) + e.ttlms) }

/-! ## Leases (`types.go`) -/

/-- Go `*redislock.Lock`: the handle of an obtained lease, with its token. -/
structure LockHandle where
  token : String
  deriving DecidableEq, Repr

/-- Go `redisLock` of `types.go` without its mutex and clients; `rlock` is the local
handle, nil when the lease is not held locally. -/
structure redisLock where
  key : String
  value : String
  ttl : Nat
  rlock : Option LockHandle
  deriving DecidableEq, Repr

/-- The answer of the store to `locker.Obtain`. -/
inductive ObtainReply where
  /-- The lease was granted. -/
  | obtained (lock : LockHandle)
  /-- Go `redislock.ErrNotObtained`: another holder has the key. -/
  | notObtained
  /-- Any other error. -/
  | failed (err : GoError)
  deriving DecidableEq, Repr

/-- The answers of the store to the calls of one lease operation. -/
structure StoreEnv where
  /-- The answer to `locker.Obtain(ctx, key, ttl, Token: value)`. -/
  obtain : ObtainReply
  /-- The value of `redis.Get(ctx, key).Val()`. -/
  get : String
  /-- The error result of `rlock.Release(ctx)`. -/
  release : Option GoError
  /-- The error result of `rlock.Refresh(ctx, ttl, nil)`. -/
  refresh : Option GoError

/-- A call on the store made by a lease operation. -/
inductive StoreCall where
  | obtain (key : String) (token : String) (ttl : Nat)
  | get (key : String)
  | release (handle : LockHandle)
  | refresh (handle : LockHandle) (ttl : Nat)
  deriving DecidableEq, Repr

/-- Go `redislock.ErrNotObtained`. -/
def ErrNotObtained : GoError := .plain "redislock: not obtained"

/-- The result of a lease operation: the lease afterwards, the store calls made, and
the returned pair `(lockingValue, err)`. -/
abbrev LockResult := redisLock × List StoreCall × String × Option GoError

/-- Go `(l *redisLock) _fetch`. -/
def redisLock._fetch (l : redisLock) (env : StoreEnv) : LockResult :=
  match env.obtain with
  | .obtained lock =>
    ({ l with rlock := some lock }, [StoreCall.obtain l.key l.value l.ttl], "", none)
  | .notObtained =>
    (l, [StoreCall.obtain l.key l.value l.ttl, StoreCall.get l.key], env.get,
      some ErrNotObtained)
  | .failed err => (l, [StoreCall.obtain l.key l.value l.ttl], "", some err)

/-- Go `(l *redisLock) Fetch`. -/
def redisLock.Fetch (l : redisLock) (env : StoreEnv) : LockResult :=
  match l.rlock with
  | some lock => (l, [], lock.token, some (.plain "lock already fetched"))
  | none => l._fetch env

/-- Go `(l *redisLock) Release`: the lease afterwards, the store calls made and the
error returned. -/
def redisLock.Release (l : redisLock) (env : StoreEnv) :
    redisLock × List StoreCall × Option GoError :=
  match l.rlock with
  | none => (l, [], none)
  | some lock => ({ l with rlock := none }, [StoreCall.release lock], env.release)

/-- Go `(l *redisLock) Refresh`. -/
def redisLock.Refresh (l : redisLock) (env : StoreEnv) :
    redisLock × List StoreCall × Option GoError :=
  match l.rlock with
  | none => (l, [], some (.plain "lock not fetched"))
  | some lock => (l, [StoreCall.refresh lock l.ttl], env.refresh)

/-- Go `(l *redisLock) FetchOrRefresh`. -/
def redisLock.FetchOrRefresh (l : redisLock) (env : StoreEnv) : LockResult :=
  match l.rlock with
  | none => l._fetch env
  | some lock =>
    match env.refresh with
    | some err => (l, [StoreCall.refresh lock l.ttl], "", some err)
    | none => (l, [StoreCall.refresh lock l.ttl], l.value, none)

/-! ## Startup of maintain and xmaintain (`maintain.go`, `xmaintain.go`) -/

/-- Outcomes of the calls of `confirmConfig`. -/
structure ConfirmEnv where
  /-- The error result of `a.looper.confirmConfig`. -/
  looperConfirm : Option GoError
  /-- The error result of packing the `lastHeight()` call. -/
  pack : Option GoError
  /-- The error result of `callContract`. -/
  call : Option GoError
  /-- The result of unpacking the returned height. -/
  unpack : Except GoError Nat
  /-- The cursor key as `getStartHeight` reads it. -/
  cursor : Option Nat
  /-- The error result of `updateStartHeight`. -/
  setCursor : Option GoError
  /-- The flag `checkLNComm`. -/
  checkLNComm : Bool
  /-- The error result of `_checkComms` (maintain) or `_checkLatestComm` (xmaintain). -/
  checkComms : Option GoError

/-- The body shared by `(a *maintainer) confirmConfig` and
`(a *xmaintainer) confirmConfig`, which differ in the ABI and in the messages: the
calls on the cursor key and the error returned. `lastHeight + 1` is a `uint64` sum. -/
def confirmConfigBody (lib : Lib) (conf : LooperConf) (env : ConfirmEnv) :
    List Event × Option GoError :=
  match env.looperConfirm with
  | some err => ([], some err)
  | none =>
    match env.pack with
    | some err => ([], some (.wrap "encode lightnode.lastHeight() failed" err))
    | none =>
      match env.call with
      | some err => ([], some (.wrap "lightnode.lastHeight() failed" err))
      | none =>
        match env.unpack with
        | .error err => ([], some (.wrap "parse lastHeight failed" err))
        | .ok lastHeight =>
          let newHeight := (lastHeight + 1) % 2 ^ 64
          let startHeight := looper.getStartHeight env.cursor conf.SrcStartHeight
          let (diff, cmp) := lib.HeightDiff startHeight newHeight
          let checked : List Event × Option GoError :=
            if env.checkLNComm then
              match env.checkComms with
              | some err => ([], some (.exit ExitLCErr err))
              | none => ([], some (.exit 0 (.plain "comms checked")))
            else
              ([], none)
          if cmp < 0 then
            match env.setCursor with
            | some err =>
              ([Event.cursorSet newHeight], some (.wrap "update start height failed" err))
            | none => (Event.cursorSet newHeight :: checked.1, checked.2)
          else if cmp > 0 ∧ diff ≥ lib.BlocksInEpoch then
            ([], some (.plain "startHeight but light-node.lastHeight"))
          else
            checked

/-- Go `(a *maintainer) confirmConfig`. -/
def maintainer.confirmConfig (lib : Lib) (conf : LooperConf) (env : ConfirmEnv) :
    List Event × Option GoError :=
  confirmConfigBody lib conf env

/-- Go `(a *xmaintainer) confirmConfig`. -/
def xmaintainer.confirmConfig (lib : Lib) (conf : LooperConf) (env : ConfirmEnv) :
    List Event × Option GoError :=
  confirmConfigBody lib conf env

/-! ## Receipt proofs (`adapter.go`, `lightnode.go`) -/

/-- Modelled from the spec: the constant `models.ReceiptV2` of go-tkmrpc, which the
specification gives as 2 (`receipt version ≥ 2`). -/
def ReceiptV2 : Nat := 2

/-- Go `TKMLog` of `lightnode.go`, the fields the model of `Log` carries. -/
structure TKMLog where
  Address : Bytes
  Topics : List CommonHash
  Data : Bytes
  deriving DecidableEq, Repr

/-- Go `TKMReceipt` of `lightnode.go`, the fields the model of `Receipt` carries. -/
structure TKMReceipt where
  Status : Nat
  Logs : List TKMLog
  TxHash : Bytes
  Version : Nat
  deriving DecidableEq, Repr

/-- Go `TKMHeader` of `lightnode.go`, the fields the model of `BlockHeader` carries. -/
structure TKMHeader where
  ChainID : Nat
  Height : Nat
  ElectedNextRoot : Bytes
  deriving DecidableEq, Repr

/-- Go `TKMReceiptProof` of `lightnode.go`. -/
structure TKMReceiptProof where
  Receipt : TKMReceipt
  Log : TKMLog
  LogProof : List MerkleProof
  Proofs : List MerkleProof
  Header : TKMHeader
  Signatures : List Bytes
  deriving DecidableEq, Repr

/-- Go `TKMReceiptData` of `lightnode.go`. -/
structure TKMReceiptData where
  Receipt : TKMReceipt
  Log : TKMLog
  LogProof : List MerkleProof
  Proofs : List MerkleProof
  ChainID : Nat
  Height : Nat
  Signatures : List Bytes
  deriving DecidableEq, Repr

/-- The zero value `TKMLog{}`: the zero address, no topics, no data. -/
def TKMLog.zero : TKMLog := { Address := List.replicate 20 0, Topics := [], Data := [] }

/-- Go `(tl TKM2LightNode) ReceiptLog(rlog)`. -/
def T2LN.ReceiptLog (rlog : Option Log) : TKMLog :=
  match rlog with
  | none => TKMLog.zero
  | some l => { Address := l.Address, Topics := l.Topics, Data := l.Data }

/-- Go `(tl TKM2LightNode) ReceiptLogs(rlogs)`. -/
def T2LN.ReceiptLogs (rlogs : List Log) : List TKMLog :=
  rlogs.map (fun l => T2LN.ReceiptLog (some l))

/-- Go `(tl TKM2LightNode) Receipt(rpt)`. -/
def T2LN.Receipt (rpt : Receipt) : TKMReceipt :=
  { Status := rpt.Status, Logs := T2LN.ReceiptLogs rpt.Logs, TxHash := rpt.TxHash,
    Version := rpt.Version }

/-- Go `(tl TKM2LightNode) Header(h)`; `Slice()` of a nil hash is the empty slice. -/
def T2LN.Header (h : BlockHeader) : TKMHeader :=
  { ChainID := h.ChainID, Height := h.Height, ElectedNextRoot := h.ElectedNextRoot.getD [] }

/-- Go `(tl TKM2LightNode) PaSs(pass)`: the signatures of the entries that are not nil
and whose signature is not empty. -/
def T2LN.PaSs (pass : PubAndSigs) : List Bytes :=
  pass.filterMap (fun pas =>
    match pas with
    | some s => if s.Signature.length > 0 then some s.Signature else none
    | none => none)

/-- Go `(tl TKM2LightNode) RcptAndTargetLog`: the receipt clone without logs, the
target log and the log proof chain. The entries of `Logs` are not nil. -/
def T2LN.RcptAndTargetLog (lib : Lib) (receipt : Option LcAgent.Receipt)
    (contractAddr : Bytes) (topicId : CommonHash) :
    Except GoError (LcAgent.Receipt × Log × List ProofStep) :=
  match receipt with
  | none => .error (.plain "invalid receipt version")
  | some r =>
    if r.Version < ReceiptV2 ∨ r.Logs.length = 0 then
      .error (.plain "invalid receipt version")
    else
      match locateLog r.Logs contractAddr topicId with
      | none => .error (.plain "no target Log found")
      | some (i, rlog) =>
        match lib.LogsMerkleRoot r.Logs i with
        | .error err => .error (.wrap "calculate log root of the Receipt failed" err)
        | .ok logProof => .ok ({ r with Logs := [] }, rlog, logProof)

/-- Go `(tl TKM2LightNode) ReceiptProof`: `.ok none` is the result `(nil, nil)`. -/
def T2LN.ReceiptProof (lib : Lib) (txProof : Option TxFinalProof) (contractAddr : Bytes)
    (topicId : CommonHash) : Except GoError (Option TKMReceiptProof) :=
  match txProof with
  | none => .ok none
  | some p =>
    match p.Header, p.Receipt with
    | some header, some receipt =>
      if p.ReceiptProof.length = 0 then
        .error (.plain "invalid tx final proof")
      else if receipt.Version ≥ ReceiptV2 then
        match T2LN.RcptAndTargetLog lib (some receipt) contractAddr topicId with
        | .error err => .error err
        | .ok (rcpt, rlog, logProof) =>
          .ok (some
            { Receipt := T2LN.Receipt rcpt,
              Log := T2LN.ReceiptLog (some rlog),
              LogProof := T2LN.MerkleProofs logProof,
              Proofs := T2LN.MerkleProofs p.ReceiptProof,
              Header := T2LN.Header header,
              Signatures := T2LN.PaSs p.Sigs })
      else
        .ok (some
          { Receipt := T2LN.Receipt receipt,
            Log := TKMLog.zero,
            LogProof := [],
            Proofs := T2LN.MerkleProofs p.ReceiptProof,
            Header := T2LN.Header header,
            Signatures := T2LN.PaSs p.Sigs })
    | _, _ => .error (.plain "invalid tx final proof")

/-- Go `(tl TKM2LightNode) ReceiptData`: `.ok none` is the result `(nil, nil)`. -/
def T2LN.ReceiptData (lib : Lib) (txProof : Option TxFinalProof) (contractAddr : Bytes)
    (topicId : CommonHash) : Except GoError (Option TKMReceiptData) :=
  match txProof with
  | none => .ok none
  | some p =>
    match p.Header, p.Receipt with
    | some header, some receipt =>
      if p.ReceiptProof.length = 0 then
        .error (.plain "invalid tx final proof")
      else if receipt.Version ≥ ReceiptV2 then
        match T2LN.RcptAndTargetLog lib (some receipt) contractAddr topicId with
        | .error err => .error err
        | .ok (rcpt, rlog, logProof) =>
          .ok (some
            { Receipt := T2LN.Receipt rcpt,
              Log := T2LN.ReceiptLog (some rlog),
              LogProof := T2LN.MerkleProofs logProof,
              Proofs := T2LN.MerkleProofs p.ReceiptProof,
              ChainID := header.ChainID % 2 ^ 32,
              Height := header.Height % 2 ^ 64,
              Signatures := T2LN.PaSs p.Sigs })
      else
        .ok (some
          { Receipt := T2LN.Receipt receipt,
            Log := TKMLog.zero,
            LogProof := [],
            Proofs := T2LN.MerkleProofs p.ReceiptProof,
            ChainID := header.ChainID % 2 ^ 32,
            Height := header.Height % 2 ^ 64,
            Signatures := T2LN.PaSs p.Sigs })
    | _, _ => .error (.plain "invalid tx final proof")

/-- A log is one the relay looks for: it comes from the contract address and its
first topic is the topic id. -/
def logMatches (contractAddr : Bytes) (topicId : CommonHash) (l : Log) : Prop :=
  l.Address = contractAddr ∧ l.Topics.head? = some topicId

/-! ## Properties of the sync handler stated in the specification -/

/-- The nonces passed to `sendLegacyTx`, in call order. -/
def txSends : List Effect → List Nat
  | [] => []
  | .txSend n :: rest => n :: txSends rest
  | _ :: rest => txSends rest

/-- The order id the sync handler reads from a proof: that of the unpacked first
log of the watched contract and topic in the proof's receipt. -/
def syncer.orderIdOf (conf : SyncConf) (env : SyncEnv) (proof : TxFinalProof) :
    Option CommonHash :=
  match proof.Receipt with
  | none => none
  | some rcpt =>
    match locateLog rcpt.Logs conf.mcsAddress conf.watchTopicId with
    | none => none
    | some (_, rlog) =>
      match env.unpackEvent rlog with
      | .error _ => none
      | .ok out => some out.OrderId

/-- The precheck of the proof's order id against the target's order list answered
"not present". -/
def syncer.precheckedAbsent (conf : SyncConf) (env : SyncEnv) (proof : TxFinalProof) : Prop :=
  ∃ oid, syncer.orderIdOf conf env proof = some oid ∧ env.checkOrderId oid = .ok false

/-- Every transaction of the list that the sync handler looks at has a final proof
that is fetched, and when its receipt is successful the proof verifies, the receipt
is there, and the transfer-out log of the watched contract, when there is one,
unpacks to an order id that the target's order list already holds. -/
def syncer.allOrdersPresent (conf : SyncConf) (env : SyncEnv) (maxMain : Nat) :
    List Transaction → Prop
  | [] => True
  | tx :: rest =>
    ((tx.To.isSome && decide (tx.Input.length > 0)) = true →
      ∃ proof, env.txFinalProof tx.TxHash maxMain = .ok (some proof) ∧
        (env.receiptSuccess proof.Receipt = true →
          env.finalVerify proof = none ∧
          ∃ rcpt, proof.Receipt = some rcpt ∧
            ∀ (i : Nat) (rlog : Log),
              locateLog rcpt.Logs conf.mcsAddress conf.watchTopicId = some (i, rlog) →
              ∃ out, env.unpackEvent rlog = .ok out ∧ env.checkOrderId out.OrderId = .ok true))
    ∧ syncer.allOrdersPresent conf env maxMain rest

/-! ## Store keys (`runner.go`, `xsync.go`, `xmaintain.go`) -/

/-- The field `TargetName` that `runner.prepareConfig` stores in the configuration
for the value of the target name flag. -/
def runner.TargetName (lib : Lib) (targetNameFlag : String) : String :=
  lib.stringsToUpper targetNameFlag

/-- Go `(n *xsyncer) Name()`. -/
def xsyncer.Name (targetName : String) : String :=
  "XSYNC_" ++ targetName

/-- Go `(a *xmaintainer) Name()`. -/
def xmaintainer.Name (targetName : String) : String :=
  "XMAINTAIN_" ++ targetName

/-- The cursor key `keys.startHeightKey` that `xsyncer.prepareConfig` sets for a
process started with the target name flag and the source chain id. -/
def xsyncer.startHeightKey (lib : Lib) (targetNameFlag : String) (srcChainId : Nat) : String :=
  lib.stringsToLower (xsyncer.Name (runner.TargetName lib targetNameFlag))
    ++ "_start_" ++ toString srcChainId

/-- The cursor key `keys.startHeightKey` that `xmaintainer.prepareConfig` sets. -/
def xmaintainer.startHeightKey (lib : Lib) (targetNameFlag : String) (srcChainId : Nat) :
    String :=
  lib.stringsToLower (xmaintainer.Name (runner.TargetName lib targetNameFlag))
    ++ "_start_" ++ toString srcChainId

/-- The key `syncStartHeightKey` that `xmaintainer.prepareConfig` sets, from which
`xmaintainer` reads the height the xsync process has reached. -/
def xmaintainer.syncStartHeightKey (lib : Lib) (targetNameFlag : String) (srcChainId : Nat) :
    String :=
  "xsync_" ++ runner.TargetName lib targetNameFlag ++ "_start_" ++ toString srcChainId

/-! ## Configuration checks (`config.go`) -/

/-- Go `Maintain`. -/
structure Maintain where
  TargetLCAddr : Bytes
  deriving DecidableEq, Repr

/-- Go `XMaintain`. -/
structure XMaintain where
  TargetLCAddr : Bytes
  XsyncStartHeightKey : String
  deriving DecidableEq, Repr

/-- Go `Synchronize`; `TkmChainId` is a `*big.Int`. -/
structure Synchronize where
  TkmChainId : Option Int
  TkmMCSAddress : Bytes
  TargetMSCAddr : Bytes
  TargetLCAddr : Bytes
  UpdatableLC : Bool
  MaxHeightTTL : Int
  deriving DecidableEq, Repr

/-- Go `XSynchronize`; `XChainId` is a `*big.Int`. -/
structure XSynchronize where
  XChainId : Option Int
  XMCSAddress : Bytes
  TargetMSCAddr : Bytes
  TargetLCAddr : Bytes
  MaxHeightTTL : Int
  deriving DecidableEq, Repr

/-- Go `Update`. -/
structure Update where
  Interval : Nat
  TargetLCAddr : Bytes
  ForceEpoch : Nat
  deriving DecidableEq, Repr

/-- The test `id == nil || id.Sign() < 0` on a `*big.Int`. -/
def chainIdInvalid : Option Int → Bool
  | none => true
  | some v => decide (v < 0)

/-- Go `(m Maintain) validate()`: the error, `none` for nil. -/
def Maintain.validate (lib : Lib) (m : Maintain) : Option GoError :=
  if m.TargetLCAddr = lib.EmptyAddress then
    some (.plain "target light-client contract address is missing")
  else
    none

/-- Go `(m XMaintain) validate()`. -/
def XMaintain.validate (lib : Lib) (m : XMaintain) : Option GoError :=
  if m.TargetLCAddr = lib.EmptyAddress then
    some (.plain "target light-client contract address is missing")
  else if m.XsyncStartHeightKey = "" then
    some (.plain "xsync start height key is missing")
  else
    none

/-- Go `(s Synchronize) validate()`. -/
def Synchronize.validate (lib : Lib) (s : Synchronize) : Option GoError :=
  if chainIdInvalid s.TkmChainId then
    some (.plain "invalid TKM ChainID")
  else if s.TkmMCSAddress = lib.EmptyAddress then
    some (.plain "TKM MapCrossChainService contract address missing")
  else if s.TargetMSCAddr = lib.EmptyAddress then
    some (.plain "target MapCrossChainService contract address missing")
  else
    none

/-- Go `(s XSynchronize) validate()`. -/
def XSynchronize.validate (lib : Lib) (s : XSynchronize) : Option GoError :=
  if chainIdInvalid s.XChainId then
    some (.plain "invalid X-Relay ChainID")
  else if s.XMCSAddress = lib.EmptyAddress then
    some (.plain "X-Relay MapCrossChainServiceRelay contract address missing")
  else if s.TargetMSCAddr = lib.EmptyAddress then
    some (.plain "target MapCrossChainService contract address missing")
  else
    none

/-- Go `(u Update) validate()`. -/
def Update.validate (lib : Lib) (u : Update) : Option GoError :=
  if u.TargetLCAddr = lib.EmptyAddress then
    some (.plain "target updatable light-client contract address missing")
  else
    none

/-! ## Committee comparison (`utils.go`) -/

/-- The key set of the map `addrMap` after the loop
`for _, addr := range addrs { addrMap[addr] = struct{}{} }` started from the key set
`m`. -/
def addrMapOf (addrs : List Bytes) (m : List Bytes) : List Bytes :=
  addrs.foldl (fun keys a => if a ∈ keys then keys else keys ++ [a]) m

/-- The `for _, nid := range comm.Members` loop of `committeeEquals` with the key
set of `addrMap`, and the `return len(addrMap) == 0` after it. -/
def committeeEqualsLoop (lib : Lib) : List Bytes → List Bytes → Bool
  | [], addrMap => addrMap.length == 0
  | nid :: rest, addrMap =>
    if lib.NodeAddress nid ∈ addrMap then
      committeeEqualsLoop lib rest (addrMap.filter (fun a => decide (a ≠ lib.NodeAddress nid)))
    else
      false

/-- Go `committeeEquals(comm, addrs)`: `none` is the nil dereference of `comm.Members`
on a nil committee that got past the two size tests. -/
def committeeEquals (lib : Lib) (comm : Option Committee) (addrs : List Bytes) : Option Bool :=
  if lib.CommSize comm = 0 ∧ addrs.length = 0 then
    some true
  else if lib.CommSize comm ≠ addrs.length then
    some false
  else
    match comm with
    | none => none
    | some c => some (committeeEqualsLoop lib c.Members (addrMapOf addrs []))

/-! ## The updater (`updater.go`) -/

def ExitByInput : Nat := 0x40
def ExitRunningLockErr : Nat := 0x42
def ExitByConfig : Nat := 0x44
def ExitSourceErr : Nat := 0x51
def ExitTargetErr : Nat := 0x52
def ExitRedisErr : Nat := 0x53

/-- Go `math.MaxInt64`. -/
def MaxInt64 : Int := 2 ^ 63 - 1

/-- Go conversion `uint64(x)` of an `int64`. -/
def uint64OfInt64 (x : Int) : Nat := (x % 2 ^ 64).toNat

/-- Go conversion `int64(n)` of a `uint64`. -/
def int64OfUint64 (n : Nat) : Int := wrapInt64 (n : Int)

/-- The reply of the store to `Get(lastUpdateTimeKey).Int64()`: `redis.Nil` for an
absent key, another error (a value that is no `int64` included), or the value. -/
inductive CacheReply where
  | absent
  | failed (err : GoError)
  | value (v : Int)
  deriving DecidableEq, Repr

/-- Calls the updater makes on the store, the leases, the source and the target, in
call order. -/
inductive UCall where
  /-- Go `redis.Get` on the last-update key. -/
  | cacheGet
  /-- Go `redis.Set` on the last-update key with the value. -/
  | cacheSet (v : Int)
  /-- Go `runningLock.Fetch`. -/
  | runningFetch
  /-- Go `runningLock.FetchOrRefresh`. -/
  | runningFetchOrRefresh
  /-- Go `runningLock.Release`. -/
  | runningRelease
  /-- Go `sendingLock.Release` issued by `doWork`. -/
  | sendingRelease
  /-- Go `getSourceCommOfEpoch`: the source's committee of the epoch. -/
  | committeeOfEpoch (epoch : Nat)
  /-- Go `_currentCommittee`: the source's `ChainStats`. -/
  | chainStats
  /-- Go `_lastEpochInLC`: a call of the target light client. -/
  | lastEpochInLC
  /-- Go `_lastCommitteeInLC`: a call of the target light client. -/
  | lastCommitteeInLC
  /-- Go `_updateCommittee`: sending lease, transaction to the target, receipt. -/
  | updateCommittee (epoch : Nat)
  deriving DecidableEq, Repr

/-- The values passed to `redis.Set` on the last-update key, in call order. -/
def cacheSets : List UCall → List Int
  | [] => []
  | .cacheSet v :: rest => v :: cacheSets rest
  | _ :: rest => cacheSets rest

/-- Go `(u *updater) _lastUpdateTimeInCache`: 0 means not found. -/
def updater._lastUpdateTimeInCache (reply : CacheReply) : Int × Option GoError :=
  match reply with
  | .absent => (0, none)
  | .failed err => (0, some err)
  | .value l => (l, none)

/-- Go `(u *updater) _updateToLastUpdateTimeInCache`: the call made and the result;
`setErr` is the error result of `redis.Set`. -/
def updater._updateToLastUpdateTimeInCache (setErr : Option GoError) (newValue : Int) :
    List UCall × Int × Option GoError :=
  match setErr with
  | some err => ([UCall.cacheSet newValue], 0, some err)
  | none => ([UCall.cacheSet newValue], newValue, none)

/-- Go `(u *updater) _updateLastUpdateTimeInCache`; `clock` is `time.Now().Unix()`. -/
def updater._updateLastUpdateTimeInCache (setErr : Option GoError) (clock : Int) :
    List UCall × Int × Option GoError :=
  updater._updateToLastUpdateTimeInCache setErr (wrapInt64 (clock + 10))

/-- The part of the configuration the updater reads: `conf.Updater.Interval` and
`conf.Updater.ForceEpoch`, both `uint64`. -/
structure UpdaterConf where
  Interval : Nat
  ForceEpoch : Nat
  deriving DecidableEq, Repr

/-- Go `(u *updater) _canonicalTime`; `clock` is `time.Now().Unix()`. Go's `%` on
`int64` truncates towards zero. -/
def updater._canonicalTime (conf : UpdaterConf) (clock : Int) : Int :=
  let interval := int64OfUint64 conf.Interval
  if interval ≤ 1 then
    clock
  else
    wrapInt64 (clock - Int.tmod clock interval)

/-- Outcomes of the calls one invocation of `_forceUpdate` makes. -/
structure ForceEnv where
  /-- Go `_lastEpochInLC`. -/
  lastEpochInLC : Except GoError Nat
  /-- Go `_lastCommitteeInLC`. -/
  lastCommitteeInLC : Except GoError (List Bytes)
  /-- The error result of `_updateCommittee`. -/
  updateCommittee : Option GoError
  /-- Go `time.Now().Unix()` when `_updateLastUpdateTimeInCache` runs. -/
  clock : Int
  /-- The error result of `redis.Set` on the last-update key. -/
  cacheSet : Option GoError

/-- The end of `_forceUpdate` on both paths that finish the update:
`_updateLastUpdateTimeInCache` and the returns after it. -/
def updater.finishUpdate (env : ForceEnv) : List UCall × Option GoError :=
  match updater._updateLastUpdateTimeInCache env.cacheSet env.clock with
  | (calls, _, some err) =>
    (calls, some (.exit ExitRedisErr (.wrap "last update time failed in setting" err)))
  | (calls, _, none) => (calls, none)

/-- The part of `_forceUpdate` from the call of `_updateCommittee` on. -/
def updater.pushAndFinish (env : ForceEnv) (epoch : Nat) : List UCall × Option GoError :=
  match env.updateCommittee with
  | some err => ([UCall.updateCommittee epoch], some (.wrap "update current comm failed" err))
  | none =>
    let (calls, r) := updater.finishUpdate env
    (UCall.updateCommittee epoch :: calls, r)

/-- Go `(u *updater) _forceUpdate`. A nil committee cannot get past `IsAvailable` and
the size tests of `committeeEquals`; were it to, the dereference panics, which the
result `none` of `committeeEquals` stands for and which is taken here as no match. -/
def updater._forceUpdate (lib : Lib) (env : ForceEnv) (epoch : Nat)
    (comm : Option Committee) : List UCall × Option GoError :=
  if lib.EpochIsNil epoch || !lib.CommIsAvailable comm then
    ([], some (.plain "not available"))
  else
    match env.lastEpochInLC with
    | .error _ =>
      let (calls, r) := updater.pushAndFinish env epoch
      (UCall.lastEpochInLC :: calls, r)
    | .ok lastEpoch =>
      let cmp := lib.EpochCompare lastEpoch epoch
      if cmp > 0 then
        let (calls, r) := updater.pushAndFinish env epoch
        (UCall.lastEpochInLC :: calls, r)
      else if cmp = 0 then
        match env.lastCommitteeInLC with
        | .error _ =>
          let (calls, r) := updater.pushAndFinish env epoch
          (UCall.lastEpochInLC :: UCall.lastCommitteeInLC :: calls, r)
        | .ok lastComm =>
          if committeeEquals lib comm lastComm = some true then
            let (calls, r) := updater.finishUpdate env
            (UCall.lastEpochInLC :: UCall.lastCommitteeInLC :: calls, r)
          else
            let (calls, r) := updater.pushAndFinish env epoch
            (UCall.lastEpochInLC :: UCall.lastCommitteeInLC :: calls, r)
      else
        let (calls, r) := updater.pushAndFinish env epoch
        (UCall.lastEpochInLC :: calls, r)

/-- Outcomes of the calls one invocation of `_once` makes. -/
structure OnceEnv where
  /-- The reply of the store to the read of the last-update key. -/
  cacheGet : CacheReply
  /-- Go `time.Now().Unix()` in `_canonicalTime`. -/
  clock : Int
  /-- Go `_currentCommittee`: the epoch and the committee, or the error. -/
  currentCommittee : Except GoError (Nat × Option Committee)
  /-- The calls of `_forceUpdate`. -/
  force : ForceEnv

/-- Go `(u *updater) _once`. -/
def updater._once (lib : Lib) (conf : UpdaterConf) (env : OnceEnv) :
    List UCall × Option GoError :=
  match updater._lastUpdateTimeInCache env.cacheGet with
  | (_, some err) =>
    ([UCall.cacheGet], some (.exit ExitRedisErr (.wrap "get last time failed" err)))
  | (lastTime, none) =>
    let now := updater._canonicalTime conf env.clock
    if now > lastTime then
      match env.currentCommittee with
      | .error err =>
        ([UCall.cacheGet, UCall.chainStats],
          some (.wrap "get current comm from TKM failed" err))
      | .ok (epoch, comm) =>
        let (calls, r) := updater._forceUpdate lib env.force epoch comm
        (UCall.cacheGet :: UCall.chainStats :: calls, r)
    else
      ([UCall.cacheGet], none)

/-- Everything outside the updater that one pass of the `for`/`select` loop of
`updater.doWork` depends on. -/
structure UpdaterTick where
  /-- The `select` takes the `ctx.Done()` case rather than the timer case. -/
  ctxDone : Bool
  /-- The error result of `runningLock.FetchOrRefresh`. -/
  fetchOrRefresh : Option GoError
  /-- The calls of `_once` in this pass. -/
  once : OnceEnv

/-- Outcomes of the calls one invocation of `updater.doWork` makes. -/
structure DoWorkEnv where
  /-- The value of the postpone flag, a `uint64`. -/
  postpone : Nat
  /-- The reply of the store to the read of the last-update key. -/
  cacheGet : CacheReply
  /-- The error result of `redis.Set` on the last-update key. -/
  cacheSet : Option GoError
  /-- The error result of `runningLock.Fetch`. -/
  runningFetch : Option GoError
  /-- Go `_getCommitteeOfEpoch`. -/
  committeeOfEpoch : Except GoError (Option Committee)
  /-- The calls of `_forceUpdate` in the forced branch. -/
  force : ForceEnv
  /-- The calls of `_once` in the one-shot branch. -/
  once : OnceEnv
  /-- The passes of the loop in the periodic branch. -/
  ticks : List UpdaterTick

/-- The test `switch err.(type) { case cli.ExitCoder: ... }` of `updater.doWork`:
a type switch looks at the error itself, not at what it wraps. -/
def GoError.isExitCoder : GoError → Bool
  | .exit _ _ => true
  | _ => false

/-- The `for`/`select` loop of the periodic branch of `updater.doWork`, one
`UpdaterTick` per pass; the result is `none` when the loop is still running after
the last recorded pass. -/
def updater.periodicLoop (lib : Lib) (conf : UpdaterConf) :
    List UpdaterTick → List UCall × Option (Option GoError)
  | [] => ([], none)
  | tick :: ticks =>
    if tick.ctxDone then
      ([], some (some (.exit ExitByContext ctxErr)))
    else
      match runner.connectionCheck with
      | some err => ([], some (some err))
      | none =>
        match tick.fetchOrRefresh with
        | some _ =>
          let (calls, r) := updater.periodicLoop lib conf ticks
          (UCall.runningFetchOrRefresh :: calls, r)
        | none =>
          match updater._once lib conf tick.once with
          | (ocalls, none) =>
            let (calls, r) := updater.periodicLoop lib conf ticks
            (UCall.runningFetchOrRefresh :: (ocalls ++ calls), r)
          | (ocalls, some err) =>
            if err.isExitCoder then
              (UCall.runningFetchOrRefresh :: ocalls, some (some err))
            else if err.asLockError = some false then
              let (calls, r) := updater.periodicLoop lib conf ticks
              (UCall.runningFetchOrRefresh :: (ocalls ++ calls), r)
            else
              let (calls, r) := updater.periodicLoop lib conf ticks
              (UCall.runningFetchOrRefresh
                :: (ocalls ++ UCall.runningRelease :: UCall.sendingRelease :: calls), r)

/-- Go `(u *updater) doWork`: the calls made and the error returned, `none` while
the periodic loop is still running. -/
def updater.doWork (lib : Lib) (conf : UpdaterConf) (env : DoWorkEnv) :
    List UCall × Option (Option GoError) :=
  if env.postpone > 0 then
    if (env.postpone : Int) ≥ MaxInt64 then
      ([], some (some (.exit ExitByInput (.plain "too big for unix time"))))
    else
      match updater._lastUpdateTimeInCache env.cacheGet with
      | (_, some err) =>
        ([UCall.cacheGet],
          some (some (.exit ExitRedisErr (.wrap "get last time failed" err))))
      | (lastUpdate, none) =>
        if env.postpone > uint64OfInt64 (wrapInt64 (MaxInt64 - lastUpdate)) then
          ([UCall.cacheGet], some (some (.exit ExitByInput (.plain "unix time overflow"))))
        else
          match updater._updateToLastUpdateTimeInCache env.cacheSet
              (wrapInt64 (lastUpdate + int64OfUint64 env.postpone)) with
          | (calls, _, some err) =>
            (UCall.cacheGet :: calls,
              some (some (.exit ExitRedisErr (.wrap "update redis failed" err))))
          | (calls, _, none) => (UCall.cacheGet :: calls, some none)
  else if conf.ForceEpoch > 0 then
    match env.runningFetch with
    | some err =>
      ([UCall.runningFetch],
        some (some (.exit ExitRunningLockErr (.wrap "is running, fetch failed" err))))
    | none =>
      if lib.EpochIsNil conf.ForceEpoch then
        ([UCall.runningFetch, UCall.runningRelease],
          some (some (.exit ExitByInput (.plain "nil epoch"))))
      else
        match env.committeeOfEpoch with
        | .error err =>
          ([UCall.runningFetch, UCall.committeeOfEpoch conf.ForceEpoch, UCall.runningRelease],
            some (some (.exit ExitSourceErr err)))
        | .ok comm =>
          match updater._forceUpdate lib env.force conf.ForceEpoch comm with
          | (calls, some err) =>
            (UCall.runningFetch :: UCall.committeeOfEpoch conf.ForceEpoch
              :: (calls ++ [UCall.runningRelease]), some (some (.exit ExitTargetErr err)))
          | (calls, none) =>
            (UCall.runningFetch :: UCall.committeeOfEpoch conf.ForceEpoch
              :: (calls ++ [UCall.runningRelease]), some none)
  else if conf.Interval ≤ 1 then
    match env.runningFetch with
    | some err =>
      ([UCall.runningFetch],
        some (some (.exit ExitRunningLockErr (.wrap "is running, fetch failed" err))))
    | none =>
      let (calls, r) := updater._once lib conf env.once
      (UCall.runningFetch :: (calls ++ [UCall.runningRelease]), some r)
  else
    updater.periodicLoop lib conf env.ticks

/-! ## The maintain handlers (`maintain.go`, `xmaintain.go`) -/

/-- The end shared by `maintainer.processBlock` and `xmaintainer.processBlock`:
`if cp.Comm != nil { _targetUpdateComm(cctx, cp) }` and the returns after it; `pre`
holds the calls made before. -/
def maintainUpdate (update : CommitteeProof → List Effect × Option GoError)
    (pre : List Effect) (cp : CommitteeProof) : HandlerResult :=
  match cp.Comm with
  | none => { effects := pre, fatal := none, warning := none }
  | some _ =>
    match update cp with
    | (effs, some err) =>
      { effects := pre ++ effs, fatal := some (.wrap "update failed" err), warning := none }
    | (effs, none) => { effects := pre ++ effs, fatal := none, warning := none }

/-- Go `(a *maintainer) processBlock`: `none` is the nil dereference of
`block.BlockBody`, which the looper never passes. -/
def maintainer.processBlock (lib : Lib) (env : UpdateEnv) (block : BlockEMessage) :
    Option HandlerResult :=
  match block.BlockBody with
  | none => none
  | some body =>
    if lib.CommSize body.NextCommittee > 0 ∨ lib.CommSize body.NextRealCommittee > 0 then
      if lib.CommIsAvailable body.NextCommittee then
        some (maintainUpdate (maintainer._targetUpdateComm lib env) []
          { Header := block.BlockHeader, Comm := body.NextCommittee, PaSs := block.BlockPass,
            SyncingEpoch := 0 })
      else if lib.CommIsAvailable body.NextRealCommittee then
        some (maintainUpdate (maintainer._targetUpdateComm lib env) []
          { Header := block.BlockHeader, Comm := body.NextRealCommittee,
            PaSs := block.BlockPass, SyncingEpoch := 0 })
      else
        some { effects := [], fatal := none,
               warning := some (.plain "no available committee found") }
    else
      some { effects := [], fatal := none, warning := none }

/-- Go `(a *xmaintainer) _getSyncingEpoch` as `processBlock` uses it: the epoch of the
height read from the xsync cursor key, 0 when the read fails. -/
def xmaintainer.syncingEpoch (lib : Lib) (syncingHeight : Except GoError Nat) : Nat :=
  match syncingHeight with
  | .error _ => 0
  | .ok h => lib.HeightEpochNum h

/-- Go `(a *xmaintainer) processBlock`; `syncingHeight` is the result of
`redis.Get(syncStartHeightKey).Uint64()`. -/
def xmaintainer.processBlock (lib : Lib) (env : UpdateEnv) (syncingHeight : Except GoError Nat)
    (block : BlockEMessage) : Option HandlerResult :=
  match block.BlockBody with
  | none => none
  | some body =>
    if lib.CommSize body.NextCommittee > 0 ∨ lib.CommSize body.NextRealCommittee > 0 then
      if lib.CommIsAvailable body.NextCommittee then
        some (maintainUpdate (xmaintainer._targetUpdateComm lib env) [Effect.syncingEpochRead]
          { Header := block.BlockHeader, Comm := body.NextCommittee, PaSs := block.BlockPass,
            SyncingEpoch := xmaintainer.syncingEpoch lib syncingHeight })
      else if lib.CommIsAvailable body.NextRealCommittee then
        some (maintainUpdate (xmaintainer._targetUpdateComm lib env) [Effect.syncingEpochRead]
          { Header := block.BlockHeader, Comm := body.NextRealCommittee,
            PaSs := block.BlockPass,
            SyncingEpoch := xmaintainer.syncingEpoch lib syncingHeight })
      else
        some { effects := [], fatal := none,
               warning := some (.plain "no available committee found") }
    else
      some { effects := [], fatal := none, warning := none }

/-! ## The height the light client can validate (`sync.go`) -/

/-- Outcomes of the two getter calls of `_maxValidatableHeightFromLC`. -/
structure LCEnv where
  /-- The `lastEpoch` getter of the updatable light client. -/
  lastEpoch : Except GoError Nat
  /-- The `lastHeight` getter of the plain light client. -/
  lastHeight : Except GoError Nat

/-- Go `(n *syncer) _maxValidatableHeightFromLC`; `epoch + 1` is a `uint64` sum. -/
def syncer._maxValidatableHeightFromLC (lib : Lib) (UpdatableLC : Bool) (env : LCEnv) :
    Except GoError Nat :=
  if UpdatableLC then
    match env.lastEpoch with
    | .error err => .error (.wrap "UpdatableLC.lastEpoch failed" err)
    | .ok epoch =>
      if lib.EpochIsNil epoch then
        .error (.exit ExitLCErr (.plain "unavailable last epoch in LC"))
      else
        .ok (lib.EpochLastHeight epoch)
  else
    match env.lastHeight with
    | .error err => .error (.wrap "LC.lastHeight failed" err)
    | .ok height =>
      if lib.HeightIsNil height then
        .error (.exit ExitLCErr (.plain "unavailable last height in LC"))
      else
        .ok (lib.EpochLastHeight ((lib.HeightEpochNum height + 1) % 2 ^ 64))

/-! ## Start-up of xmaintain (`runner.go`, `config.go`, `xmaintain.go`) -/

/-- The flags `runner.prepareConfig` reads, as far as its result depends on them. -/
structure RunnerFlags where
  /-- The error result of `_targetSender`. -/
  sender : Option GoError
  /-- The value of the target name flag. -/
  targetName : String

/-- Go `(a *runner) prepareConfig`: the error returned. -/
def runner.prepareConfig (lib : Lib) (flags : RunnerFlags) : Option GoError :=
  match flags.sender with
  | some err => some (.wrap "invalid sender key" err)
  | none =>
    if runner.TargetName lib flags.targetName = "" then
      some (.exit ExitByConfig (.plain "target.name required"))
    else
      none

/-- The field `XMaintainer` of the configuration `runner.prepareConfig` builds: the
literal does not mention it, so it is the zero value. -/
def runner.XMaintainer (lib : Lib) : XMaintain where
  TargetLCAddr := List.replicate lib.AddressLength 0
  XsyncStartHeightKey := ""

/-- Go `stringToAddress`; `decoded` is the result of `hex.DecodeString` on the flag. -/
def stringToAddress (lib : Lib) (decoded : Except GoError Bytes) : Except GoError Bytes :=
  match decoded with
  | .error _ => .error (.plain "invalid flag")
  | .ok bs =>
    if bs.length ≠ lib.AddressLength then .error (.plain "invalid flag") else .ok bs

/-- Go `(a *xmaintainer) prepareConfig`: the `XMaintainer` field afterwards and the
error returned. `eventExists` says whether the ABI has the update event, `decoded` is
the hex decoding of the `xmaintain.targetlc` flag. -/
def xmaintainer.prepareConfig (lib : Lib) (flags : RunnerFlags) (eventExists : Bool)
    (decoded : Except GoError Bytes) : XMaintain × Option GoError :=
  match runner.prepareConfig lib flags with
  | some err => (runner.XMaintainer lib, some err)
  | none =>
    if !eventExists then
      (runner.XMaintainer lib, some (.plain "event must be exist"))
    else
      match stringToAddress lib decoded with
      | .error err => (runner.XMaintainer lib, some err)
      | .ok addr =>
        let conf := { runner.XMaintainer lib with TargetLCAddr := addr }
        match XMaintain.validate lib conf with
        | some err => (conf, some err)
        | none => (conf, none)

/-- The order ids passed to `_checkOrderId`, in call order. -/
def orderChecks : List Effect → List CommonHash
  | [] => []
  | .orderCheck o :: rest => o :: orderChecks rest
  | _ :: rest => orderChecks rest

/-! ## Receipt polling (`ethapi.go`) -/

/-- Go `client.ErrNoReceipt`. -/
def ErrNoReceipt : GoError := .plain "no receipt"

/-- Calls of the receipt pollers, in call order. -/
inductive PollCall where
  /-- Go `lock.Refresh(ctx)` on the lease carried by the context. -/
  | lockRefresh
  /-- Go `time.Sleep(retryInterval * time.Second)`: once per iteration that is not
  cancelled. -/
  | sleep
  /-- Go `c.getReceipt(ctx, txHash)`. -/
  | getReceipt (txHash : CommonHash)
  deriving DecidableEq, Repr

/-- The hashes passed to `getReceipt`, in call order. -/
def pollQueries : List PollCall → List CommonHash
  | [] => []
  | .getReceipt h :: rest => h :: pollQueries rest
  | _ :: rest => pollQueries rest

/-- The number of iterations that reached the sleep, that is, of query rounds. -/
def pollRounds : List PollCall → Nat
  | [] => 0
  | .sleep :: rest => pollRounds rest + 1
  | _ :: rest => pollRounds rest

/-- Go `*types.Transaction` as the pollers read it: its hash. -/
structure EthTx where
  Hash : CommonHash
  deriving DecidableEq, Repr

/-- Everything outside `checkReceipt` that a call depends on; `R` is the receipt of
the target's client, `T` the receipt returned. -/
structure PollEnv (R T : Type) where
  /-- Go `getDistributedLock(ctx) != nil`. -/
  hasLock : Bool
  /-- The `select` of iteration `i` takes the `ctx.Done()` case. -/
  ctxDoneAt : Nat → Bool
  /-- Go `c.getReceipt` in iteration `i`: `none` for `err != nil || rec == nil`. -/
  getReceipt : Nat → Option R
  /-- Go `E2T.TxReceipt(tx, rec, ...)` followed by `client.NewReceiptWithForwards`. -/
  convert : R → Except GoError T

/-- The `for i := 0; i < 5; i++` loop of `checkReceipt` at index `i` with `n`
iterations left, and the `return nil, client.ErrNoReceipt` after it. -/
def EthClient.checkReceiptLoop {R T : Type} (env : PollEnv R T) (txHash : CommonHash) :
    Nat → Nat → List PollCall × Except GoError T
  | 0, _ => ([], .error ErrNoReceipt)
  | n + 1, i =>
    let refresh := if env.hasLock then [PollCall.lockRefresh] else []
    if env.ctxDoneAt i then
      (refresh, .error ctxErr)
    else
      match env.getReceipt i with
      | none =>
        let (calls, r) := EthClient.checkReceiptLoop env txHash n (i + 1)
        (refresh ++ PollCall.sleep :: PollCall.getReceipt txHash :: calls, r)
      | some rec =>
        (refresh ++ [PollCall.sleep, PollCall.getReceipt txHash], env.convert rec)

/-- Go `(c *EthClient) checkReceipt`. -/
def EthClient.checkReceipt {R T : Type} (env : PollEnv R T) (tx : EthTx) :
    List PollCall × Except GoError T :=
  EthClient.checkReceiptLoop env tx.Hash 5 0

/-- Go map assignment `m[k] = v` on a map kept as the list of its entries in order
of first insertion. -/
def mapSet {V : Type} (m : List (CommonHash × V)) (k : CommonHash) (v : V) :
    List (CommonHash × V) :=
  if (m.lookup k).isSome then
    m.map (fun e => if e.1 = k then (k, v) else e)
  else
    m ++ [(k, v)]

/-- The slice `txHashList` that `checkReceipts` builds: the hashes of the entries
that are not nil. -/
def txHashListOf : List (Option EthTx) → List CommonHash
  | [] => []
  | none :: rest => txHashListOf rest
  | some tx :: rest => tx.Hash :: txHashListOf rest

/-- The map `txMap` that `checkReceipts` builds, started from the map `m`. -/
def txMapOf : List (Option EthTx) → List (CommonHash × EthTx) → List (CommonHash × EthTx)
  | [], m => m
  | none :: rest, m => txMapOf rest m
  | some tx :: rest, m => txMapOf rest (mapSet m tx.Hash tx)

/-- Everything outside `checkReceipts` that a call depends on. -/
structure PollsEnv (R T : Type) where
  /-- Go `getDistributedLock(ctx) != nil`. -/
  hasLock : Bool
  /-- The `select` of iteration `i` takes the `ctx.Done()` case. -/
  ctxDoneAt : Nat → Bool
  /-- Go `c.getReceipt` in iteration `i` for the hash at position `j` of
  `txHashList`: `none` for `err != nil || rec == nil`. -/
  getReceipt : Nat → Nat → Option R
  /-- Go `E2T.TxReceipt(ethtx, rec, ...)` wrapped into a `ReceiptWithFwds`; the
  transaction is `txMap[txhash]`. -/
  txReceipt : Option EthTx → R → Except GoError T

/-- The `for _, txhash := range txHashList` loop of iteration `i` of `checkReceipts`
at position `j` with the map `rptMap`: the calls made and the map afterwards. -/
def EthClient.pollRound {R T : Type} (env : PollsEnv R T) (txMap : List (CommonHash × EthTx))
    (i : Nat) : Nat → List CommonHash → List (CommonHash × T) →
    List PollCall × List (CommonHash × T)
  | _, [], rptMap => ([], rptMap)
  | j, txhash :: rest, rptMap =>
    if (rptMap.lookup txhash).isSome then
      EthClient.pollRound env txMap i (j + 1) rest rptMap
    else
      match env.getReceipt i j with
      | none =>
        let (calls, m) := EthClient.pollRound env txMap i (j + 1) rest rptMap
        (PollCall.getReceipt txhash :: calls, m)
      | some rec =>
        match env.txReceipt (txMap.lookup txhash) rec with
        | .error _ =>
          let (calls, m) := EthClient.pollRound env txMap i (j + 1) rest rptMap
          (PollCall.getReceipt txhash :: calls, m)
        | .ok rptwf =>
          let (calls, m) :=
            EthClient.pollRound env txMap i (j + 1) rest (mapSet rptMap txhash rptwf)
          (PollCall.getReceipt txhash :: calls, m)

/-- The `for i := 0; i < 12; i++` loop of `checkReceipts` at index `i` with `n`
iterations left: the calls made and the map `rptMap` at the end, or the error
returned from inside the loop. -/
def EthClient.checkReceiptsLoop {R T : Type} (env : PollsEnv R T)
    (txHashList : List CommonHash) (txMap : List (CommonHash × EthTx)) :
    Nat → Nat → List (CommonHash × T) → List PollCall × Except GoError (List (CommonHash × T))
  | 0, _, rptMap => ([], .ok rptMap)
  | n + 1, i, rptMap =>
    let refresh := if env.hasLock then [PollCall.lockRefresh] else []
    if env.ctxDoneAt i then
      (refresh, .error ctxErr)
    else
      let (qcalls, m) := EthClient.pollRound env txMap i 0 txHashList rptMap
      if m.length = txMap.length then
        (refresh ++ PollCall.sleep :: qcalls, .ok m)
      else
        let (calls, r) := EthClient.checkReceiptsLoop env txHashList txMap n (i + 1) m
        (refresh ++ PollCall.sleep :: qcalls ++ calls, r)

/-- The slice `ret` that `checkReceipts` returns: `len` entries, entry `i` set to
`rptMap[txHashList[i]]` for every position `i` of `txHashList`, nil elsewhere. -/
def fillRet {T : Type} (len : Nat) (txHashList : List CommonHash)
    (rptMap : List (CommonHash × T)) : List (Option T) :=
  txHashList.map (fun h => rptMap.lookup h) ++ List.replicate (len - txHashList.length) none

/-- Go `(c *EthClient) checkReceipts`. -/
def EthClient.checkReceipts {R T : Type} (env : PollsEnv R T) (ethtxs : List (Option EthTx)) :
    List PollCall × Except GoError (List (Option T)) :=
  if ethtxs.length = 0 then
    ([], .ok [])
  else
    match EthClient.checkReceiptsLoop env (txHashListOf ethtxs) (txMapOf ethtxs []) 12 0 [] with
    | (calls, .error err) => (calls, .error err)
    | (calls, .ok rptMap) =>
      (calls, .ok (fillRet ethtxs.length (txHashListOf ethtxs) rptMap))

/-- The map `rptMap` of `checkReceipts` after `k` query rounds that were not cut
short, as the specification has it: receipts accumulate keyed by hash. -/
def EthClient.rptMapAfter {R T : Type} (env : PollsEnv R T) (txHashList : List CommonHash)
    (txMap : List (CommonHash × EthTx)) : Nat → List (CommonHash × T)
  | 0 => []
  | k + 1 =>
    (EthClient.pollRound env txMap k 0 txHashList
      (EthClient.rptMapAfter env txHashList txMap k)).2

/-- Every transaction hash of the list has a receipt in the map. -/
def allReceived {T : Type} (txHashList : List CommonHash) (rptMap : List (CommonHash × T)) :
    Prop :=
  ∀ h ∈ txHashList, (rptMap.lookup h).isSome = true

/-! ## Sample inputs -/

/-- An instance of the imported functions to evaluate the definitions on: 64-bit
all-ones sentinels that compare below every other value, epochs of 1000 blocks,
big-endian integers, chain 0 as the main chain, concatenation as hash, and a
signature that passes when it equals the hash signed, twenty zero bytes as the empty
address, the case mappings of ASCII letters, the member count as committee size, the
first twenty bytes of a node id as its address, and `1000 e + 999` as the last height
of epoch `e`. -/
def sampleLib : Lib where
  NilHeight := 2 ^ 64 - 1
  HeightCompare := fun a b =>
    if a = b then 0 else if a = 2 ^ 64 - 1 then -1 else if b = 2 ^ 64 - 1 then 1
    else if a < b then -1 else 1
  HeightEpochNum := fun h => if h = 2 ^ 64 - 1 then 2 ^ 64 - 1 else h / 1000
  EpochDiff := fun a b =>
    if a = b then (0, 0) else if a < b then (b - a, -1) else (a - b, 1)
  HashEqual := fun a b => b == some a
  BytesToUint64 := fun bs => bs.foldl (fun acc x => (acc * 256 + x) % 2 ^ 64) 0
  noHeaderHeight := 2 ^ 64 - 1
  CommIsAvailable := fun c =>
    match c with
    | some c => decide (c.Members.length > 0)
    | none => false
  CommHash := fun c =>
    match c with
    | some c => c.Members.foldl (fun acc m => acc ++ m) []
    | none => []
  ChainIDIsMain := fun id => id == 0
  HeaderHash := fun h => [h.ChainID, h.Height]
  PaSsVerify := fun ps hash =>
    (((ps.filter (fun s =>
        match s with
        | some s => s.Signature == hash
        | none => false)).length : Nat), none)
  HeightDiff := fun a b =>
    if a = b then (0, 0) else if a < b then (b - a, -1) else (a - b, 1)
  BlocksInEpoch := 1000
  LogsMerkleRoot := fun logs i =>
    if i < logs.length then .ok [([i], true)] else .error (.plain "index out of range")
  EmptyAddress := List.replicate 20 0
  stringsToUpper := fun s => String.mk (s.data.map Char.toUpper)
  stringsToLower := fun s => String.mk (s.data.map Char.toLower)
  CommSize := fun c =>
    match c with
    | some c => c.Members.length
    | none => 0
  NodeAddress := fun nid => nid.take 20
  NilEpoch := 2 ^ 64 - 1
  EpochLastHeight := fun e => (e * 1000 + 999) % 2 ^ 64
  EpochCompare := fun a b =>
    if a = b then 0 else if a = 2 ^ 64 - 1 then -1 else if b = 2 ^ 64 - 1 then 1
    else if a < b then -1 else 1
  AddressLength := 20

/-- A block with header and body at the given height, without transactions or
committees. -/
def sampleBlock (height : Nat) : BlockEMessage where
  BlockHeader := some { ChainID := 1, Height := height, ElectedNextRoot := none }
  BlockBody := some { NextCommittee := none, NextRealCommittee := none, Txs := [] }
  BlockPass := []

/-- An iteration in which the source delivers blocks of the given heights, the
handler accepts every block and the context is never cancelled. -/
def sampleIter (heights : List Nat) (current : Nat) : IterEnv where
  ctxDone := false
  prepareToGet := fun _ => ([], none)
  reply := .blocks (some { Blocks := heights.map (fun h => some (sampleBlock h)),
                           Current := current })
  ctxDoneAt := fun _ => false
  processBlock := fun _ _ => { effects := [], fatal := none, warning := none }

/-- A block with header at the given height and without body. -/
def sampleBodylessBlock (height : Nat) : BlockEMessage where
  BlockHeader := some { ChainID := 1, Height := height, ElectedNextRoot := none }
  BlockBody := none
  BlockPass := []

/-- An iteration in which the source delivers the given blocks, the handler accepts
every block and the context is never cancelled. -/
def sampleIterOf (blocks : List (Option BlockEMessage)) (current : Nat) : IterEnv where
  ctxDone := false
  prepareToGet := fun _ => ([], none)
  reply := .blocks (some { Blocks := blocks, Current := current })
  ctxDoneAt := fun _ => false
  processBlock := fun _ _ => { effects := [], fatal := none, warning := none }

/-- An iteration like `sampleIter` whose handler fails fatally at batch index `k`
and warns at every other index. -/
def sampleIterFatalAt (k : Nat) (heights : List Nat) (current : Nat) : IterEnv :=
  { sampleIter heights current with
    processBlock := fun i _ =>
      if i = k then { effects := [], fatal := some (.plain "fatal"), warning := none }
      else { effects := [], fatal := none, warning := some (.plain "warned") } }

/-- A configuration of the sync handler. -/
def sampleSyncConf : SyncConf where
  mcsAddress := [1]
  watchTopicId := [2]
  TargetChainID := some 1

/-- A committee proof for the main-chain block of height 5000 with a committee of
three and three signatures, of which the first passes under `sampleLib`. -/
def sampleCommProof : CommitteeProof where
  Header := some { ChainID := 0, Height := 5000, ElectedNextRoot := some [7, 8, 9] }
  Comm := some { Members := [[7], [8], [9]] }
  PaSs := [some { PublicKey := [], Signature := [0, 5000] },
           some { PublicKey := [], Signature := [1] },
           some { PublicKey := [], Signature := [2] }]
  SyncingEpoch := 0

/-- The proof `sampleCommProof` with signatures none of which passes. -/
def sampleUnsignedProof : CommitteeProof :=
  { sampleCommProof with
    PaSs := [some { PublicKey := [], Signature := [1] },
             some { PublicKey := [], Signature := [2] }] }

/-- A 32-byte topic holding the number `n < 256` as a big-endian integer. -/
def sampleTopic (n : Nat) : CommonHash := List.replicate 31 0 ++ [n]

/-- Outcomes of the calls of `_targetUpdateComm` in which every call succeeds and
the receipt carries a nil log, a foreign log, and an `UpdateCommittee` log with the
given epoch topic and committee hash. -/
def sampleUpdateEnv (epoch : Nat) (commHash : CommonHash) : UpdateEnv where
  sendingFetch := none
  packData := none
  packInput := none
  nonce := .ok 3
  sendTx := none
  checkReceipt := .ok
    { Success := true, Err := .plain "",
      Logs := [none, some { Address := [1], Topics := [[4]], Data := [] },
               some { Address := [1], Topics := [[9], sampleTopic epoch, commHash],
                      Data := [] }] }
  eventID := [9]

/-- A lease on key `k` with token `me` and the given local handle. -/
def sampleLock (rlock : Option LockHandle) : redisLock where
  key := "k"
  value := "me"
  ttl := 30
  rlock := rlock

/-- Answers of the store in which the key is held by `other` and release and refresh
fail. -/
def sampleBusyStore : StoreEnv where
  obtain := .notObtained
  get := "other"
  release := some (.plain "release failed")
  refresh := some (.plain "refresh failed")

/-- Answers of the store in which every call succeeds. -/
def sampleFreeStore : StoreEnv where
  obtain := .obtained { token := "me" }
  get := ""
  release := none
  refresh := none

/-- Answers of the store in which the store is unreachable. -/
def sampleDownStore : StoreEnv where
  obtain := .failed (.plain "connection refused")
  get := ""
  release := some (.plain "connection refused")
  refresh := some (.plain "connection refused")


/-- Outcomes of the calls of `confirmConfig` when the light client reports
`lastHeight`, the cursor key holds `cursor`, and nothing fails. -/
def sampleConfirmEnv (cursor : Option Nat) (lastHeight : Nat) : ConfirmEnv where
  looperConfirm := none
  pack := none
  call := none
  unpack := .ok lastHeight
  cursor := cursor
  setCursor := none
  checkLNComm := false
  checkComms := none

/-- A transfer-out log of the contract and topic of `sampleSyncConf`. -/
def sampleTransferLog : Log where
  Address := [1]
  Topics := [[2]]
  Data := [7]

/-- The final proof of the transaction with the given hash: a successful receipt of
version 2 holding an unrelated log and then a transfer-out log. -/
def sampleTxProof (txHash : CommonHash) : TxFinalProof where
  Header := some { ChainID := 1, Height := 10, ElectedNextRoot := none }
  Receipt := some
    { Status := 1, Logs := [{ Address := [5], Topics := [], Data := [] }, sampleTransferLog],
      TxHash := txHash, Version := 2 }
  ReceiptProof := [([3], true)]
  Sigs := []

/-- A block at the given height whose transactions are contract calls with the
given hashes. -/
def sampleTxBlock (height : Nat) (hashes : List CommonHash) : BlockEMessage where
  BlockHeader := some { ChainID := 1, Height := height, ElectedNextRoot := none }
  BlockBody := some
    { NextCommittee := none, NextRealCommittee := none,
      Txs := hashes.map (fun h => { To := some [1], Input := [1], TxHash := h }) }
  BlockPass := []

/-- Outcomes for the sync handler with provable heights `(10, 10)`: every
transaction has the proof `sampleTxProof`, every transfer-out log unpacks to the
order id `[9]`, and the target's order list answers `present` for it. -/
def sampleOrderEnv (present : Bool) : SyncEnv where
  maxProvableHeights := .ok (10, 10)
  txFinalProof := fun h _ => .ok (some (sampleTxProof h))
  receiptSuccess := fun r =>
    match r with
    | some r => r.Status == 1
    | none => false
  finalVerify := fun _ => none
  unpackEvent := fun _ => .ok { OrderId := [9], ToChain := some 1 }
  checkOrderId := fun _ => .ok present
  mcs :=
    { sendingFetch := none, nonce := .ok 0, receiptProof := fun _ => none,
      packData := fun _ => none, packInput := fun _ => none, sendTx := fun _ => none,
      checkReceipts := .ok [some true, some true] }

/-- A contract address that is not the empty address: twenty bytes, the last one 1. -/
def sampleAddress : Bytes := List.replicate 19 0 ++ [1]

/-- A sync configuration in which only the light-client address is left empty. -/
def sampleSynchronize : Synchronize where
  TkmChainId := some 1
  TkmMCSAddress := sampleAddress
  TargetMSCAddr := sampleAddress
  TargetLCAddr := List.replicate 20 0
  UpdatableLC := false
  MaxHeightTTL := 10

/-- An xsync configuration in which only the light-client address is left empty. -/
def sampleXSynchronize : XSynchronize where
  XChainId := some 1
  XMCSAddress := sampleAddress
  TargetMSCAddr := sampleAddress
  TargetLCAddr := List.replicate 20 0
  MaxHeightTTL := 10

/-- Outcomes of `_forceUpdate` at clock time `clock` when the target light client is
at epoch 4 and every call succeeds. -/
def sampleForceEnv (clock : Int) : ForceEnv where
  lastEpochInLC := .ok 4
  lastCommitteeInLC := .ok []
  updateCommittee := none
  clock := clock
  cacheSet := none

/-- Outcomes of `_once` at clock time `clock` with the given reply of the store; the
source is at epoch 5 with a committee of one member. -/
def sampleOnceEnv (reply : CacheReply) (clock : Int) : OnceEnv where
  cacheGet := reply
  clock := clock
  currentCommittee := .ok (5, some { Members := [[1]] })
  force := sampleForceEnv clock

/-- Outcomes of `updater.doWork` with the given postpone flag and reply of the store,
every other call succeeding. -/
def sampleDoWorkEnv (postpone : Nat) (reply : CacheReply) : DoWorkEnv where
  postpone := postpone
  cacheGet := reply
  cacheSet := none
  runningFetch := none
  committeeOfEpoch := .ok (some { Members := [[1]] })
  force := sampleForceEnv 5000
  once := sampleOnceEnv reply 5000
  ticks := []

/-- A main-chain block at the given height with the two committee fields as given,
the elected root `[7, 8, 9]` and one signature of its header hash. -/
def sampleCommBlock (height : Nat) (next real : Option Committee) : BlockEMessage where
  BlockHeader := some { ChainID := 0, Height := height, ElectedNextRoot := some [7, 8, 9] }
  BlockBody := some { NextCommittee := next, NextRealCommittee := real, Txs := [] }
  BlockPass := [some { PublicKey := [], Signature := [0, height] }]

/-- Getter outcomes of a light client whose last epoch is 5 and whose last height
is 5000. -/
def sampleLCEnv : LCEnv where
  lastEpoch := .ok 5
  lastHeight := .ok 5000

/-- Outcomes of `checkReceipt` without a lease in the context: the query of
iteration `k` is the first that yields a receipt, which converts to `"receipt"`. -/
def samplePollEnv (k : Nat) : PollEnv Nat String where
  hasLock := false
  ctxDoneAt := fun _ => false
  getReceipt := fun i => if i = k then some 1 else none
  convert := fun _ => .ok "receipt"

/-- Outcomes of `checkReceipts` without a lease in the context: from round `k` on
every query yields a receipt, which converts to the hash of the transaction it is
converted for. -/
def samplePollsEnv (k : Nat) : PollsEnv Nat (Option CommonHash) where
  hasLock := false
  ctxDoneAt := fun _ => false
  getReceipt := fun i _ => if i ≥ k then some 1 else none
  txReceipt := fun tx _ => .ok (tx.map (fun t => t.Hash))

/-! # Theorems -/

/-! ### C1, C2, C3: Merkle proof chains -/

theorem callback_replicate (mps : List MerkleProof) (h : CommonHash) (p : Bool) (n r : Nat) :
    (List.replicate (n + 1) ((h, p) : ProofStep)).foldl CompactState.callback
        { mps := mps, last := some { Hash := h, Position := p, Repeat := r } }
      = { mps := mps, last := some { Hash := h, Position := p, Repeat := (r + n + 1) % 256 } } := by
  induction n generalizing r with
  | zero => simp [CompactState.callback, MerkleProof.Same]
  | succ k ih =>
    rw [List.replicate_succ, List.foldl_cons]
    have : CompactState.callback
        { mps := mps, last := some { Hash := h, Position := p, Repeat := r } } (h, p)
        = { mps := mps, last := some { Hash := h, Position := p, Repeat := (r + 1) % 256 } } := by
      simp [CompactState.callback, MerkleProof.Same]
    rw [this, ih]
    have : ((r + 1) % 256 + k + 1) % 256 = (r + (k + 1) + 1) % 256 := by omega
    rw [this]

/-- A run of `n + 1` equal steps is compacted to one triple with `Repeat = n mod 256`. -/
theorem MerkleProofs_replicate (h : CommonHash) (p : Bool) (n : Nat) :
    T2LN.MerkleProofs (List.replicate (n + 1) ((h, p) : ProofStep))
      = [{ Hash := h, Position := p, Repeat := n % 256 }] := by
  unfold T2LN.MerkleProofs
  rw [List.replicate_succ, List.foldl_cons]
  cases n with
  | zero => simp [CompactState.callback, CompactState.result]
  | succ k =>
    have : CompactState.callback { mps := [], last := none } ((h, p) : ProofStep)
        = { mps := [], last := some { Hash := h, Position := p, Repeat := 0 } } := by
      simp [CompactState.callback]
    rw [this, callback_replicate]
    simp [CompactState.result]

/-- With `Repeat = 255` the loop of `MerkleProof.Proof` is never left. -/
theorem ProofLoop_stuck (hp : HashPairOrder) (h : CommonHash) (p : Bool) (fuel : Nat) :
    ∀ (i : Nat) (root : Bytes), i < 256 →
      MerkleProof.ProofLoop hp { Hash := h, Position := p, Repeat := 255 } fuel i root = none := by
  induction fuel with
  | zero => intro i root _; rfl
  | succ k ih =>
    intro i root hi
    have h1 : i ≤ 255 := by omega
    simp only [MerkleProof.ProofLoop, h1, if_true]
    exact ih _ _ (Nat.mod_lt _ (by decide))

/-- With `Repeat < 255` the loop of `MerkleProof.Proof` is left after the remaining
`Repeat + 1 - i` combinations. -/
theorem ProofLoop_exits (hp : HashPairOrder) (mp : MerkleProof) (hr : mp.Repeat < 255) :
    ∀ (k i fuel : Nat) (root : Bytes), i + k = mp.Repeat + 1 → k < fuel →
      MerkleProof.ProofLoop hp mp fuel i root = some ((hp mp.Position mp.Hash)^[k] root) := by
  intro k
  induction k with
  | zero =>
    intro i fuel root hik hf
    obtain ⟨f, rfl⟩ : ∃ f, fuel = f + 1 := ⟨fuel - 1, by omega⟩
    have : ¬ i ≤ mp.Repeat := by omega
    simp [MerkleProof.ProofLoop, this]
  | succ k ih =>
    intro i fuel root hik hf
    obtain ⟨f, rfl⟩ : ∃ f, fuel = f + 1 := ⟨fuel - 1, by omega⟩
    have h1 : i ≤ mp.Repeat := by omega
    have h2 : (i + 1) % 256 = i + 1 := Nat.mod_eq_of_lt (by omega)
    simp only [MerkleProof.ProofLoop, h1, if_true, h2]
    rw [ih (i + 1) f _ (by omega) (by omega)]
    simp [Function.iterate_succ_apply]

theorem foldChain_replicate (hp : HashPairOrder) (h : CommonHash) (p : Bool) (leaf : Bytes) :
    ∀ n, foldChain hp (List.replicate n ((h, p) : ProofStep)) leaf = (hp p h)^[n] leaf := by
  intro n
  induction n generalizing leaf with
  | zero => rfl
  | succ k ih =>
    rw [List.replicate_succ]
    simp only [foldChain, List.foldl_cons, Function.iterate_succ_apply]
    exact ih (hp p h leaf)

theorem expandProofs_append (xs ys : List MerkleProof) :
    expandProofs (xs ++ ys) = expandProofs xs ++ expandProofs ys := by
  induction xs with
  | nil => rfl
  | cons x xs ih => simp [expandProofs, ih]

theorem callback_invariant (n : Nat) (hn : 2 ≤ n) (hn2 : n ≤ 257) :
    ∀ (rest : List ProofStep) (s : CompactState) (processed : List ProofStep),
      expandProofs s.result = processed →
      (∀ mp ∈ s.result, mp.Repeat + 1 < n) →
      noRunOf n (processed ++ rest) →
      expandProofs (rest.foldl CompactState.callback s).result = processed ++ rest
        ∧ ∀ mp ∈ (rest.foldl CompactState.callback s).result, mp.Repeat + 1 < n := by
  intro rest
  induction rest with
  | nil => intro s processed he hb _; simpa using ⟨he, hb⟩
  | cons step rest ih =>
    intro s processed he hb hrun
    rw [List.foldl_cons]
    have hrun1 : noRunOf n ((processed ++ [step]) ++ rest) := by simpa using hrun
    suffices hstep1 : expandProofs (CompactState.callback s step).result = processed ++ [step]
        ∧ ∀ mp ∈ (CompactState.callback s step).result, mp.Repeat + 1 < n by
      simpa using ih (CompactState.callback s step) (processed ++ [step])
        hstep1.1 hstep1.2 hrun1
    obtain ⟨mps, last⟩ := s
    cases last with
    | none =>
      simp only [CompactState.result] at he hb
      simp only [CompactState.callback, CompactState.result]
      refine ⟨by simp [expandProofs_append, expandProofs, he], ?_⟩
      intro mp hmp
      rcases List.mem_append.1 hmp with h | h
      · exact hb mp h
      · simp at h; subst h; simp; omega
    | some l =>
      simp only [CompactState.result] at he hb
      have hl := hb l (by simp)
      by_cases hsame : MerkleProof.Same (some l) step.1 step.2 = true
      · have hstep : step = (l.Hash, l.Position) := by
          simp [MerkleProof.Same] at hsame
          exact Prod.ext hsame.1.symm hsame.2.symm
        have hproc : processed ++ [step]
            = expandProofs mps ++ List.replicate (l.Repeat + 2) step := by
          rw [← he, expandProofs_append, hstep]
          simp [expandProofs, List.replicate_succ', List.append_assoc]
        have hlt : l.Repeat + 2 < n := by
          by_contra hge
          have hrep : l.Repeat + 2 = n := by omega
          apply hrun1 (expandProofs mps) rest step
          rw [hproc, hrep]
        have hmod : (l.Repeat + 1) % 256 = l.Repeat + 1 := Nat.mod_eq_of_lt (by omega)
        simp only [CompactState.callback, hsame, if_true, CompactState.result, hmod]
        refine ⟨?_, ?_⟩
        · rw [hproc, expandProofs_append, hstep]
          simp [expandProofs]
        · intro mp hmp
          rcases List.mem_append.1 hmp with h | h
          · exact hb mp (List.mem_append_left _ h)
          · simp at h; subst h; simp; omega
      · have hs : MerkleProof.Same (some l) step.1 step.2 = false := by simpa using hsame
        simp only [CompactState.callback, hs, Bool.false_eq_true, if_false, CompactState.result]
        refine ⟨?_, ?_⟩
        · rw [expandProofs_append, expandProofs_append, ← he, expandProofs_append]
          simp [expandProofs]
        · intro mp hmp
          rcases List.mem_append.1 hmp with h | h
          · exact hb mp h
          · simp at h; subst h; simp; omega

/-- On a chain without 257 equal consecutive steps the compacted chain stands for the
original one and no counter wraps. -/
theorem MerkleProofs_expand (pchain : List ProofStep) (h : noRunOf 257 pchain) :
    expandProofs (T2LN.MerkleProofs pchain) = pchain
      ∧ ∀ mp ∈ T2LN.MerkleProofs pchain, mp.Repeat < 256 := by
  have := callback_invariant 257 (by decide) (by decide) pchain { mps := [], last := none } []
    rfl (by simp [CompactState.result]) (by simpa using h)
  refine ⟨by simpa [T2LN.MerkleProofs] using this.1, fun mp hmp => ?_⟩
  have := this.2 mp hmp
  omega

theorem foldChain_append (hp : HashPairOrder) (xs ys : List ProofStep) (leaf : Bytes) :
    foldChain hp (xs ++ ys) leaf = foldChain hp ys (foldChain hp xs leaf) := by
  simp [foldChain, List.foldl_append]

theorem MerkleProofs_Proof_expand (hp : HashPairOrder) :
    ∀ (mps : MerkleProofs) (leaf : Bytes), (∀ mp ∈ mps, mp.Repeat < 255) →
      MerkleProofs.Proof hp 257 mps leaf = some (foldChain hp (expandProofs mps) leaf) := by
  intro mps
  induction mps with
  | nil => intro leaf _; rfl
  | cons mp rest ih =>
    intro leaf hb
    have hr := hb mp (List.mem_cons_self _ _)
    have h1 : MerkleProof.Proof hp mp 257 leaf
        = some ((hp mp.Position mp.Hash)^[mp.Repeat + 1] leaf) :=
      ProofLoop_exits hp mp hr (mp.Repeat + 1) 0 257 leaf (by omega) (by omega)
    simp only [MerkleProofs.Proof, h1, expandProofs, foldChain_append, foldChain_replicate]
    exact ih _ (fun x hx => hb x (List.mem_cons_of_mem _ hx))

/-- On a chain without 256 equal consecutive steps, folding the compacted chain
returns the root of the original chain. -/
theorem merkle_roundtrip_short_runs (hp : HashPairOrder) (pchain : List ProofStep)
    (leaf : Bytes) (h : noRunOf 256 pchain) :
    MerkleProofs.Proof hp 257 (T2LN.MerkleProofs pchain) leaf
      = some (foldChain hp pchain leaf) := by
  have := callback_invariant 256 (by decide) (by decide) pchain { mps := [], last := none } []
    rfl (by simp [CompactState.result]) (by simpa using h)
  have hexp : expandProofs (T2LN.MerkleProofs pchain) = pchain := by
    simpa [T2LN.MerkleProofs] using this.1
  have hb : ∀ mp ∈ T2LN.MerkleProofs pchain, mp.Repeat < 255 := by
    intro mp hmp
    have := this.2 mp hmp
    omega
  rw [MerkleProofs_Proof_expand hp _ leaf hb, hexp]


/-- C1 at the failing input, a chain of 257 equal steps `(h, true)`: the compacted
chain is the single triple `(h, true, 0)`, whose fold applies one combination, while
the fold of the original chain applies 257; with concatenation in place of the hash
the two results differ. A chain of 256 equal steps is compacted to `(h, true, 255)`,
on which `MerkleProofs.Proof` never returns. -/
theorem merkle_roundtrip_breaks (hp : HashPairOrder) (h : CommonHash) (leaf : Bytes)
    (fuel : Nat) :
    MerkleProofs.Proof hp (fuel + 2)
        (T2LN.MerkleProofs (List.replicate 257 ((h, true) : ProofStep))) leaf
        = some (hp true h leaf)
      ∧ foldChain hp (List.replicate 257 ((h, true) : ProofStep)) leaf
        = (hp true h)^[257] leaf
      ∧ MerkleProofs.Proof (fun _ sib acc => sib ++ acc) (fuel + 2)
          (T2LN.MerkleProofs (List.replicate 257 (([1], true) : ProofStep))) []
        ≠ some (foldChain (fun _ sib acc => sib ++ acc)
            (List.replicate 257 (([1], true) : ProofStep)) [])
      ∧ MerkleProofs.Proof hp fuel
          (T2LN.MerkleProofs (List.replicate 256 ((h, true) : ProofStep))) leaf = none := by
  have h257 := MerkleProofs_replicate h true 256
  have h256 := MerkleProofs_replicate h true 255
  have hone : ∀ (hp1 : HashPairOrder) (h1 : CommonHash) (l : Bytes),
      MerkleProofs.Proof hp1 (fuel + 2) [{ Hash := h1, Position := true, Repeat := 0 }] l
        = some (hp1 true h1 l) := by
    intro hp1 h1 l
    simp [MerkleProofs.Proof, MerkleProof.Proof, MerkleProof.ProofLoop]
  refine ⟨?_, foldChain_replicate hp h true leaf 257, ?_, ?_⟩
  · rw [h257]
    exact hone hp h leaf
  · rw [MerkleProofs_replicate [1] true 256]
    show MerkleProofs.Proof (fun _ sib acc => sib ++ acc) (fuel + 2)
      [{ Hash := [1], Position := true, Repeat := 0 }] [] ≠ _
    rw [hone, foldChain_replicate]
    intro hcontra
    have hlen : ∀ n, (((fun acc : Bytes => [1] ++ acc))^[n] []).length = n := by
      intro n
      induction n with
      | zero => rfl
      | succ k ih =>
        rw [Function.iterate_succ_apply']
        simp only [List.length_append, List.length_singleton, ih]
        omega
    have := congrArg (fun o : Option Bytes => (o.getD []).length) hcontra
    simp only [Option.getD_some] at this
    rw [hlen 257] at this
    simp at this
  · rw [h256]
    simp [MerkleProofs.Proof, MerkleProof.Proof, ProofLoop_stuck hp h true fuel 0 leaf (by decide)]

/-- C2 at the failing input, a chain of 257 equal steps: the run of length 257 is
returned as one triple with `Repeat = 0`, not 256, and the sum of `Repeat + 1` over
the output is 1, not 257. The two cases the claim names do hold. -/
theorem compaction_wraps_at_257 (h : CommonHash) (p : Bool) :
    T2LN.MerkleProofs (List.replicate 257 ((h, p) : ProofStep))
        = [{ Hash := h, Position := p, Repeat := 0 }]
      ∧ ((T2LN.MerkleProofs (List.replicate 257 ((h, p) : ProofStep))).map
            (fun mp => mp.Repeat + 1)).sum = 1
      ∧ T2LN.MerkleProofs [([1], true), ([1], true), ([2], false)]
        = [{ Hash := [1], Position := true, Repeat := 1 },
           { Hash := [2], Position := false, Repeat := 0 }]
      ∧ T2LN.MerkleProofs [] = [] := by
  have h257 := MerkleProofs_replicate h p 256
  refine ⟨h257, ?_, by decide, by decide⟩
  rw [h257]
  rfl

/-- C3 at the failing input `Repeat = 255`: whatever the number of loop iterations
allowed, `MerkleProof.Proof` does not return, because `i <= mp.Repeat` holds for
every `uint8` value of `i`. -/
theorem proof_never_returns_at_255 (hp : HashPairOrder) (h : CommonHash) (p : Bool)
    (fuel : Nat) (val : Bytes) :
    MerkleProof.Proof hp { Hash := h, Position := p, Repeat := 255 } fuel val = none :=
  ProofLoop_stuck hp h p fuel 0 val (by decide)


/-! ### The cursor loop: shared lemmas -/

theorem wellFormed_some {b : BlockEMessage} (h : (wellFormed (some b)).isSome = true) :
    ∃ hd body, wellFormed (some b) = some (b, hd, body) := by
  unfold wellFormed at *
  cases hh : b.BlockHeader <;> cases hb : b.BlockBody <;> simp_all

/-- The local `start` after a run of blocks was processed without fatal error. -/
theorem processBlocksLoop_pass (lib : Lib) (env : IterEnv) :
    ∀ (pre : List BlockEMessage) (i st : Nat) (rest : List (Option BlockEMessage)),
      (∀ b ∈ pre, (wellFormed (some b)).isSome = true) → passes env i pre →
      looper.processBlocksLoop lib env i st (pre.map some ++ rest)
        = (batchTrace lib env i pre
            ++ (looper.processBlocksLoop lib env (i + pre.length)
                (pre.foldl (fun _ b => (BlockEMessage.GetHeight lib (some b) + 1) % 2 ^ 64) st) rest).1,
           (looper.processBlocksLoop lib env (i + pre.length)
                (pre.foldl (fun _ b => (BlockEMessage.GetHeight lib (some b) + 1) % 2 ^ 64) st) rest).2) := by
  intro pre
  induction pre with
  | nil => intro i st rest _ _; simp [batchTrace]
  | cons b pre ih =>
    intro i st rest hwf hp
    obtain ⟨hd, body, hb⟩ := wellFormed_some (hwf b (List.mem_cons_self _ _))
    obtain ⟨hc, hf, hrest⟩ := hp
    have ih1 := ih (i + 1) ((BlockEMessage.GetHeight lib (some b) + 1) % 2 ^ 64) rest
      (fun x hx => hwf x (List.mem_cons_of_mem _ hx)) hrest
    simp only [List.map_cons, List.cons_append, looper.processBlocksLoop, hc, hb, hf,
      List.foldl_cons, List.length_cons, batchTrace]
    have hlen : i + 1 + pre.length = i + (pre.length + 1) := by omega
    rw [hlen] at ih1
    simp only [List.append_eq, ih1]
    simp


theorem cursorWrites_append (xs ys : List Event) :
    cursorWrites (xs ++ ys) = cursorWrites xs ++ cursorWrites ys := by
  induction xs with
  | nil => rfl
  | cons e xs ih => cases e <;> simp [cursorWrites, ih]

theorem cursorWrites_effects (effs : List Effect) :
    cursorWrites (effs.map Event.effect) = [] := by
  induction effs with
  | nil => rfl
  | cons e es ih => simp [cursorWrites, ih]

theorem le_getLastD_of_pairwise :
    ∀ (l : List Nat) (d : Nat), l.Pairwise (· ≤ ·) → ∀ x ∈ l, x ≤ l.getLastD d := by
  intro l
  induction l with
  | nil => intro d _ x hx; simp at hx
  | cons a l ih =>
    intro d hp x hx
    rw [List.pairwise_cons] at hp
    cases l with
    | nil => simp at hx; simp [hx]
    | cons b l =>
      have hlast : (a :: b :: l).getLastD d = (b :: l).getLastD a := by simp [List.getLastD]
      rw [hlast]
      rcases List.mem_cons.1 hx with rfl | hx
      · exact le_trans (hp.1 b (List.mem_cons_self _ _))
          (ih x hp.2 b (List.mem_cons_self _ _))
      · exact ih a hp.2 x hx

theorem tkmBlocks_writes (env : IterEnv) (start : Nat) :
    cursorWrites (looper._tkmBlocks env start).1 = [] := by
  unfold looper._tkmBlocks
  rcases hp : env.prepareToGet start with ⟨effs, _ | err⟩
  · cases hr : env.reply with
    | rpcError e => simp [cursorWrites_append, cursorWrites_effects, cursorWrites]
    | notSuccess => simp [cursorWrites_append, cursorWrites_effects, cursorWrites]
    | unmarshalError e => simp [cursorWrites_append, cursorWrites_effects, cursorWrites]
    | blocks ob =>
      cases ob with
      | none => simp [cursorWrites_append, cursorWrites_effects, cursorWrites]
      | some bs =>
        cases hb : bs.Blocks <;>
          simp [hb, cursorWrites_append, cursorWrites_effects, cursorWrites]
  · simp [cursorWrites_effects]

theorem tkmBlocks_some (env : IterEnv) (start : Nat) (bs : RpcBlocks)
    (h : (looper._tkmBlocks env start).2.1 = some bs) :
    env.reply = .blocks (some bs) ∧ bs.Blocks ≠ [] := by
  unfold looper._tkmBlocks at h
  rcases hp : env.prepareToGet start with ⟨effs, _ | err⟩
  · rw [hp] at h
    cases hr : env.reply with
    | rpcError e => simp [hr] at h
    | notSuccess => simp [hr] at h
    | unmarshalError e => simp [hr] at h
    | blocks ob =>
      cases ob with
      | none => simp [hr] at h
      | some bs1 =>
        cases hb : bs1.Blocks with
        | nil => simp [hr, hb] at h
        | cons x xs =>
          simp [hr, hb] at h
          subst h
          simp [hb]
  · rw [hp] at h
    simp at h

theorem wellFormed_eq_some {ob : Option BlockEMessage} {b : BlockEMessage} {hd : BlockHeader}
    {body : BlockBody} (h : wellFormed ob = some (b, hd, body)) :
    ob = some b ∧ b.BlockHeader = some hd := by
  cases ob with
  | none => simp [wellFormed] at h
  | some b0 =>
    unfold wellFormed at h
    cases hh : b0.BlockHeader with
    | none => simp [hh] at h
    | some h0 =>
      cases hb : b0.BlockBody with
      | none => simp [hh, hb] at h
      | some body0 =>
        simp only [hh, hb, Option.some.injEq, Prod.mk.injEq] at h
        obtain ⟨h1, h2, _⟩ := h
        subst h1 h2
        exact ⟨rfl, hh⟩

theorem processedHeight_eq_some {ob : Option BlockEMessage} {b : BlockEMessage}
    {hd : BlockHeader} {body : BlockBody} (h : wellFormed ob = some (b, hd, body)) :
    processedHeight ob = some hd.Height := by
  simp [processedHeight, h]

theorem processedHeight_header {ob : Option BlockEMessage} {h : Nat}
    (hp : processedHeight ob = some h) : headerHeight ob = some h := by
  unfold processedHeight at hp
  cases hw : wellFormed ob with
  | none => simp [hw] at hp
  | some t =>
    obtain ⟨b, hd, body⟩ := t
    simp only [hw, Option.some.injEq] at hp
    obtain ⟨rfl, hhd⟩ := wellFormed_eq_some hw
    simp [headerHeight, hhd, hp]

theorem processed_mem_header (bs : List (Option BlockEMessage)) (h : Nat)
    (hm : h ∈ bs.filterMap processedHeight) : h ∈ bs.filterMap headerHeight := by
  rw [List.mem_filterMap] at hm ⊢
  obtain ⟨ob, hob, hp⟩ := hm
  exact ⟨ob, hob, processedHeight_header hp⟩

theorem processedHeights_mem_delivered :
    ∀ (envs : List IterEnv) (h : Nat), h ∈ processedHeights envs → h ∈ deliveredHeights envs := by
  intro envs
  induction envs with
  | nil => intro h hm; simp [processedHeights] at hm
  | cons env envs ih =>
    intro h hm
    unfold processedHeights at hm
    unfold deliveredHeights
    cases hr : env.reply with
    | blocks obs =>
      cases obs with
      | none =>
        simp only [hr] at hm ⊢
        exact ih h hm
      | some bs =>
        simp only [hr] at hm ⊢
        rcases List.mem_append.1 hm with hm | hm
        · exact List.mem_append_left _ (processed_mem_header _ _ hm)
        · exact List.mem_append_right _ (ih h hm)
    | _ =>
      simp only [hr] at hm ⊢
      exact ih h hm

theorem filterMap_headerHeight_cons (ob : Option BlockEMessage)
    (bs : List (Option BlockEMessage)) :
    (ob :: bs).filterMap headerHeight = bs.filterMap headerHeight
      ∨ ∃ h, headerHeight ob = some h
          ∧ (ob :: bs).filterMap headerHeight = h :: bs.filterMap headerHeight := by
  cases hh : headerHeight ob with
  | none => exact Or.inl (by simp [List.filterMap_cons, hh])
  | some h => exact Or.inr ⟨h, rfl, by simp [List.filterMap_cons, hh]⟩

/-- Writes of `processBlocksLoop` on any batch: the heights plus one of the blocks
processed, in batch order, and the `next` returned is the last of them, or the
initial value when nothing was written. -/
theorem processBlocksLoop_header_writes (lib : Lib) (env : IterEnv) :
    ∀ (bs : List (Option BlockEMessage)) (i st : Nat),
      (bs.filterMap headerHeight).Pairwise (· ≤ ·) →
      (∀ h ∈ bs.filterMap processedHeight, h + 1 < 2 ^ 64) →
      (cursorWrites (looper.processBlocksLoop lib env i st bs).1).Pairwise (· ≤ ·)
        ∧ (∀ w ∈ cursorWrites (looper.processBlocksLoop lib env i st bs).1,
            ∃ h ∈ bs.filterMap processedHeight, w = h + 1)
        ∧ (looper.processBlocksLoop lib env i st bs).2.1
            = (cursorWrites (looper.processBlocksLoop lib env i st bs).1).getLastD st := by
  intro bs
  induction bs with
  | nil => intro i st _ _; simp [looper.processBlocksLoop, cursorWrites]
  | cons ob bs ih =>
    intro i st hsorted hbound
    by_cases hc : env.ctxDoneAt i = true
    · simp [looper.processBlocksLoop, hc, cursorWrites]
    have hc1 : env.ctxDoneAt i = false := by simpa using hc
    cases hw : wellFormed ob with
    | none =>
      have hstep : looper.processBlocksLoop lib env i st (ob :: bs)
          = looper.processBlocksLoop lib env (i + 1) st bs := by
        simp only [looper.processBlocksLoop, hc1, hw, Bool.false_eq_true, if_false]
      rw [hstep]
      have hpe : (ob :: bs).filterMap processedHeight = bs.filterMap processedHeight := by
        simp [List.filterMap_cons, processedHeight, hw]
      rw [hpe] at hbound ⊢
      rcases filterMap_headerHeight_cons ob bs with he | ⟨h, _, he⟩
      · rw [he] at hsorted
        exact ih (i + 1) st hsorted hbound
      · rw [he] at hsorted
        exact ih (i + 1) st (List.pairwise_cons.1 hsorted).2 hbound
    | some t =>
      obtain ⟨b, hd, body⟩ := t
      obtain ⟨rfl, hhd⟩ := wellFormed_eq_some hw
      have hhh : headerHeight (some b) = some hd.Height := by simp [headerHeight, hhd]
      have hget : BlockEMessage.GetHeight lib (some b) = hd.Height := by
        simp [BlockEMessage.GetHeight, hhd]
      have he : (some b :: bs).filterMap headerHeight = hd.Height :: bs.filterMap headerHeight := by
        simp [List.filterMap_cons, hhh]
      have hpe : (some b :: bs).filterMap processedHeight
          = hd.Height :: bs.filterMap processedHeight := by
        simp [List.filterMap_cons, processedHeight_eq_some hw]
      rw [he] at hsorted
      rw [hpe] at hbound ⊢
      have hlt : hd.Height + 1 < 2 ^ 64 := hbound _ (List.mem_cons_self _ _)
      have hmod : (hd.Height + 1) % 2 ^ 64 = hd.Height + 1 := Nat.mod_eq_of_lt hlt
      cases hf : (env.processBlock i b).fatal with
      | some f =>
        simp [looper.processBlocksLoop, hc1, hw, hf, cursorWrites, cursorWrites_effects]
      | none =>
        have hstep : looper.processBlocksLoop lib env i st (some b :: bs)
            = (Event.processBlock i b :: (env.processBlock i b).effects.map Event.effect
                ++ Event.cursorSet (hd.Height + 1)
                  :: (looper.processBlocksLoop lib env (i + 1) (hd.Height + 1) bs).1,
               (looper.processBlocksLoop lib env (i + 1) (hd.Height + 1) bs).2) := by
          simp only [looper.processBlocksLoop, hc1, hw, hf, hget, hmod, Bool.false_eq_true,
            if_false]
        have hwr : cursorWrites (looper.processBlocksLoop lib env i st (some b :: bs)).1
            = (hd.Height + 1)
              :: cursorWrites (looper.processBlocksLoop lib env (i + 1) (hd.Height + 1) bs).1 := by
          rw [hstep]
          simp [cursorWrites, cursorWrites_append, cursorWrites_effects]
        obtain ⟨h1, h2, h3⟩ := ih (i + 1) (hd.Height + 1) (List.pairwise_cons.1 hsorted).2
          (fun x hx => hbound x (List.mem_cons_of_mem _ hx))
        rw [hwr]
        refine ⟨?_, ?_, ?_⟩
        · rw [List.pairwise_cons]
          refine ⟨fun w hw2 => ?_, h1⟩
          obtain ⟨x, hx, rfl⟩ := h2 w hw2
          exact Nat.succ_le_succ
            ((List.pairwise_cons.1 hsorted).1 x (processed_mem_header _ _ hx))
        · intro w hw2
          rcases List.mem_cons.1 hw2 with rfl | hw3
          · exact ⟨hd.Height, List.mem_cons_self _ _, rfl⟩
          · obtain ⟨x, hx, rfl⟩ := h2 w hw3
            exact ⟨x, List.mem_cons_of_mem _ hx, rfl⟩
        · rw [hstep]
          show (looper.processBlocksLoop lib env (i + 1) (hd.Height + 1) bs).2.1 = _
          rw [h3, List.getLastD_cons]

theorem getLastD_mem_of_ne_nil : ∀ (l : List Nat) (d : Nat), l ≠ [] → l.getLastD d ∈ l := by
  intro l
  induction l with
  | nil => intro d h; exact absurd rfl h
  | cons a l ih =>
    intro d _
    rw [List.getLastD_cons]
    cases l with
    | nil => simp [List.getLastD]
    | cons b l => exact List.mem_cons_of_mem _ (ih a (by simp))

theorem processBlocks_eq_loop (lib : Lib) (env : IterEnv) (bs : RpcBlocks)
    (first : Option BlockEMessage) (rest : List (Option BlockEMessage))
    (hbs : bs.Blocks = first :: rest) :
    looper.processBlocks lib env (some bs)
      = looper.processBlocksLoop lib env 0 (BlockEMessage.GetHeight lib first) (first :: rest) := by
  simp [looper.processBlocks, looper.prepareBlocks, hbs]

/-- The writes of the loop of `iterateBlocks` entered with a `start` that is not the
nil height, when the delivered header heights never decrease and those of the blocks
with a body lie between `start - 1` and the nil height minus two: non-decreasing and
never below `start`. -/
theorem iterateLoop_guarded_writes (lib : Lib) (hlib : lib.heightsOrdered) :
    ∀ (envs : List IterEnv) (start : Nat),
      start ≠ lib.NilHeight →
      (deliveredHeights envs).Pairwise (· ≤ ·) →
      (∀ h ∈ processedHeights envs, start ≤ h + 1 ∧ h + 1 < lib.NilHeight) →
      (cursorWrites (looper.iterateLoop lib start envs).1).Pairwise (· ≤ ·)
        ∧ ∀ w ∈ cursorWrites (looper.iterateLoop lib start envs).1, start ≤ w := by
  obtain ⟨hpos, h64, hnh, hcmp, hcmpnil⟩ := hlib
  intro envs
  induction envs with
  | nil => intro start _ _ _; simp [looper.iterateLoop, cursorWrites]
  | cons env envs ih =>
    intro start hstart hsorted hrange
    by_cases hc : env.ctxDone = true
    · simp [looper.iterateLoop, hc, cursorWrites]
    have hc1 : env.ctxDone = false := by simpa using hc
    rcases ht : looper._tkmBlocks env start with ⟨evs, ob, oe⟩
    have hw0 : cursorWrites evs = [] := by
      have := tkmBlocks_writes env start
      rw [ht] at this; exact this
    cases oe with
    | some err => simp [looper.iterateLoop, hc1, ht, cursorWrites, hw0]
    | none =>
      cases ob with
      | none => simp [looper.iterateLoop, hc1, ht, cursorWrites, hw0]
      | some blocks =>
        obtain ⟨hreply, hne⟩ := tkmBlocks_some env start blocks (by rw [ht])
        have hD : deliveredHeights (env :: envs)
            = blocks.Blocks.filterMap headerHeight ++ deliveredHeights envs := by
          simp [deliveredHeights, hreply]
        have hP : processedHeights (env :: envs)
            = blocks.Blocks.filterMap processedHeight ++ processedHeights envs := by
          simp [processedHeights, hreply]
        rw [hD] at hsorted
        rw [hP] at hrange
        obtain ⟨hsb, hsr, hcross⟩ := List.pairwise_append.1 hsorted
        cases hbs : blocks.Blocks with
        | nil => exact absurd hbs hne
        | cons first rest =>
          have hpb := processBlocks_eq_loop lib env blocks first rest hbs
          rw [hbs] at hsb hcross hrange
          obtain ⟨hp1, hp2, hp3⟩ := processBlocksLoop_header_writes lib env (first :: rest) 0
            (BlockEMessage.GetHeight lib first) hsb
            (fun h hh => by
              have := (hrange h (List.mem_append_left _ hh)).2
              omega)
          rw [← hpb] at hp1 hp2 hp3
          rcases hp : looper.processBlocks lib env (some blocks) with ⟨pevs, next, perr⟩
          rw [hp] at hp1 hp2 hp3
          simp only at hp1 hp2 hp3
          have hpw_low : ∀ w ∈ cursorWrites pevs, start ≤ w := by
            intro w hw
            obtain ⟨h, hh, rfl⟩ := hp2 w hw
            exact (hrange h (List.mem_append_left _ hh)).1
          cases perr with
          | some err =>
            have hev : cursorWrites (looper.iterateLoop lib start (env :: envs)).1
                = cursorWrites pevs := by
              simp [looper.iterateLoop, hc1, ht, hp, cursorWrites, cursorWrites_append, hw0]
            rw [hev]
            exact ⟨hp1, hpw_low⟩
          | none =>
            -- the state after the batch: `next` is written exactly when the guard lets it
            have hnext : (lib.HeightCompare next start ≥ 0 →
                next ≠ lib.NilHeight ∧ start ≤ next
                  ∧ (∀ w ∈ cursorWrites pevs, w ≤ next)
                  ∧ ∀ h ∈ processedHeights envs, next ≤ h + 1)
                ∧ (¬ lib.HeightCompare next start ≥ 0 → cursorWrites pevs = []) := by
              by_cases hempty : cursorWrites pevs = []
              · refine ⟨fun hadv => ?_, fun _ => hempty⟩
                rw [hempty] at hp3
                simp only [List.getLastD] at hp3
                cases hfh : headerHeight first with
                | none =>
                  have hg : BlockEMessage.GetHeight lib first = lib.noHeaderHeight := by
                    cases first with
                    | none => simp [BlockEMessage.GetHeight]
                    | some b =>
                      cases hb : b.BlockHeader with
                      | none => simp [BlockEMessage.GetHeight, hb]
                      | some h0 => simp [headerHeight, hb] at hfh
                  rcases hnh with hn | hn
                  · rw [hp3, hg, hn] at hadv
                    have := hcmpnil start hstart
                    omega
                  · rw [hp3, hg, hn] at hadv
                    rw [hp3, hg, hn]
                    have hz : (0 : Nat) ≠ lib.NilHeight := by omega
                    have hs0 := (hcmp 0 start hz hstart).1 hadv
                    refine ⟨hz, hs0, ?_, fun h _ => Nat.zero_le _⟩
                    intro w hw; rw [hempty] at hw; cases hw
                | some h0 =>
                  have hg : BlockEMessage.GetHeight lib first = h0 := by
                    cases first with
                    | none => simp [headerHeight] at hfh
                    | some b =>
                      cases hb : b.BlockHeader with
                      | none => simp [headerHeight, hb] at hfh
                      | some hd =>
                        simp only [headerHeight, hb, Option.some.injEq] at hfh
                        simp [BlockEMessage.GetHeight, hb, hfh]
                  have hmem : h0 ∈ (first :: rest).filterMap headerHeight := by
                    simp [List.filterMap_cons, hfh]
                  rw [hp3, hg] at hadv
                  rw [hp3, hg]
                  by_cases hn0 : h0 = lib.NilHeight
                  · rw [hn0] at hadv
                    have := hcmpnil start hstart
                    omega
                  · refine ⟨hn0, (hcmp h0 start hn0 hstart).1 hadv, ?_, ?_⟩
                    · intro w hw; rw [hempty] at hw; cases hw
                    · intro h hh
                      have := hcross h0 hmem h (processedHeights_mem_delivered envs h hh)
                      omega
              · have hlast : next ∈ cursorWrites pevs := by
                  rw [hp3]
                  exact getLastD_mem_of_ne_nil _ _ hempty
                obtain ⟨hl, hhl, hnl⟩ := hp2 next hlast
                have hbl := hrange hl (List.mem_append_left _ hhl)
                have hnn : next ≠ lib.NilHeight := by omega
                have hsn : start ≤ next := by omega
                have hadv : lib.HeightCompare next start ≥ 0 := (hcmp next start hnn hstart).2 hsn
                refine ⟨fun _ => ⟨hnn, hsn, ?_, ?_⟩, fun hnot => absurd hadv hnot⟩
                · intro w hw
                  rw [hp3]
                  exact le_getLastD_of_pairwise _ _ hp1 w hw
                · intro h hh
                  have := hcross hl (processed_mem_header _ _ hhl) h
                    (processedHeights_mem_delivered envs h hh)
                  omega
            have hrest : ∀ h ∈ processedHeights envs, start ≤ h + 1 ∧ h + 1 < lib.NilHeight :=
              fun h hh => hrange h (List.mem_append_right _ hh)
            by_cases hadv : lib.HeightCompare next start ≥ 0
            · obtain ⟨hnn, hsn, hle, hnr⟩ := hnext.1 hadv
              have ih1 := ih next hnn hsr (fun h hh => ⟨hnr h hh, (hrest h hh).2⟩)
              have hglue : ∀ (rw : List Nat), rw.Pairwise (· ≤ ·) → (∀ w ∈ rw, next ≤ w) →
                  (cursorWrites pevs ++ [next] ++ rw).Pairwise (· ≤ ·)
                    ∧ ∀ w ∈ cursorWrites pevs ++ [next] ++ rw, start ≤ w := by
                intro rw hrw hrl
                refine ⟨?_, ?_⟩
                · rw [List.pairwise_append, List.pairwise_append]
                  refine ⟨⟨hp1, by simp, fun a ha b hb => ?_⟩, hrw, fun a ha b hb => ?_⟩
                  · rw [List.mem_singleton] at hb
                    rw [hb]
                    exact hle a ha
                  · rcases List.mem_append.1 ha with ha | ha
                    · exact le_trans (hle a ha) (hrl b hb)
                    · rw [List.mem_singleton] at ha
                      rw [ha]
                      exact hrl b hb
                · intro w hw
                  rcases List.mem_append.1 hw with hw | hw
                  · rcases List.mem_append.1 hw with hw | hw
                    · exact hpw_low w hw
                    · rw [List.mem_singleton] at hw
                      rw [hw]
                      exact hsn
                  · exact le_trans hsn (hrl w hw)
              by_cases hcur : lib.HeightCompare next blocks.Current > 0
              · have hev : cursorWrites (looper.iterateLoop lib start (env :: envs)).1
                    = cursorWrites pevs ++ [next] ++ [] := by
                  simp [looper.iterateLoop, hc1, ht, hp, cursorWrites, cursorWrites_append, hw0,
                    hadv, hcur]
                rw [hev]
                exact hglue [] List.Pairwise.nil (by simp)
              · have hev : cursorWrites (looper.iterateLoop lib start (env :: envs)).1
                    = cursorWrites pevs ++ [next]
                      ++ cursorWrites (looper.iterateLoop lib next envs).1 := by
                  simp [looper.iterateLoop, hc1, ht, hp, cursorWrites, cursorWrites_append, hw0,
                    hadv, hcur]
                rw [hev]
                exact hglue _ ih1.1 ih1.2
            · have hempty := hnext.2 hadv
              have ih1 := ih start hstart hsr hrest
              by_cases hcur : lib.HeightCompare start blocks.Current > 0
              · have hev : cursorWrites (looper.iterateLoop lib start (env :: envs)).1 = [] := by
                  simp [looper.iterateLoop, hc1, ht, hp, cursorWrites, cursorWrites_append, hw0,
                    hadv, hcur, hempty]
                rw [hev]
                simp
              · have hev : cursorWrites (looper.iterateLoop lib start (env :: envs)).1
                    = cursorWrites (looper.iterateLoop lib start envs).1 := by
                  simp [looper.iterateLoop, hc1, ht, hp, cursorWrites, cursorWrites_append, hw0,
                    hadv, hcur, hempty]
                rw [hev]
                exact ih1

theorem sampleLib_heightsOrdered : sampleLib.heightsOrdered := by
  refine ⟨by decide, by decide, Or.inl rfl, ?_, ?_⟩
  · intro a b ha hb
    have ha2 : a ≠ 2 ^ 64 - 1 := ha
    have hb2 : b ≠ 2 ^ 64 - 1 := hb
    show (if a = b then (0 : Int) else if a = 2 ^ 64 - 1 then -1 else if b = 2 ^ 64 - 1 then 1
      else if a < b then -1 else 1) ≥ 0 ↔ b ≤ a
    split_ifs <;> omega
  · intro b hb
    have hb2 : b ≠ 2 ^ 64 - 1 := hb
    show (if 2 ^ 64 - 1 = b then (0 : Int) else if 2 ^ 64 - 1 = 2 ^ 64 - 1 then -1
      else if b = 2 ^ 64 - 1 then 1 else if 2 ^ 64 - 1 < b then -1 else 1) < 0
    split_ifs <;> omega

/-! ### C4: cursor writes within a tick -/

/-- C4, as stated, fails. With the cursor at 100 and a source that answers
`GetBlocks` with one block of height 5, `processBlocks` writes 6 to the cursor key,
below the value the tick started from. With a batch of heights 102, 101 the writes
are 103, 102, 102. With a block of height 200 that has no body and then a block of
height 150 the writes are 200, by `iterateBlocks`, and then 151. With the cursor at 5,
a block of height `2^64 - 2` and then a block of that height without body, the
writes are `2^64 - 1` (the nil height, which the guard of `iterateBlocks` does not
take over as start) and then `2^64 - 2`. -/
theorem cursor_write_below_start :
    looper.tickStart sampleLib (some 100) 0 = 100
      ∧ cursorWrites (looper.iterateBlocks sampleLib true (some 100) 0 [sampleIter [5] 5]).1 = [6]
      ∧ ¬ (∀ w ∈ cursorWrites
              (looper.iterateBlocks sampleLib true (some 100) 0 [sampleIter [5] 5]).1,
            looper.tickStart sampleLib (some 100) 0 ≤ w)
      ∧ cursorWrites (looper.iterateBlocks sampleLib true (some 100) 0
          [sampleIter [102, 101] 105]).1 = [103, 102, 102]
      ∧ cursorWrites (looper.iterateBlocks sampleLib true (some 100) 0
          [sampleIterOf [some (sampleBodylessBlock 200)] 300, sampleIter [150] 300]).1
          = [200, 151]
      ∧ cursorWrites (looper.iterateBlocks sampleLib true (some 5) 0
          [sampleIter [2 ^ 64 - 2] (2 ^ 64 - 2),
           sampleIterOf [some (sampleBodylessBlock (2 ^ 64 - 2))] (2 ^ 64 - 2)]).1
          = [2 ^ 64 - 1, 2 ^ 64 - 2] := by
  decide

/-- C4, amended: when `Compare` orders heights as numbers with the nil height below
them and a block without header reports the nil height or 0, then in a tick in which
the heights of the delivered blocks that have a header never decrease, and those of
the blocks that have a header and a body are at least the start height of the tick
and at least two below the nil height, the values written to the cursor key are
non-decreasing and never below the start height, whatever the handler returns and
whether or not delivered blocks lack a header or a body. -/
theorem cursor_writes_monotone (lib : Lib) (conf : LooperConf) (cursor : Option Nat)
    (envs : List IterEnv)
    (hlib : lib.heightsOrdered)
    (hsorted : (deliveredHeights envs).Pairwise (· ≤ ·))
    (hrange : ∀ h ∈ processedHeights envs,
      looper.tickStart lib cursor conf.SrcStartHeight ≤ h ∧ h + 1 < lib.NilHeight) :
    (cursorWrites
        (looper.iterateBlocks lib conf.hasHandler cursor conf.SrcStartHeight envs).1).Pairwise
        (· ≤ ·)
      ∧ ∀ w ∈ cursorWrites
            (looper.iterateBlocks lib conf.hasHandler cursor conf.SrcStartHeight envs).1,
          looper.tickStart lib cursor conf.SrcStartHeight ≤ w := by
  have hstart : looper.tickStart lib cursor conf.SrcStartHeight ≠ lib.NilHeight := by
    unfold looper.tickStart Lib.HeightIsNil
    simp only
    by_cases h : looper.getStartHeight cursor conf.SrcStartHeight = lib.NilHeight
    · have hpos := hlib.1
      simp only [h, beq_self_eq_true, if_true]
      omega
    · simp only [beq_iff_eq, h, if_false]
      exact h
  unfold looper.iterateBlocks
  cases conf.hasHandler with
  | false => simp [cursorWrites]
  | true =>
    have h := iterateLoop_guarded_writes lib hlib envs
      (looper.tickStart lib cursor conf.SrcStartHeight) hstart hsorted
      (fun h hh => ⟨Nat.le_succ_of_le (hrange h hh).1, (hrange h hh).2⟩)
    simpa using h

/-- C4, amended, at a tick from cursor 100 whose batches hold: a block of height 50
without body; a block of height 100 and one of height 101 without body; a block of
height 101 without body; a nil block; a block of height 102. The writes are 101,
101, 101, 103, 103: the guard of `iterateBlocks` drops the 50 of the first batch and
the nil height of the fourth, and lets the 101 of the third through. -/
theorem cursor_writes_monotone_witness :
    cursorWrites (looper.iterateBlocks sampleLib true (some 100) 0
        [sampleIterOf [some (sampleBodylessBlock 50)] 105,
         sampleIterOf [some (sampleBlock 100), some (sampleBodylessBlock 101)] 105,
         sampleIterOf [some (sampleBodylessBlock 101)] 105,
         sampleIterOf [none] 105,
         sampleIterOf [some (sampleBlock 102)] 102]).1 = [101, 101, 101, 103, 103]
      ∧ (cursorWrites (looper.iterateBlocks sampleLib true (some 100) 0
          [sampleIterOf [some (sampleBodylessBlock 50)] 105,
           sampleIterOf [some (sampleBlock 100), some (sampleBodylessBlock 101)] 105,
           sampleIterOf [some (sampleBodylessBlock 101)] 105,
           sampleIterOf [none] 105,
           sampleIterOf [some (sampleBlock 102)] 102]).1).Pairwise (· ≤ ·)
      ∧ ∀ w ∈ cursorWrites (looper.iterateBlocks sampleLib true (some 100) 0
          [sampleIterOf [some (sampleBodylessBlock 50)] 105,
           sampleIterOf [some (sampleBlock 100), some (sampleBodylessBlock 101)] 105,
           sampleIterOf [some (sampleBodylessBlock 101)] 105,
           sampleIterOf [none] 105,
           sampleIterOf [some (sampleBlock 102)] 102]).1,
          looper.tickStart sampleLib (some 100) 0 ≤ w :=
  ⟨by decide,
   cursor_writes_monotone sampleLib { hasHandler := true, SrcStartHeight := 0 } (some 100)
    [sampleIterOf [some (sampleBodylessBlock 50)] 105,
     sampleIterOf [some (sampleBlock 100), some (sampleBodylessBlock 101)] 105,
     sampleIterOf [some (sampleBodylessBlock 101)] 105,
     sampleIterOf [none] 105,
     sampleIterOf [some (sampleBlock 102)] 102]
    sampleLib_heightsOrdered (by decide) (by decide)⟩

/-! ### C5: `processBlocks` -/

/-- C5: on a non-empty batch of blocks with header and body, with the context not
cancelled, `looper.processBlocks` calls `processBlock` on the blocks in batch
order and writes the height plus one (a `uint64` sum) to the cursor key after each
block that does not end fatally, warning or not. Without a fatal outcome it returns
the last height plus one and no error. At the first fatal outcome it stops: no later
block is processed, nothing is written for the failing block, and it returns the
wrapped error with `next` the previous block's height plus one, or the first block's
height when the first block fails. -/
theorem processBlocks_batch_order (lib : Lib) (env : IterEnv) (current : Nat) :
    (∀ (pre : List BlockEMessage) (bn : BlockEMessage),
        (∀ b ∈ pre ++ [bn], (wellFormed (some b)).isSome = true) →
        passes env 0 (pre ++ [bn]) →
        looper.processBlocks lib env
            (some { Blocks := (pre ++ [bn]).map some, Current := current })
          = (batchTrace lib env 0 (pre ++ [bn]),
             (BlockEMessage.GetHeight lib (some bn) + 1) % 2 ^ 64, none))
    ∧ (∀ (b : BlockEMessage) (post : List (Option BlockEMessage)) (f : GoError),
        (wellFormed (some b)).isSome = true →
        env.ctxDoneAt 0 = false →
        (env.processBlock 0 b).fatal = some f →
        looper.processBlocks lib env (some { Blocks := some b :: post, Current := current })
          = (Event.processBlock 0 b :: (env.processBlock 0 b).effects.map Event.effect,
             BlockEMessage.GetHeight lib (some b), some (.wrap "processing fatal" f)))
    ∧ (∀ (pre : List BlockEMessage) (bp b : BlockEMessage)
        (post : List (Option BlockEMessage)) (f : GoError),
        (∀ x ∈ pre ++ [bp, b], (wellFormed (some x)).isSome = true) →
        passes env 0 (pre ++ [bp]) →
        env.ctxDoneAt (pre.length + 1) = false →
        (env.processBlock (pre.length + 1) b).fatal = some f →
        looper.processBlocks lib env
            (some { Blocks := (pre ++ [bp]).map some ++ some b :: post, Current := current })
          = (batchTrace lib env 0 (pre ++ [bp])
              ++ Event.processBlock (pre.length + 1) b
                :: (env.processBlock (pre.length + 1) b).effects.map Event.effect,
             (BlockEMessage.GetHeight lib (some bp) + 1) % 2 ^ 64,
             some (.wrap "processing fatal" f))) := by
  have hdef : ∀ (first : Option BlockEMessage) (rest : List (Option BlockEMessage)),
      looper.processBlocks lib env (some { Blocks := first :: rest, Current := current })
        = looper.processBlocksLoop lib env 0 (BlockEMessage.GetHeight lib first)
            (first :: rest) := by
    intro first rest
    simp [looper.processBlocks, looper.prepareBlocks]
  have hfold : ∀ (pre : List BlockEMessage) (bp : BlockEMessage) (st : Nat),
      (pre ++ [bp]).foldl (fun _ b => (BlockEMessage.GetHeight lib (some b) + 1) % 2 ^ 64) st
        = (BlockEMessage.GetHeight lib (some bp) + 1) % 2 ^ 64 := by
    intro pre bp st
    simp [List.foldl_append]
  have hcons : ∀ (pre : List BlockEMessage) (bp : BlockEMessage)
      (rest : List (Option BlockEMessage)),
      ∃ first tail, (pre ++ [bp]).map some ++ rest = first :: tail := by
    intro pre bp rest
    cases pre with
    | nil => exact ⟨_, _, rfl⟩
    | cons a l => exact ⟨_, _, rfl⟩
  refine ⟨?_, ?_, ?_⟩
  · intro pre bn hwf hp
    obtain ⟨first, tail, hft⟩ := hcons pre bn []
    have hl := processBlocksLoop_pass lib env (pre ++ [bn]) 0
      (BlockEMessage.GetHeight lib first) [] hwf hp
    rw [List.append_nil] at hft hl
    rw [hft, hdef, ← hft, hl, hfold]
    simp [looper.processBlocksLoop]
  · intro b post f hwf hc hf
    obtain ⟨hd, body, hb⟩ := wellFormed_some hwf
    rw [hdef]
    simp [looper.processBlocksLoop, hc, hb, hf]
  · intro pre bp b post f hwf hp hc hf
    obtain ⟨hd, body, hb⟩ := wellFormed_some (hwf b (by simp))
    obtain ⟨first, tail, hft⟩ := hcons pre bp (some b :: post)
    have hl := processBlocksLoop_pass lib env (pre ++ [bp]) 0
      (BlockEMessage.GetHeight lib first) (some b :: post)
      (fun x hx => hwf x (by
        rcases List.mem_append.1 hx with h | h
        · exact List.mem_append_left _ h
        · exact List.mem_append_right _ (by simp at h; simp [h]))) hp
    have hlen : 0 + (pre ++ [bp]).length = pre.length + 1 := by simp
    rw [hft, hdef, ← hft, hl, hfold, hlen]
    simp [looper.processBlocksLoop, hc, hb, hf]

/-- C5 at a batch of heights 7, 8, 9: without fatal outcome the writes are 8, 9, 10
and `next` is 10; with a fatal outcome at index 0 nothing is written and `next` is 7;
with a fatal outcome at index 2 the writes are 8, 9 and `next` is 9. -/
theorem processBlocks_batch_order_witness :
    looper.processBlocks sampleLib (sampleIter [7, 8, 9] 9)
        (some { Blocks := ([sampleBlock 7, sampleBlock 8] ++ [sampleBlock 9]).map some,
                Current := 9 })
      = (batchTrace sampleLib (sampleIter [7, 8, 9] 9) 0
          ([sampleBlock 7, sampleBlock 8] ++ [sampleBlock 9]),
         (BlockEMessage.GetHeight sampleLib (some (sampleBlock 9)) + 1) % 2 ^ 64, none)
    ∧ looper.processBlocks sampleLib (sampleIterFatalAt 0 [7, 8, 9] 9)
        (some { Blocks := some (sampleBlock 7) :: [some (sampleBlock 8), some (sampleBlock 9)],
                Current := 9 })
      = ([Event.processBlock 0 (sampleBlock 7)], 7, some (.wrap "processing fatal" (.plain "fatal")))
    ∧ looper.processBlocks sampleLib (sampleIterFatalAt 2 [7, 8, 9] 9)
        (some { Blocks := ([sampleBlock 7] ++ [sampleBlock 8]).map some
                  ++ some (sampleBlock 9) :: [],
                Current := 9 })
      = ([Event.processBlock 0 (sampleBlock 7), Event.cursorSet 8,
          Event.processBlock 1 (sampleBlock 8), Event.cursorSet 9,
          Event.processBlock 2 (sampleBlock 9)],
         9, some (.wrap "processing fatal" (.plain "fatal"))) :=
  ⟨(processBlocks_batch_order sampleLib (sampleIter [7, 8, 9] 9) 9).1
      [sampleBlock 7, sampleBlock 8] (sampleBlock 9) (by decide)
      (by simp [passes, sampleIter]),
   (processBlocks_batch_order sampleLib (sampleIterFatalAt 0 [7, 8, 9] 9) 9).2.1
      (sampleBlock 7) [some (sampleBlock 8), some (sampleBlock 9)] (.plain "fatal")
      (by decide) (by decide) (by decide),
   (processBlocks_batch_order sampleLib (sampleIterFatalAt 2 [7, 8, 9] 9) 9).2.2
      [sampleBlock 7] (sampleBlock 8) (sampleBlock 9) [] (.plain "fatal")
      (by decide) (by simp [passes, sampleIterFatalAt, sampleIter]) (by decide) (by decide)⟩


/-! ### Lease releases of `doWork` -/

theorem updateEventLoop_skip (lib : Lib) (eventID : CommonHash) (header : BlockHeader) :
    ∀ (pre : List (Option Log)) (rest : List (Option Log)),
      (∀ l ∈ pre, isUpdateLog eventID l = false) →
      updateEventLoop lib eventID header (pre ++ rest)
        = updateEventLoop lib eventID header rest := by
  intro pre
  induction pre with
  | nil => intro rest _; rfl
  | cons l pre ih =>
    intro rest h
    have hl := h l (List.mem_cons_self _ _)
    have ih1 := ih rest (fun x hx => h x (List.mem_cons_of_mem _ hx))
    cases l with
    | none => simpa [updateEventLoop] using ih1
    | some lg =>
      simp only [isUpdateLog] at hl
      simp only [List.cons_append, updateEventLoop, hl]
      simpa using ih1

theorem numericDiff_next (a b : Nat) :
    (¬ ((numericDiff a b).2 ≥ 0 ∨ (numericDiff a b).1 ≠ 1)) ↔ b = a + 1 := by
  unfold numericDiff
  by_cases h1 : a = b
  · subst h1; simp
  · by_cases h2 : a < b
    · simp [h1, h2]; omega
    · simp [h1, h2]; omega

theorem updateEventLoop_at (lib : Lib) (eventID : CommonHash) (hd : BlockHeader)
    (pre post : List (Option Log)) (lg : Log) (t1 t2 : CommonHash) (more : List CommonHash)
    (hpre : ∀ l ∈ pre, isUpdateLog eventID l = false)
    (htopics : lg.Topics = eventID :: t1 :: t2 :: more)
    (hdiff : lib.EpochDiff (lib.HeightEpochNum hd.Height) (lib.BytesToUint64 (t1.drop 24))
      = numericDiff (lib.HeightEpochNum hd.Height) (lib.BytesToUint64 (t1.drop 24))) :
    (updateEventLoop lib eventID hd (pre ++ some lg :: post)).isSome = true
      ↔ (lib.BytesToUint64 (t1.drop 24) ≠ lib.HeightEpochNum hd.Height + 1
          ∨ lib.HashEqual t2 hd.ElectedNextRoot = false) := by
  rw [updateEventLoop_skip lib eventID hd pre _ hpre]
  have hn := numericDiff_next (lib.HeightEpochNum hd.Height) (lib.BytesToUint64 (t1.drop 24))
  simp only [updateEventLoop, htopics, _parseLNUpdateEvent, hdiff]
  generalize numericDiff (lib.HeightEpochNum hd.Height) (lib.BytesToUint64 (t1.drop 24)) = d
    at hn ⊢
  by_cases hP : d.2 ≥ 0 ∨ d.1 ≠ 1
  · have hne : lib.BytesToUint64 (t1.drop 24) ≠ lib.HeightEpochNum hd.Height + 1 :=
      fun h => (hn.2 h) hP
    simp [hP, hne]
  · have hnext : lib.BytesToUint64 (t1.drop 24) = lib.HeightEpochNum hd.Height + 1 := hn.1 hP
    cases heq : lib.HashEqual t2 hd.ElectedNextRoot <;> simp [hP, hnext, heq]

theorem targetUpdateComm_reaches_loop (lib : Lib) (main : Bool) (msg : String)
    (env : UpdateEnv) (comm : CommitteeProof) (hd : BlockHeader) (rcpt : ReceiptWithFwds)
    (nonce : Nat)
    (hv : CommitteeProof.Verify lib comm main = none)
    (hhd : comm.Header = some hd)
    (hfetch : env.sendingFetch = none) (hpd : env.packData = none)
    (hpi : env.packInput = none) (hnonce : env.nonce = .ok nonce)
    (hsend : env.sendTx = none) (hrcpt : env.checkReceipt = .ok rcpt)
    (hsucc : rcpt.Success = true) :
    (targetUpdateComm lib main msg env comm).2
      = updateEventLoop lib env.eventID hd rcpt.Logs := by
  simp [targetUpdateComm, hv, hhd, hfetch, hpd, hpi, hnonce, hsend, hrcpt, hsucc]

/-- C8: when the committee proof passed `Verify`, the sender lease was fetched, the
transaction was packed and sent, and a successful receipt came back whose first
`UpdateCommittee` log has three topics or more, `maintainer._targetUpdateComm` and
`xmaintainer._targetUpdateComm` return an error exactly when the epoch decoded from
topic 1 is not the header's epoch plus one or topic 2 is not equal to the header's
`ElectedNextRoot`; `Diff` is taken to return the distance and the order of the two
epochs. -/
theorem update_event_assertion (lib : Lib) (env : UpdateEnv) (comm : CommitteeProof)
    (hd : BlockHeader) (rcpt : ReceiptWithFwds) (nonce : Nat)
    (pre post : List (Option Log)) (lg : Log) (t1 t2 : CommonHash) (more : List CommonHash)
    (hhd : comm.Header = some hd)
    (hfetch : env.sendingFetch = none) (hpd : env.packData = none)
    (hpi : env.packInput = none) (hnonce : env.nonce = .ok nonce)
    (hsend : env.sendTx = none) (hrcpt : env.checkReceipt = .ok rcpt)
    (hsucc : rcpt.Success = true)
    (hlogs : rcpt.Logs = pre ++ some lg :: post)
    (hpre : ∀ l ∈ pre, isUpdateLog env.eventID l = false)
    (htopics : lg.Topics = env.eventID :: t1 :: t2 :: more)
    (hdiff : lib.EpochDiff (lib.HeightEpochNum hd.Height) (lib.BytesToUint64 (t1.drop 24))
      = numericDiff (lib.HeightEpochNum hd.Height) (lib.BytesToUint64 (t1.drop 24))) :
    (CommitteeProof.Verify lib comm true = none →
      ((maintainer._targetUpdateComm lib env comm).2.isSome = true
        ↔ (lib.BytesToUint64 (t1.drop 24) ≠ lib.HeightEpochNum hd.Height + 1
            ∨ lib.HashEqual t2 hd.ElectedNextRoot = false)))
    ∧ (CommitteeProof.Verify lib comm false = none →
      ((xmaintainer._targetUpdateComm lib env comm).2.isSome = true
        ↔ (lib.BytesToUint64 (t1.drop 24) ≠ lib.HeightEpochNum hd.Height + 1
            ∨ lib.HashEqual t2 hd.ElectedNextRoot = false))) := by
  constructor
  · intro hv
    unfold maintainer._targetUpdateComm
    rw [targetUpdateComm_reaches_loop lib true _ env comm hd rcpt nonce hv hhd hfetch hpd hpi
      hnonce hsend hrcpt hsucc, hlogs]
    exact updateEventLoop_at lib env.eventID hd pre post lg t1 t2 more hpre htopics hdiff
  · intro hv
    unfold xmaintainer._targetUpdateComm
    rw [targetUpdateComm_reaches_loop lib false _ env comm hd rcpt nonce hv hhd hfetch hpd hpi
      hnonce hsend hrcpt hsucc, hlogs]
    exact updateEventLoop_at lib env.eventID hd pre post lg t1 t2 more hpre htopics hdiff

/-- C8 at the proof for height 5000 (epoch 5) under `sampleLib`: the event of epoch 6
with the header's root is accepted by both handlers, and the equivalence holds for
the maintain handler at that event and for the xmaintain handler at an event of
epoch 7. -/
theorem update_event_assertion_witness :
    (maintainer._targetUpdateComm sampleLib (sampleUpdateEnv 6 [7, 8, 9]) sampleCommProof).2
        = none
      ∧ (xmaintainer._targetUpdateComm sampleLib (sampleUpdateEnv 6 [7, 8, 9]) sampleCommProof).2
        = none
      ∧ ((maintainer._targetUpdateComm sampleLib (sampleUpdateEnv 6 [7, 8, 9])
            sampleCommProof).2.isSome = true
          ↔ (sampleLib.BytesToUint64 ((sampleTopic 6).drop 24)
                ≠ sampleLib.HeightEpochNum 5000 + 1
              ∨ sampleLib.HashEqual [7, 8, 9] (some [7, 8, 9]) = false))
      ∧ ((xmaintainer._targetUpdateComm sampleLib (sampleUpdateEnv 7 [7, 8, 9])
            sampleCommProof).2.isSome = true
          ↔ (sampleLib.BytesToUint64 ((sampleTopic 7).drop 24)
                ≠ sampleLib.HeightEpochNum 5000 + 1
              ∨ sampleLib.HashEqual [7, 8, 9] (some [7, 8, 9]) = false)) :=
  ⟨by decide, by decide,
   (update_event_assertion sampleLib (sampleUpdateEnv 6 [7, 8, 9]) sampleCommProof
      { ChainID := 0, Height := 5000, ElectedNextRoot := some [7, 8, 9] }
      { Success := true, Err := .plain "",
        Logs := [none, some { Address := [1], Topics := [[4]], Data := [] },
                 some { Address := [1], Topics := [[9], sampleTopic 6, [7, 8, 9]],
                        Data := [] }] }
      3 [none, some { Address := [1], Topics := [[4]], Data := [] }] []
      { Address := [1], Topics := [[9], sampleTopic 6, [7, 8, 9]], Data := [] }
      (sampleTopic 6) [7, 8, 9] []
      rfl rfl rfl rfl rfl rfl rfl rfl rfl (by decide) rfl (by decide)).1 (by decide),
   (update_event_assertion sampleLib (sampleUpdateEnv 7 [7, 8, 9]) sampleCommProof
      { ChainID := 0, Height := 5000, ElectedNextRoot := some [7, 8, 9] }
      { Success := true, Err := .plain "",
        Logs := [none, some { Address := [1], Topics := [[4]], Data := [] },
                 some { Address := [1], Topics := [[9], sampleTopic 7, [7, 8, 9]],
                        Data := [] }] }
      3 [none, some { Address := [1], Topics := [[4]], Data := [] }] []
      { Address := [1], Topics := [[9], sampleTopic 7, [7, 8, 9]], Data := [] }
      (sampleTopic 7) [7, 8, 9] []
      rfl rfl rfl rfl rfl rfl rfl rfl rfl (by decide) rfl (by decide)).2 (by decide)⟩

/-! ### C9, C10: `CommitteeProof.Verify` -/

/-- C9: `CommitteeProof.Verify(mainchainNeeded)` returns nil exactly when the header
is present, the committee is available, the header's chain id is the main chain if
`mainchainNeeded`, the committee hash equals the header's `ElectedNextRoot`, and
`PaSs.Verify` on the header hash reports no error and at least one passing
signature. -/
theorem verify_succeeds_iff (lib : Lib) (p : CommitteeProof) (mainchainNeeded : Bool) :
    CommitteeProof.Verify lib p mainchainNeeded = none
      ↔ ∃ hd, p.Header = some hd
          ∧ lib.CommIsAvailable p.Comm = true
          ∧ (mainchainNeeded = true → lib.ChainIDIsMain hd.ChainID = true)
          ∧ lib.HashEqual (lib.CommHash p.Comm) hd.ElectedNextRoot = true
          ∧ (lib.PaSsVerify p.PaSs (lib.HeaderHash hd)).2 = none
          ∧ 1 ≤ (lib.PaSsVerify p.PaSs (lib.HeaderHash hd)).1 := by
  unfold CommitteeProof.Verify
  cases hh : p.Header with
  | none => simp
  | some hd =>
    simp only [Option.some.injEq, exists_eq_left']
    cases ha : lib.CommIsAvailable p.Comm
    · simp
    · cases hm : mainchainNeeded <;> cases hc : lib.ChainIDIsMain hd.ChainID <;>
        cases he : lib.HashEqual (lib.CommHash p.Comm) hd.ElectedNextRoot <;>
        rcases hv : lib.PaSsVerify p.PaSs (lib.HeaderHash hd) with ⟨n, _ | err⟩ <;>
        simp <;> omega

/-- C10, as stated, fails: under `sampleLib` one of the three signatures of
`sampleCommProof` passes, which is no majority of the three signatures nor of the
three committee members, and `Verify` returns nil. -/
theorem verify_accepts_minority :
    CommitteeProof.Verify sampleLib sampleCommProof true = none
      ∧ (sampleLib.PaSsVerify sampleCommProof.PaSs
          (sampleLib.HeaderHash { ChainID := 0, Height := 5000,
                                  ElectedNextRoot := some [7, 8, 9] })) = (1, none)
      ∧ sampleCommProof.PaSs.length = 3
      ∧ ¬ (2 * 1 > sampleCommProof.PaSs.length) := by
  decide

/-- C10, amended: `CommitteeProof.Verify` accepts a committee proof only if at least
one signature passes: for every proof for which `PaSs.Verify` on the header hash
reports an error or no passing signature, `Verify` returns an error. -/
theorem verify_needs_one_pass (lib : Lib) (p : CommitteeProof) (mainchainNeeded : Bool)
    (hd : BlockHeader) (hhd : p.Header = some hd)
    (hfail : (lib.PaSsVerify p.PaSs (lib.HeaderHash hd)).2 ≠ none
      ∨ (lib.PaSsVerify p.PaSs (lib.HeaderHash hd)).1 ≤ 0) :
    (CommitteeProof.Verify lib p mainchainNeeded).isSome = true := by
  unfold CommitteeProof.Verify
  rw [hhd]
  simp only
  split_ifs
  · rfl
  · rfl
  · rfl
  · rcases hv : lib.PaSsVerify p.PaSs (lib.HeaderHash hd) with ⟨n, _ | err⟩
    · rw [hv] at hfail
      have hn : n ≤ 0 := by simpa using hfail
      simp [hn]
    · simp

/-- C10, amended, at a proof none of whose signatures passes under `sampleLib`. -/
theorem verify_needs_one_pass_witness :
    (sampleLib.PaSsVerify sampleUnsignedProof.PaSs
        (sampleLib.HeaderHash { ChainID := 0, Height := 5000,
                                ElectedNextRoot := some [7, 8, 9] })).1 = 0
      ∧ (CommitteeProof.Verify sampleLib sampleUnsignedProof true).isSome = true :=
  ⟨by decide,
   verify_needs_one_pass sampleLib sampleUnsignedProof true
    { ChainID := 0, Height := 5000, ElectedNextRoot := some [7, 8, 9] } rfl
    (Or.inr (by decide))⟩


/-! ### C14: `Expirable` -/

theorem wrapInt64_of_range (x : Int) (h1 : -(2 ^ 63) ≤ x) (h2 : x < 2 ^ 63) :
    wrapInt64 x = x := by
  unfold wrapInt64
  have h : (x + 2 ^ 63) % 2 ^ 64 = x + 2 ^ 63 :=
    Int.emod_eq_of_lt (by omega) (by omega)
  rw [h]
  omega

/-- C14, as stated, fails: with `ttl = 2^63 - 1` ms the sum `now + ttl` of `Update`
at time 1 overflows `int64`, the stored expiry is `-2^63`, and `Get` at time 1 reports
`(42, false)` although `1 < 1 + ttl`. -/
theorem expirable_expiry_overflows :
    (Expirable.Update (NewExpirable (0 : Nat) (2 ^ 63 - 1) 0) 1 42).expires = -(2 ^ 63)
      ∧ (Expirable.Get (Expirable.Update (NewExpirable (0 : Nat) (2 ^ 63 - 1) 0) 1 42) 1).2
          = (42, false)
      ∧ ((1 : Nat) : Int) < ((1 : Nat) : Int) + (2 ^ 63 - 1) := by
  decide

/-- C14, amended: for every Expirable with `ttl >= 0`, every value `v` and clock times
`t` and `t'` (`t <= t'` or not) with `t + ttl < 2^63`, `Get` at `t'` after `Update(v)`
at `t` returns
`(v, true)` exactly when `t' < t + ttl` and `(v, false)` otherwise; `Get` returns the
stored value and leaves the state as it is; an Expirable constructed with
`expires = 0` reports `(initial value, false)`. -/
theorem expirable_fresh_until_expiry {T : Type} (e : Expirable T) (v : T) (t t' : Nat)
    (httl : 0 ≤ e.ttlms) (hno : (t : Int) + e.ttlms < 2 ^ 63) :
    (Expirable.Get (Expirable.Update e t v) t').2
        = (v, decide ((t' : Int) < (t : Int) + e.ttlms))
      ∧ (Expirable.Get (Expirable.Update e t v) t').1 = Expirable.Update e t v
      ∧ (∀ (e0 : Expirable T) (now : Nat),
          (Expirable.Get e0 now).1 = e0 ∧ (Expirable.Get e0 now).2.1 = e0.value)
      ∧ (∀ (v0 : T) (ttl : Int) (now : Nat),
          (Expirable.Get (NewExpirable v0 ttl 0) now).2 = (v0, false)) := by
  have hw : wrapInt64 ((t : Int) + e.ttlms) = (t : Int) + e.ttlms :=
    wrapInt64_of_range _ (by omega) hno
  refine ⟨?_, ?_, ?_, ?_⟩
  · unfold Expirable.Get Expirable.Update
    simp only [hw]
    by_cases h : (t' : Int) < (t : Int) + e.ttlms
    · have h1 : ¬ ((t' : Int) ≥ (t : Int) + e.ttlms) := by omega
      simp [h, h1]
    · have h1 : (t' : Int) ≥ (t : Int) + e.ttlms := by omega
      simp [h, h1]
  · unfold Expirable.Get
    split_ifs <;> rfl
  · intro e0 now
    unfold Expirable.Get
    split_ifs <;> exact ⟨rfl, rfl⟩
  · intro v0 ttl now
    have h : ((now : Nat) : Int) ≥ 0 := Int.ofNat_nonneg now
    simp [Expirable.Get, NewExpirable, h]

/-- C14, amended, at `ttl = 1000` ms and `Update(42)` at time 5000: `Get` reports
`(42, true)` at 5999 and `(42, false)` at 6000. -/
theorem expirable_fresh_until_expiry_witness :
    (Expirable.Get (Expirable.Update (NewExpirable (0 : Nat) 1000 0) 5000 42) 5999).2
        = (42, true)
      ∧ (Expirable.Get (Expirable.Update (NewExpirable (0 : Nat) 1000 0) 5000 42) 6000).2
        = (42, false)
      ∧ (Expirable.Get (Expirable.Update (NewExpirable (0 : Nat) 1000 0) 5000 42) 5999).2
        = (42, decide (((5999 : Nat) : Int) < ((5000 : Nat) : Int) + 1000)) :=
  ⟨by decide, by decide,
   (expirable_fresh_until_expiry (NewExpirable (0 : Nat) 1000 0) 42 5000 5999
      (by decide) (by decide)).1⟩

/-! ### C15, C16, C17: leases -/

/-- C15: `redisLock.Fetch` on a lease already held locally fails without a store
call and leaves the handle as it is; when the store answers that the key is held by
another holder it fails, returns the value the store has for the key and leaves the
lease not held; on any other store error it fails and leaves the lease not held; on a
successful obtain it records the handle and returns no error, and that is the only
case without error. -/
theorem fetch_outcomes (l : redisLock) (env : StoreEnv) :
    (∀ h, l.rlock = some h →
        l.Fetch env = (l, [], h.token, some (.plain "lock already fetched")))
      ∧ (l.rlock = none → env.obtain = .notObtained →
        l.Fetch env
          = (l, [StoreCall.obtain l.key l.value l.ttl, StoreCall.get l.key], env.get,
             some ErrNotObtained)
          ∧ (l.Fetch env).1.rlock = none)
      ∧ (∀ err, l.rlock = none → env.obtain = .failed err →
        l.Fetch env = (l, [StoreCall.obtain l.key l.value l.ttl], "", some err)
          ∧ (l.Fetch env).1.rlock = none)
      ∧ (∀ h, l.rlock = none → env.obtain = .obtained h →
        l.Fetch env
          = ({ l with rlock := some h }, [StoreCall.obtain l.key l.value l.ttl], "", none))
      ∧ ((l.Fetch env).2.2.2 = none ↔ (l.rlock = none ∧ ∃ h, env.obtain = .obtained h))
      ∧ ((l.Fetch env).1 ≠ l → (l.Fetch env).2.2.2 = none) := by
  refine ⟨?_, ?_, ?_, ?_, ?_, ?_⟩
  · intro h hh
    simp [redisLock.Fetch, hh]
  · intro hn ho
    simp [redisLock.Fetch, redisLock._fetch, hn, ho]
  · intro err hn ho
    simp [redisLock.Fetch, redisLock._fetch, hn, ho]
  · intro h hn ho
    simp [redisLock.Fetch, redisLock._fetch, hn, ho]
  · cases hr : l.rlock with
    | some h => simp [redisLock.Fetch, hr]
    | none =>
      cases ho : env.obtain <;> simp [redisLock.Fetch, redisLock._fetch, hr, ho, ErrNotObtained]
  · cases hr : l.rlock with
    | some h => simp [redisLock.Fetch, hr]
    | none =>
      cases ho : env.obtain <;> simp [redisLock.Fetch, redisLock._fetch, hr, ho]

/-- C15 at four leases: held locally, busy store, unreachable store, free store. -/
theorem fetch_outcomes_witness :
    (sampleLock (some { token := "me" })).Fetch sampleFreeStore
        = (sampleLock (some { token := "me" }), [], "me", some (.plain "lock already fetched"))
      ∧ (sampleLock none).Fetch sampleBusyStore
        = (sampleLock none, [StoreCall.obtain "k" "me" 30, StoreCall.get "k"], "other",
           some ErrNotObtained)
      ∧ (sampleLock none).Fetch sampleDownStore
        = (sampleLock none, [StoreCall.obtain "k" "me" 30], "",
           some (.plain "connection refused"))
      ∧ (sampleLock none).Fetch sampleFreeStore
        = (sampleLock (some { token := "me" }), [StoreCall.obtain "k" "me" 30], "", none) :=
  ⟨(fetch_outcomes (sampleLock (some { token := "me" })) sampleFreeStore).1
      { token := "me" } rfl,
   ((fetch_outcomes (sampleLock none) sampleBusyStore).2.1 rfl rfl).1,
   ((fetch_outcomes (sampleLock none) sampleDownStore).2.2.1
      (.plain "connection refused") rfl rfl).1,
   (fetch_outcomes (sampleLock none) sampleFreeStore).2.2.2.1 { token := "me" } rfl rfl⟩

/-- C16: `redisLock.Release` on a lease not held locally makes no store call and
returns no error; on a held lease it issues one store release, returns its result and
leaves the lease not held whether the store release failed or not; a second `Release`
right after makes no store call, returns no error and changes nothing. -/
theorem release_idempotent (l : redisLock) (env env2 : StoreEnv) :
    (l.rlock = none → l.Release env = (l, [], none))
      ∧ (∀ h, l.rlock = some h →
        l.Release env = ({ l with rlock := none }, [StoreCall.release h], env.release))
      ∧ (l.Release env).1.rlock = none
      ∧ (l.Release env).1.Release env2 = ((l.Release env).1, [], none) := by
  have hnone : (l.Release env).1.rlock = none := by
    cases hr : l.rlock <;> simp [redisLock.Release, hr]
  refine ⟨?_, ?_, hnone, ?_⟩
  · intro hn
    simp [redisLock.Release, hn]
  · intro h hh
    simp [redisLock.Release, hh]
  · generalize (l.Release env).1 = l1 at hnone
    simp [redisLock.Release, hnone]

/-- C16 at a held lease whose store release fails: one store call, the error is
returned, the lease is not held afterwards; and at a lease not held. -/
theorem release_idempotent_witness :
    (sampleLock (some { token := "me" })).Release sampleBusyStore
        = (sampleLock none, [StoreCall.release { token := "me" }],
           some (.plain "release failed"))
      ∧ (sampleLock none).Release sampleBusyStore = (sampleLock none, [], none) :=
  ⟨(release_idempotent (sampleLock (some { token := "me" })) sampleBusyStore
      sampleBusyStore).2.1 { token := "me" } rfl,
   (release_idempotent (sampleLock none) sampleBusyStore sampleBusyStore).1 rfl⟩

/-- C17: with a local handle `redisLock.FetchOrRefresh` makes the one store call
`Refresh` and never `Obtain`; on success it returns the lease's own value and no
error, on failure the error, and in both cases the lease keeps its handle, so the next
`FetchOrRefresh` refreshes again. Without a handle its result, store calls and state
are those of `Fetch`. It refreshes exactly when a handle exists. `Refresh` without a
handle fails with the not-fetched error and makes no store call. -/
theorem fetchOrRefresh_outcomes (l : redisLock) (env env2 : StoreEnv) :
    (∀ h, l.rlock = some h → env.refresh = none →
        l.FetchOrRefresh env = (l, [StoreCall.refresh h l.ttl], l.value, none))
      ∧ (∀ h err, l.rlock = some h → env.refresh = some err →
        l.FetchOrRefresh env = (l, [StoreCall.refresh h l.ttl], "", some err)
          ∧ (l.FetchOrRefresh env).1.rlock = some h
          ∧ (((l.FetchOrRefresh env).1).FetchOrRefresh env2).2.1
              = [StoreCall.refresh h l.ttl])
      ∧ (l.rlock = none → l.FetchOrRefresh env = l.Fetch env)
      ∧ ((∃ h, StoreCall.refresh h l.ttl ∈ (l.FetchOrRefresh env).2.1) ↔ l.rlock.isSome = true)
      ∧ (l.rlock.isSome = true →
          ∀ k tok ttl, StoreCall.obtain k tok ttl ∉ (l.FetchOrRefresh env).2.1)
      ∧ (l.rlock = none → l.Refresh env = (l, [], some (.plain "lock not fetched"))) := by
  refine ⟨?_, ?_, ?_, ?_, ?_, ?_⟩
  · intro h hh hr
    simp [redisLock.FetchOrRefresh, hh, hr]
  · intro h err hh hr
    have h1 : l.FetchOrRefresh env = (l, [StoreCall.refresh h l.ttl], "", some err) := by
      simp [redisLock.FetchOrRefresh, hh, hr]
    refine ⟨h1, by rw [h1]; exact hh, ?_⟩
    rw [h1]
    cases hr2 : env2.refresh <;> simp [redisLock.FetchOrRefresh, hh, hr2]
  · intro hn
    simp [redisLock.FetchOrRefresh, redisLock.Fetch, hn]
  · cases hh : l.rlock with
    | none =>
      cases ho : env.obtain <;> simp [redisLock.FetchOrRefresh, redisLock._fetch, hh, ho]
    | some h =>
      cases hr : env.refresh <;> simp [redisLock.FetchOrRefresh, hh, hr]
  · intro hs k tok ttl
    cases hh : l.rlock with
    | none => simp [hh] at hs
    | some h =>
      cases hr : env.refresh <;> simp [redisLock.FetchOrRefresh, hh, hr]
  · intro hn
    simp [redisLock.Refresh, hn]

/-- C17 at a held lease with a successful and with a failed refresh, and at a lease
not held with a free store. -/
theorem fetchOrRefresh_outcomes_witness :
    (sampleLock (some { token := "me" })).FetchOrRefresh sampleFreeStore
        = (sampleLock (some { token := "me" }),
           [StoreCall.refresh { token := "me" } 30], "me", none)
      ∧ (sampleLock (some { token := "me" })).FetchOrRefresh sampleBusyStore
        = (sampleLock (some { token := "me" }),
           [StoreCall.refresh { token := "me" } 30], "", some (.plain "refresh failed"))
      ∧ (sampleLock none).FetchOrRefresh sampleFreeStore = (sampleLock none).Fetch sampleFreeStore
      ∧ (sampleLock none).Refresh sampleFreeStore
        = (sampleLock none, [], some (.plain "lock not fetched")) :=
  ⟨(fetchOrRefresh_outcomes (sampleLock (some { token := "me" })) sampleFreeStore
      sampleFreeStore).1 { token := "me" } rfl rfl,
   ((fetchOrRefresh_outcomes (sampleLock (some { token := "me" })) sampleBusyStore
      sampleFreeStore).2.1 { token := "me" } (.plain "refresh failed") rfl rfl).1,
   (fetchOrRefresh_outcomes (sampleLock none) sampleFreeStore sampleFreeStore).2.2.1 rfl,
   (fetchOrRefresh_outcomes (sampleLock none) sampleFreeStore sampleFreeStore).2.2.2.2.2 rfl⟩


/-! ### C11: the cursor at startup -/

/-- C11, as stated, fails. With `lastHeight = 2^64 - 1` the `uint64` sum
`lastHeight + 1` is 0: from start height 0 nothing is written and startup proceeds,
from a cursor at 2000 startup fails. With `lastHeight = 120` and start height 100
the write of 121 is attempted, but startup does not proceed when the store refuses
the write, nor when the committee check is asked for: `confirmConfig` then returns
an exit error after the write. -/
theorem confirmConfig_write_not_assured :
    looper.getStartHeight none 0 < (2 ^ 64 - 1) + 1
      ∧ maintainer.confirmConfig sampleLib { hasHandler := true, SrcStartHeight := 0 }
          (sampleConfirmEnv none (2 ^ 64 - 1)) = ([], none)
      ∧ xmaintainer.confirmConfig sampleLib { hasHandler := true, SrcStartHeight := 0 }
          (sampleConfirmEnv none (2 ^ 64 - 1)) = ([], none)
      ∧ maintainer.confirmConfig sampleLib { hasHandler := true, SrcStartHeight := 0 }
          (sampleConfirmEnv (some 2000) (2 ^ 64 - 1))
          = ([], some (.plain "startHeight but light-node.lastHeight"))
      ∧ maintainer.confirmConfig sampleLib { hasHandler := true, SrcStartHeight := 100 }
          { sampleConfirmEnv none 120 with setCursor := some (.plain "store down") }
          = ([Event.cursorSet 121],
             some (.wrap "update start height failed" (.plain "store down")))
      ∧ maintainer.confirmConfig sampleLib { hasHandler := true, SrcStartHeight := 100 }
          { sampleConfirmEnv none 120 with checkLNComm := true }
          = ([Event.cursorSet 121], some (.exit 0 (.plain "comms checked"))) :=
  ⟨by decide, rfl, rfl, rfl, rfl, rfl⟩

/-- C11, amended: when the light client's `lastHeight` L is read and is below
`2^64 - 1`, and `Diff` returns the distance and the order of the start height s and
L+1, `maintainer.confirmConfig` and `xmaintainer.confirmConfig` behave as follows.
If s < L+1 the only write to the cursor key is that of L+1, and startup proceeds
exactly when the write is accepted and the committee check is not asked for. If
s > L+1 and s - (L+1) is at least the epoch length, startup fails and the cursor key
is not written. Otherwise the cursor key is not written and startup proceeds exactly
when the committee check is not asked for. -/
theorem confirmConfig_cursor (lib : Lib) (conf : LooperConf) (env : ConfirmEnv) (L : Nat)
    (hbase : env.looperConfirm = none) (hpack : env.pack = none) (hcall : env.call = none)
    (hunpack : env.unpack = .ok L) (hL : L + 1 < 2 ^ 64)
    (hdiff : lib.HeightDiff (looper.getStartHeight env.cursor conf.SrcStartHeight) (L + 1)
      = numericDiff (looper.getStartHeight env.cursor conf.SrcStartHeight) (L + 1)) :
    (looper.getStartHeight env.cursor conf.SrcStartHeight < L + 1 →
        ((maintainer.confirmConfig lib conf env).1 = [Event.cursorSet (L + 1)]
            ∧ ((maintainer.confirmConfig lib conf env).2 = none
                ↔ env.setCursor = none ∧ env.checkLNComm = false))
          ∧ ((xmaintainer.confirmConfig lib conf env).1 = [Event.cursorSet (L + 1)]
            ∧ ((xmaintainer.confirmConfig lib conf env).2 = none
                ↔ env.setCursor = none ∧ env.checkLNComm = false)))
      ∧ (looper.getStartHeight env.cursor conf.SrcStartHeight > L + 1 →
          looper.getStartHeight env.cursor conf.SrcStartHeight - (L + 1) ≥ lib.BlocksInEpoch →
        ((maintainer.confirmConfig lib conf env).1 = []
            ∧ (maintainer.confirmConfig lib conf env).2.isSome = true)
          ∧ ((xmaintainer.confirmConfig lib conf env).1 = []
            ∧ (xmaintainer.confirmConfig lib conf env).2.isSome = true))
      ∧ (¬ looper.getStartHeight env.cursor conf.SrcStartHeight < L + 1 →
          ¬ (looper.getStartHeight env.cursor conf.SrcStartHeight > L + 1
            ∧ looper.getStartHeight env.cursor conf.SrcStartHeight - (L + 1)
                ≥ lib.BlocksInEpoch) →
        ((maintainer.confirmConfig lib conf env).1 = []
            ∧ ((maintainer.confirmConfig lib conf env).2 = none ↔ env.checkLNComm = false))
          ∧ ((xmaintainer.confirmConfig lib conf env).1 = []
            ∧ ((xmaintainer.confirmConfig lib conf env).2 = none
                ↔ env.checkLNComm = false))) := by
  have hmod : (L + 1) % 2 ^ 64 = L + 1 := Nat.mod_eq_of_lt hL
  have hbody : confirmConfigBody lib conf env
      = (if (numericDiff (looper.getStartHeight env.cursor conf.SrcStartHeight) (L + 1)).2 < 0 then
          match env.setCursor with
          | some err =>
            ([Event.cursorSet (L + 1)], some (.wrap "update start height failed" err))
          | none =>
            ([Event.cursorSet (L + 1)],
              if env.checkLNComm then
                match env.checkComms with
                | some err => some (.exit ExitLCErr err)
                | none => some (.exit 0 (.plain "comms checked"))
              else none)
        else if (numericDiff (looper.getStartHeight env.cursor conf.SrcStartHeight) (L + 1)).2 > 0
            ∧ (numericDiff (looper.getStartHeight env.cursor conf.SrcStartHeight) (L + 1)).1
                ≥ lib.BlocksInEpoch then
          ([], some (.plain "startHeight but light-node.lastHeight"))
        else
          ([], if env.checkLNComm then
                match env.checkComms with
                | some err => some (.exit ExitLCErr err)
                | none => some (.exit 0 (.plain "comms checked"))
              else none)) := by
    unfold confirmConfigBody
    simp only [hbase, hpack, hcall, hunpack, hmod, hdiff]
    cases env.checkLNComm <;> cases env.checkComms <;> cases env.setCursor <;> simp
  unfold maintainer.confirmConfig xmaintainer.confirmConfig
  rw [hbody]
  generalize looper.getStartHeight env.cursor conf.SrcStartHeight = s
  unfold numericDiff
  refine ⟨?_, ?_, ?_⟩
  · intro hlt
    have h1 : ¬ s = L + 1 := by omega
    cases env.checkLNComm <;> cases env.checkComms <;> cases env.setCursor <;> simp [h1, hlt]
  · intro hgt hge
    have h1 : ¬ s = L + 1 := by omega
    have h2 : ¬ s < L + 1 := by omega
    simp [h1, h2, hge]
  · intro hnlt hnfar
    by_cases h1 : s = L + 1
    · cases env.checkLNComm <;> cases env.checkComms <;> simp [h1]
    · have hgt : s > L + 1 := by omega
      have hnear : ¬ s - (L + 1) ≥ lib.BlocksInEpoch := fun h => hnfar ⟨hgt, h⟩
      have hnear2 : ¬ lib.BlocksInEpoch ≤ s - (L + 1) := hnear
      cases env.checkLNComm <;> cases env.checkComms <;> simp [h1, hnlt, hnear2]

/-- C11, amended, with the cursor key absent, `SrcStartHeight = 100` and
`lastHeight = 120`: the cursor key is set to 121 and startup proceeds; with the
cursor at 2000 startup fails without a write; with the cursor at 130 nothing is
written and startup proceeds. -/
theorem confirmConfig_cursor_witness :
    maintainer.confirmConfig sampleLib { hasHandler := true, SrcStartHeight := 100 }
        (sampleConfirmEnv none 120) = ([Event.cursorSet 121], none)
      ∧ (((maintainer.confirmConfig sampleLib { hasHandler := true, SrcStartHeight := 100 }
            (sampleConfirmEnv none 120)).1 = [Event.cursorSet (120 + 1)]
          ∧ ((maintainer.confirmConfig sampleLib { hasHandler := true, SrcStartHeight := 100 }
              (sampleConfirmEnv none 120)).2 = none
              ↔ (sampleConfirmEnv none 120).setCursor = none
                ∧ (sampleConfirmEnv none 120).checkLNComm = false))
        ∧ ((xmaintainer.confirmConfig sampleLib { hasHandler := true, SrcStartHeight := 100 }
            (sampleConfirmEnv none 120)).1 = [Event.cursorSet (120 + 1)]
          ∧ ((xmaintainer.confirmConfig sampleLib { hasHandler := true, SrcStartHeight := 100 }
              (sampleConfirmEnv none 120)).2 = none
              ↔ (sampleConfirmEnv none 120).setCursor = none
                ∧ (sampleConfirmEnv none 120).checkLNComm = false)))
      ∧ (((maintainer.confirmConfig sampleLib { hasHandler := true, SrcStartHeight := 100 }
            (sampleConfirmEnv (some 2000) 120)).1 = []
          ∧ (maintainer.confirmConfig sampleLib { hasHandler := true, SrcStartHeight := 100 }
            (sampleConfirmEnv (some 2000) 120)).2.isSome = true)
        ∧ ((xmaintainer.confirmConfig sampleLib { hasHandler := true, SrcStartHeight := 100 }
            (sampleConfirmEnv (some 2000) 120)).1 = []
          ∧ (xmaintainer.confirmConfig sampleLib { hasHandler := true, SrcStartHeight := 100 }
            (sampleConfirmEnv (some 2000) 120)).2.isSome = true))
      ∧ maintainer.confirmConfig sampleLib { hasHandler := true, SrcStartHeight := 100 }
          (sampleConfirmEnv (some 130) 120) = ([], none)
      ∧ (((maintainer.confirmConfig sampleLib { hasHandler := true, SrcStartHeight := 100 }
            (sampleConfirmEnv (some 130) 120)).1 = []
          ∧ ((maintainer.confirmConfig sampleLib { hasHandler := true, SrcStartHeight := 100 }
              (sampleConfirmEnv (some 130) 120)).2 = none
              ↔ (sampleConfirmEnv (some 130) 120).checkLNComm = false))
        ∧ ((xmaintainer.confirmConfig sampleLib { hasHandler := true, SrcStartHeight := 100 }
            (sampleConfirmEnv (some 130) 120)).1 = []
          ∧ ((xmaintainer.confirmConfig sampleLib { hasHandler := true, SrcStartHeight := 100 }
              (sampleConfirmEnv (some 130) 120)).2 = none
              ↔ (sampleConfirmEnv (some 130) 120).checkLNComm = false))) :=
  ⟨rfl,
   (confirmConfig_cursor sampleLib { hasHandler := true, SrcStartHeight := 100 }
      (sampleConfirmEnv none 120) 120 rfl rfl rfl rfl (by decide) (by decide)).1
      (by decide),
   (confirmConfig_cursor sampleLib { hasHandler := true, SrcStartHeight := 100 }
      (sampleConfirmEnv (some 2000) 120) 120 rfl rfl rfl rfl (by decide) (by decide)).2.1
      (by decide) (by decide),
   rfl,
   (confirmConfig_cursor sampleLib { hasHandler := true, SrcStartHeight := 100 }
      (sampleConfirmEnv (some 130) 120) 120 rfl rfl rfl rfl (by decide) (by decide)).2.2
      (by decide) (by decide)⟩


/-! ### C18: the receipt proof builder -/

theorem locateLog_cond_iff (a : Bytes) (t : CommonHash) (l : Log) :
    (l.Address == a && decide (l.Topics.length > 0) && l.Topics.head? == some t) = true
      ↔ logMatches a t l := by
  unfold logMatches
  cases hT : l.Topics with
  | nil => simp
  | cons x xs => simp

theorem locateLogFrom_none (a : Bytes) (t : CommonHash) :
    ∀ (logs : List Log) (k : Nat),
      (∀ l ∈ logs, ¬ logMatches a t l) → locateLogFrom a t k logs = none := by
  intro logs
  induction logs with
  | nil => intro k _; rfl
  | cons l rest ih =>
    intro k h
    have hl : ¬ (l.Address == a && decide (l.Topics.length > 0)
        && l.Topics.head? == some t) = true :=
      fun hc => h l (List.mem_cons_self _ _) ((locateLog_cond_iff a t l).1 hc)
    simp only [locateLogFrom, hl, if_false]
    exact ih (k + 1) (fun x hx => h x (List.mem_cons_of_mem _ hx))

theorem locateLogFrom_some (a : Bytes) (t : CommonHash) :
    ∀ (logs : List Log) (k i : Nat) (l : Log),
      locateLogFrom a t k logs = some (i, l) →
      ∃ j, i = k + j ∧ logs[j]? = some l ∧ logMatches a t l
        ∧ ∀ (j2 : Nat) (l2 : Log), j2 < j → logs[j2]? = some l2 → ¬ logMatches a t l2 := by
  intro logs
  induction logs with
  | nil => intro k i l h; simp [locateLogFrom] at h
  | cons x rest ih =>
    intro k i l h
    by_cases hc : (x.Address == a && decide (x.Topics.length > 0)
        && x.Topics.head? == some t) = true
    · simp only [locateLogFrom, hc, if_true, Option.some.injEq, Prod.mk.injEq] at h
      obtain ⟨rfl, rfl⟩ := h
      exact ⟨0, rfl, by simp, (locateLog_cond_iff a t x).1 hc, fun j2 l2 hj => absurd hj (by omega)⟩
    · simp only [locateLogFrom, hc, if_false] at h
      obtain ⟨j, hi, hget, hm, hmin⟩ := ih (k + 1) i l h
      refine ⟨j + 1, by omega, by simpa using hget, hm, ?_⟩
      intro j2 l2 hj hg
      cases j2 with
      | zero =>
        simp at hg
        subst hg
        exact fun hmm => hc ((locateLog_cond_iff a t x).2 hmm)
      | succ j3 => exact hmin j3 l2 (by omega) (by simpa using hg)

theorem RcptAndTargetLog_ok (lib : Lib) (r : Receipt) (a : Bytes) (t : CommonHash)
    (rcpt : Receipt) (rlog : Log) (logProof : List ProofStep)
    (h : T2LN.RcptAndTargetLog lib (some r) a t = .ok (rcpt, rlog, logProof)) :
    rcpt.Logs = []
      ∧ ∃ i, r.Logs[i]? = some rlog ∧ logMatches a t rlog
        ∧ ∀ (j : Nat) (l2 : Log), j < i → r.Logs[j]? = some l2 → ¬ logMatches a t l2 := by
  unfold T2LN.RcptAndTargetLog at h
  simp only at h
  split_ifs at h
  cases hloc : locateLog r.Logs a t with
  | none => simp [hloc] at h
  | some il =>
    obtain ⟨i, l⟩ := il
    simp only [hloc] at h
    cases hm : lib.LogsMerkleRoot r.Logs i with
    | error e => simp [hm] at h
    | ok lp =>
      simp only [hm, Except.ok.injEq, Prod.mk.injEq] at h
      obtain ⟨h1, h2, _⟩ := h
      subst h1 h2
      obtain ⟨j, hi, hget, hmatch, hmin⟩ := locateLogFrom_some a t r.Logs 0 i l hloc
      exact ⟨rfl, j, hget, hmatch, hmin⟩

theorem RcptAndTargetLog_no_match (lib : Lib) (r : Receipt) (a : Bytes) (t : CommonHash)
    (h : ∀ l ∈ r.Logs, ¬ logMatches a t l) :
    ∃ e, T2LN.RcptAndTargetLog lib (some r) a t = .error e := by
  unfold T2LN.RcptAndTargetLog
  simp only
  split_ifs
  · exact ⟨_, rfl⟩
  · have : locateLog r.Logs a t = none := locateLogFrom_none a t r.Logs 0 h
    simp [this]

/-- C18: for a tx-final-proof that is not nil, `T2LN.ReceiptProof` and
`T2LN.ReceiptData` return an error when the header is absent, the receipt is absent
or the receipt proof chain is empty; for a receipt of version 2 or more they return an
error when no log has the contract address and the topic as first topic; and when
they succeed on such a receipt the emitted log is the translation of the matching log
of lowest index, with the address, the topics and the data of that log, hence the
contract address and the topic as first topic, and the emitted receipt carries no
logs. -/
theorem receiptProof_checks (lib : Lib) (p : TxFinalProof) (a : Bytes) (t : CommonHash) :
    ((p.Header = none ∨ p.Receipt = none ∨ p.ReceiptProof = []) →
        (∃ e, T2LN.ReceiptProof lib (some p) a t = .error e)
          ∧ ∃ e, T2LN.ReceiptData lib (some p) a t = .error e)
      ∧ (∀ r, p.Receipt = some r → r.Version ≥ ReceiptV2 →
          (∀ l ∈ r.Logs, ¬ logMatches a t l) →
        (∃ e, T2LN.ReceiptProof lib (some p) a t = .error e)
          ∧ ∃ e, T2LN.ReceiptData lib (some p) a t = .error e)
      ∧ (∀ r out, p.Receipt = some r → r.Version ≥ ReceiptV2 →
          T2LN.ReceiptProof lib (some p) a t = .ok (some out) →
        out.Receipt.Logs = []
          ∧ ∃ i l, r.Logs[i]? = some l ∧ logMatches a t l
            ∧ (∀ (j : Nat) (l2 : Log), j < i → r.Logs[j]? = some l2 → ¬ logMatches a t l2)
            ∧ out.Log = T2LN.ReceiptLog (some l)
            ∧ out.Log.Address = l.Address ∧ out.Log.Topics = l.Topics
            ∧ out.Log.Data = l.Data
            ∧ out.Log.Address = a ∧ out.Log.Topics.head? = some t)
      ∧ (∀ r out, p.Receipt = some r → r.Version ≥ ReceiptV2 →
          T2LN.ReceiptData lib (some p) a t = .ok (some out) →
        out.Receipt.Logs = []
          ∧ ∃ i l, r.Logs[i]? = some l ∧ logMatches a t l
            ∧ (∀ (j : Nat) (l2 : Log), j < i → r.Logs[j]? = some l2 → ¬ logMatches a t l2)
            ∧ out.Log = T2LN.ReceiptLog (some l)
            ∧ out.Log.Address = l.Address ∧ out.Log.Topics = l.Topics
            ∧ out.Log.Data = l.Data
            ∧ out.Log.Address = a ∧ out.Log.Topics.head? = some t) := by
  refine ⟨?_, ?_, ?_, ?_⟩
  · intro h
    cases hh : p.Header with
    | none => simp [T2LN.ReceiptProof, T2LN.ReceiptData, hh]
    | some hd =>
      cases hr : p.Receipt with
      | none => simp [T2LN.ReceiptProof, T2LN.ReceiptData, hh, hr]
      | some r =>
        have hp : p.ReceiptProof = [] := by
          rcases h with h | h | h
          · rw [hh] at h; cases h
          · rw [hr] at h; cases h
          · exact h
        simp [T2LN.ReceiptProof, T2LN.ReceiptData, hh, hr, hp]
  · intro r hr hv hno
    obtain ⟨e, he⟩ := RcptAndTargetLog_no_match lib r a t hno
    cases hh : p.Header with
    | none => simp [T2LN.ReceiptProof, T2LN.ReceiptData, hh]
    | some hd =>
      by_cases hp : p.ReceiptProof.length = 0
      · simp [T2LN.ReceiptProof, T2LN.ReceiptData, hh, hr, hp]
      · simp [T2LN.ReceiptProof, T2LN.ReceiptData, hh, hr, hp, hv, he]
  · intro r out hr hv hok
    cases hh : p.Header with
    | none => simp [T2LN.ReceiptProof, hh] at hok
    | some hd =>
      simp only [T2LN.ReceiptProof, hh, hr] at hok
      by_cases hp : p.ReceiptProof.length = 0
      · simp [hp] at hok
      · simp only [hp, if_false, hv, if_true] at hok
        cases hrt : T2LN.RcptAndTargetLog lib (some r) a t with
        | error e => simp [hrt] at hok
        | ok res =>
          obtain ⟨rcpt, rlog, logProof⟩ := res
          simp only [hrt, Except.ok.injEq, Option.some.injEq] at hok
          obtain ⟨hlogs, i, hget, hm, hmin⟩ := RcptAndTargetLog_ok lib r a t rcpt rlog logProof hrt
          subst hok
          exact ⟨by simp [T2LN.Receipt, T2LN.ReceiptLogs, hlogs], i, rlog, hget, hm, hmin, rfl,
            rfl, rfl, rfl, hm.1, hm.2⟩
  · intro r out hr hv hok
    cases hh : p.Header with
    | none => simp [T2LN.ReceiptData, hh] at hok
    | some hd =>
      simp only [T2LN.ReceiptData, hh, hr] at hok
      by_cases hp : p.ReceiptProof.length = 0
      · simp [hp] at hok
      · simp only [hp, if_false, hv, if_true] at hok
        cases hrt : T2LN.RcptAndTargetLog lib (some r) a t with
        | error e => simp [hrt] at hok
        | ok res =>
          obtain ⟨rcpt, rlog, logProof⟩ := res
          simp only [hrt, Except.ok.injEq, Option.some.injEq] at hok
          obtain ⟨hlogs, i, hget, hm, hmin⟩ := RcptAndTargetLog_ok lib r a t rcpt rlog logProof hrt
          subst hok
          exact ⟨by simp [T2LN.Receipt, T2LN.ReceiptLogs, hlogs], i, rlog, hget, hm, hmin, rfl,
            rfl, rfl, rfl, hm.1, hm.2⟩


/-! ### C12, C13: the order-id precheck of the sync handler -/

theorem txLoop_collects (conf : SyncConf) (env : SyncEnv) (maxMain : Nat) :
    ∀ (txs : List Transaction) (acc proofs : List TxFinalProof),
      (syncer.txLoop conf env maxMain txs acc).2 = .ok proofs →
      ∃ new, proofs = acc ++ new ∧ ∀ p ∈ new, syncer.precheckedAbsent conf env p := by
  intro txs
  induction txs with
  | nil =>
    intro acc proofs h
    simp only [syncer.txLoop, Except.ok.injEq] at h
    exact ⟨[], by simp [h], by simp⟩
  | cons tx rest ih =>
    intro acc proofs h
    unfold syncer.txLoop at h
    by_cases hc : (tx.To.isSome && decide (tx.Input.length > 0)) = true
    · simp only [hc, if_true] at h
      cases hp : env.txFinalProof tx.TxHash maxMain with
      | error e => simp [hp] at h
      | ok op =>
        cases op with
        | none => simp [hp] at h
        | some proof =>
          simp only [hp] at h
          by_cases hs : env.receiptSuccess proof.Receipt = true
          · simp only [hs, Bool.not_true, Bool.false_eq_true, if_false] at h
            cases hv : env.finalVerify proof with
            | some e => simp [hv] at h
            | none =>
              simp only [hv] at h
              cases hr : proof.Receipt with
              | none => simp [hr] at h
              | some rcpt =>
                simp only [hr] at h
                cases hl : locateLog rcpt.Logs conf.mcsAddress conf.watchTopicId with
                | none =>
                  simp only [hl] at h
                  exact ih acc proofs h
                | some il =>
                  obtain ⟨i, rlog⟩ := il
                  simp only [hl] at h
                  cases hu : env.unpackEvent rlog with
                  | error e => simp [hu] at h
                  | ok out =>
                    simp only [hu] at h
                    cases ho : env.checkOrderId out.OrderId with
                    | error e => simp [ho] at h
                    | ok b =>
                      cases b with
                      | true =>
                        simp only [ho] at h
                        exact ih acc proofs h
                      | false =>
                        simp only [ho] at h
                        obtain ⟨new, hnew, hall⟩ := ih (acc ++ [proof]) proofs h
                        refine ⟨proof :: new, by simp [hnew], ?_⟩
                        intro p hp2
                        rcases List.mem_cons.1 hp2 with rfl | hp3
                        · exact ⟨out.OrderId, by simp [syncer.orderIdOf, hr, hl, hu], ho⟩
                        · exact hall p hp3
          · have hs2 : env.receiptSuccess proof.Receipt = false := by
              cases hb : env.receiptSuccess proof.Receipt with
              | true => exact absurd hb hs
              | false => rfl
            simp only [hs2, Bool.not_false, if_true] at h
            exact ih acc proofs h
    · simp only [hc, if_false] at h
      exact ih acc proofs h

theorem txLoop_effects (conf : SyncConf) (env : SyncEnv) (maxMain : Nat) :
    ∀ (txs : List Transaction) (acc : List TxFinalProof),
      ∀ e ∈ (syncer.txLoop conf env maxMain txs acc).1,
        e = Effect.runningRefresh ∨ (∃ h, e = Effect.proofFetch h)
          ∨ ∃ o, e = Effect.orderCheck o := by
  intro txs
  induction txs with
  | nil => intro acc e he; simp [syncer.txLoop] at he
  | cons tx rest ih =>
    intro acc e he
    unfold syncer.txLoop at he
    by_cases hc : (tx.To.isSome && decide (tx.Input.length > 0)) = true
    · simp only [hc, if_true] at he
      cases hp : env.txFinalProof tx.TxHash maxMain with
      | error err => simp only [hp] at he; simp at he; rcases he with rfl | rfl <;> simp
      | ok op =>
        cases op with
        | none => simp only [hp] at he; simp at he; rcases he with rfl | rfl <;> simp
        | some proof =>
          simp only [hp] at he
          by_cases hs : env.receiptSuccess proof.Receipt = true
          · simp only [hs, Bool.not_true, Bool.false_eq_true, if_false] at he
            cases hv : env.finalVerify proof with
            | some err => simp only [hv] at he; simp at he; rcases he with rfl | rfl <;> simp
            | none =>
              simp only [hv] at he
              cases hr : proof.Receipt with
              | none => simp only [hr] at he; simp at he; rcases he with rfl | rfl <;> simp
              | some rcpt =>
                simp only [hr] at he
                cases hl : locateLog rcpt.Logs conf.mcsAddress conf.watchTopicId with
                | none =>
                  simp only [hl] at he
                  simp at he
                  rcases he with rfl | rfl | he
                  · simp
                  · simp
                  · exact ih acc e he
                | some il =>
                  obtain ⟨i, rlog⟩ := il
                  simp only [hl] at he
                  cases hu : env.unpackEvent rlog with
                  | error err => simp only [hu] at he; simp at he; rcases he with rfl | rfl <;> simp
                  | ok out =>
                    simp only [hu] at he
                    cases ho : env.checkOrderId out.OrderId with
                    | error err =>
                      simp only [ho] at he; simp at he
                      rcases he with rfl | rfl | rfl <;> simp
                    | ok b =>
                      cases b with
                      | true =>
                        simp only [ho] at he
                        simp at he
                        rcases he with rfl | rfl | rfl | he
                        · simp
                        · simp
                        · simp
                        · exact ih acc e he
                      | false =>
                        simp only [ho] at he
                        simp at he
                        rcases he with rfl | rfl | rfl | he
                        · simp
                        · simp
                        · simp
                        · exact ih (acc ++ [proof]) e he
          · have hs2 : env.receiptSuccess proof.Receipt = false := by
              cases hb : env.receiptSuccess proof.Receipt with
              | true => exact absurd hb hs
              | false => rfl
            simp only [hs2, Bool.not_false, if_true] at he
            simp at he
            rcases he with rfl | rfl | he
            · simp
            · simp
            · exact ih acc e he
    · simp only [hc, if_false] at he
      exact ih acc e he

theorem txLoop_all_present (conf : SyncConf) (env : SyncEnv) (maxMain : Nat) :
    ∀ (txs : List Transaction) (acc : List TxFinalProof),
      syncer.allOrdersPresent conf env maxMain txs →
      (syncer.txLoop conf env maxMain txs acc).2 = .ok acc := by
  intro txs
  induction txs with
  | nil => intro acc _; rfl
  | cons tx rest ih =>
    intro acc hall
    obtain ⟨hhead, hrest⟩ := hall
    unfold syncer.txLoop
    by_cases hc : (tx.To.isSome && decide (tx.Input.length > 0)) = true
    · obtain ⟨proof, hp, hsucc⟩ := hhead hc
      simp only [hc, if_true, hp]
      by_cases hs : env.receiptSuccess proof.Receipt = true
      · obtain ⟨hv, rcpt, hr, hlog⟩ := hsucc hs
        simp only [hs, Bool.not_true, Bool.false_eq_true, if_false, hv]
        simp only [hr]
        cases hl : locateLog rcpt.Logs conf.mcsAddress conf.watchTopicId with
        | none => simp only []; exact ih acc hrest
        | some il =>
          obtain ⟨i, rlog⟩ := il
          obtain ⟨out, hu, ho⟩ := hlog i rlog hl
          simp only [hu, ho]
          exact ih acc hrest
      · have hs2 : env.receiptSuccess proof.Receipt = false := by
          cases hb : env.receiptSuccess proof.Receipt with
          | true => exact absurd hb hs
          | false => rfl
        simp only [hs2, Bool.not_false, if_true]
        exact ih acc hrest
    · simp only [hc, if_false]
      exact ih acc hrest

theorem txSends_append (xs ys : List Effect) :
    txSends (xs ++ ys) = txSends xs ++ txSends ys := by
  induction xs with
  | nil => rfl
  | cons e xs ih => cases e <;> simp [txSends, ih]

theorem mcsSendLoop_sends (env : McsEnv) :
    ∀ (proofs : List TxFinalProof) (i nonce : Nat),
      (txSends (mcsSendLoop env i nonce proofs).1).length ≤ proofs.length := by
  intro proofs
  induction proofs with
  | nil => intro i nonce; simp [mcsSendLoop, txSends]
  | cons p rest ih =>
    intro i nonce
    unfold mcsSendLoop
    cases h1 : env.receiptProof i with
    | some e => simp [txSends]
    | none =>
      cases h2 : env.packData i with
      | some e => simp [txSends]
      | none =>
        cases h3 : env.packInput i with
        | some e => simp [txSends]
        | none =>
          cases h4 : env.sendTx i with
          | some e => simp [txSends]
          | none =>
            have := ih (i + 1) ((nonce + 1) % 2 ^ 64)
            by_cases hi : i > 0 ∧ i % 10 = 0
            · simp only [hi, and_self, if_true, txSends, txSends_append, List.length_cons,
                List.length_append, List.cons_append, List.nil_append, List.length_nil,
                List.append_eq]
              omega
            · simp only [hi, if_false, txSends, List.nil_append, List.length_cons,
                List.append_eq]
              omega

theorem mcsProofs_sends (env : McsEnv) (proofs : List TxFinalProof) :
    (txSends (_mcsProofs env proofs).1).length ≤ proofs.length := by
  unfold _mcsProofs
  have hl := mcsSendLoop_sends env proofs 0
  by_cases h0 : proofs.length = 0
  · simp [h0, txSends]
  · simp only [h0, if_false]
    cases hf : env.sendingFetch with
    | some e => simp [txSends]
    | none =>
      cases hn : env.nonce with
      | error e => simp [txSends, txSends_append]
      | ok nonce =>
        have hl2 := hl nonce
        simp only []
        cases hm : mcsSendLoop env 0 nonce proofs with
        | mk effs r =>
          rw [hm] at hl2
          cases r with
          | some e => simpa [txSends, txSends_append] using hl2
          | none =>
            cases hr : env.checkReceipts with
            | error e => simpa [txSends, txSends_append] using hl2
            | ok rcpts =>
              simp only []
              split_ifs <;> simpa [txSends, txSends_append] using hl2

/-- C12, as the code has it: with the order list of the target answering "not
present" throughout, a block holding two transactions whose transfer-out logs carry
the same order id `[9]` makes `syncer.processBlock` collect both proofs and send two
transactions, with nonces 0 and 1. -/
theorem precheck_allows_duplicate_order :
    syncer.txLoop sampleSyncConf (sampleOrderEnv false) 10
        [{ To := some [1], Input := [1], TxHash := [11] },
         { To := some [1], Input := [1], TxHash := [12] }] []
      = ([Effect.runningRefresh, Effect.proofFetch [11], Effect.orderCheck [9],
          Effect.runningRefresh, Effect.proofFetch [12], Effect.orderCheck [9]],
         .ok [sampleTxProof [11], sampleTxProof [12]])
    ∧ syncer.orderIdOf sampleSyncConf (sampleOrderEnv false) (sampleTxProof [11]) = some [9]
    ∧ syncer.orderIdOf sampleSyncConf (sampleOrderEnv false) (sampleTxProof [12]) = some [9]
    ∧ syncer.processBlock sampleLib sampleSyncConf (sampleOrderEnv false)
        (sampleTxBlock 10 [[11], [12]])
      = { effects :=
            [Effect.provableHeights,
             Effect.runningRefresh, Effect.proofFetch [11], Effect.orderCheck [9],
             Effect.runningRefresh, Effect.proofFetch [12], Effect.orderCheck [9],
             Effect.sendingFetch, Effect.locksRefresh, Effect.suggestGasPrice,
             Effect.nonceQuery, Effect.txSend 0, Effect.txSend 1, Effect.receiptPoll,
             Effect.sendingRelease],
          fatal := none, warning := none } := by
  refine ⟨rfl, rfl, rfl, ?_⟩
  decide

/-- C12, amended: every proof that the transaction loop of a call of
`syncer.processBlock` collects for sending belongs to a transaction whose
transfer-out log unpacks to an order id for which the precheck against the target's
order list answered "not present" in that call, and `_mcsProofs` passes at most one
transaction per collected proof to `sendLegacyTx`. -/
theorem sync_sends_prechecked_only (conf : SyncConf) (env : SyncEnv)
    (txs : List Transaction) (maxMain : Nat) (proofs : List TxFinalProof)
    (h : (syncer.txLoop conf env maxMain txs []).2 = .ok proofs) :
    (∀ p ∈ proofs, ∃ oid, syncer.orderIdOf conf env p = some oid
        ∧ env.checkOrderId oid = .ok false)
      ∧ (txSends (_mcsProofs env.mcs proofs).1).length ≤ proofs.length := by
  obtain ⟨new, hnew, hall⟩ := txLoop_collects conf env maxMain txs [] proofs h
  simp only [List.nil_append] at hnew
  subst hnew
  exact ⟨hall, mcsProofs_sends env.mcs _⟩

theorem sync_sends_prechecked_only_witness :
    (syncer.txLoop sampleSyncConf (sampleOrderEnv false) 10
        [{ To := some [1], Input := [1], TxHash := [11] }] []).2 = .ok [sampleTxProof [11]]
      ∧ ((∀ p ∈ [sampleTxProof [11]],
            ∃ oid, syncer.orderIdOf sampleSyncConf (sampleOrderEnv false) p = some oid
              ∧ (sampleOrderEnv false).checkOrderId oid = .ok false)
          ∧ (txSends (_mcsProofs (sampleOrderEnv false).mcs [sampleTxProof [11]]).1).length
              ≤ [sampleTxProof [11]].length) :=
  ⟨rfl, sync_sends_prechecked_only sampleSyncConf (sampleOrderEnv false)
    [{ To := some [1], Input := [1], TxHash := [11] }] 10 [sampleTxProof [11]] rfl⟩

/-- C13: when `syncer.processBlock` is called on a block with header and body whose
height is not above the provable height, and every transaction it looks at has a
fetched proof that, if the receipt is successful, verifies and whose transfer-out log,
if there is one, unpacks to an order id already held by the target's order list, then
no proof is collected, the handler does not fetch the sending lease and sends no
transaction, returns neither a fatal error nor a warning, and `looper.processBlocks`
on a batch holding that block writes the block's height plus one to the cursor. -/
theorem present_orders_skip (lib : Lib) (conf : SyncConf) (env : SyncEnv)
    (block : BlockEMessage) (header : BlockHeader) (body : BlockBody) (maxMain maxSub : Nat)
    (hmax : env.maxProvableHeights = .ok (maxMain, maxSub))
    (hwf : wellFormed (some block) = some (block, header, body))
    (hin : ¬ lib.HeightCompare header.Height maxSub > 0)
    (hall : syncer.allOrdersPresent conf env maxMain body.Txs) :
    (syncer.txLoop conf env maxMain body.Txs []).2 = .ok []
      ∧ (syncer.processBlock lib conf env block).fatal = none
      ∧ (syncer.processBlock lib conf env block).warning = none
      ∧ Effect.sendingFetch ∉ (syncer.processBlock lib conf env block).effects
      ∧ txSends (syncer.processBlock lib conf env block).effects = []
      ∧ ∀ (ienv : IterEnv) (current : Nat), ienv.ctxDoneAt 0 = false →
          ienv.processBlock 0 block = syncer.processBlock lib conf env block →
          looper.processBlocks lib ienv (some { Blocks := [some block], Current := current })
            = (Event.processBlock 0 block
                :: (syncer.processBlock lib conf env block).effects.map Event.effect
                ++ [Event.cursorSet ((header.Height + 1) % 2 ^ 64)],
               (header.Height + 1) % 2 ^ 64, none) := by
  have htx := txLoop_all_present conf env maxMain body.Txs [] hall
  have heff := txLoop_effects conf env maxMain body.Txs []
  have hpb : syncer.processBlock lib conf env block
      = { effects := Effect.provableHeights :: (syncer.txLoop conf env maxMain body.Txs []).1,
          fatal := none, warning := none } := by
    unfold syncer.processBlock
    simp only [hmax, hwf, hin, if_false]
    cases hloop : syncer.txLoop conf env maxMain body.Txs [] with
    | mk effs r =>
      rw [hloop] at htx
      simp only at htx
      subst htx
      simp [_mcsProofs]
  have hno : ∀ e ∈ (syncer.txLoop conf env maxMain body.Txs []).1,
      e ≠ Effect.sendingFetch ∧ ∀ n, e ≠ Effect.txSend n := by
    intro e he
    rcases heff e he with rfl | ⟨h, rfl⟩ | ⟨o, rfl⟩ <;> simp
  have hsends : ∀ (effs : List Effect), (∀ e ∈ effs, ∀ n, e ≠ Effect.txSend n) →
      txSends effs = [] := by
    intro effs
    induction effs with
    | nil => intro _; rfl
    | cons e rest ih =>
      intro hh
      have h1 := hh e (List.mem_cons_self _ _)
      have h2 := ih (fun x hx => hh x (List.mem_cons_of_mem _ hx))
      cases e <;> simp_all [txSends]
  refine ⟨htx, by rw [hpb], by rw [hpb], ?_, ?_, ?_⟩
  · rw [hpb]
    intro hmem
    rcases List.mem_cons.1 hmem with h | h
    · cases h
    · exact (hno _ h).1 rfl
  · rw [hpb]
    exact hsends _ (by
      intro e he n
      rcases List.mem_cons.1 he with h | h
      · subst h; simp
      · exact (hno e h).2 n)
  · intro ienv current hctx hproc
    have hh : block.BlockHeader = some header := by
      unfold wellFormed at hwf
      cases hb : block.BlockHeader with
      | none => simp [hb] at hwf
      | some h0 =>
        cases hbody : block.BlockBody with
        | none => simp [hb, hbody] at hwf
        | some b0 =>
          simp only [hb, hbody, Option.some.injEq, Prod.mk.injEq] at hwf
          rw [hwf.2.1]
    have hfat : (syncer.processBlock lib conf env block).fatal = none := by rw [hpb]
    simp only [looper.processBlocks, looper.prepareBlocks, looper.processBlocksLoop, hctx,
      hwf, BlockEMessage.GetHeight, hh, hproc, Bool.false_eq_true, if_false]
    simp [hfat]

theorem present_orders_skip_witness :
    (syncer.txLoop sampleSyncConf (sampleOrderEnv true) 10
        (List.map (fun h => ({ To := some [1], Input := [1], TxHash := h } : Transaction))
          [[11]]) []).2 = .ok []
      ∧ (syncer.processBlock sampleLib sampleSyncConf (sampleOrderEnv true)
          (sampleTxBlock 10 [[11]])).effects
        = [Effect.provableHeights, Effect.runningRefresh, Effect.proofFetch [11],
           Effect.orderCheck [9]] :=
  ⟨(present_orders_skip sampleLib sampleSyncConf (sampleOrderEnv true)
      (sampleTxBlock 10 [[11]])
      { ChainID := 1, Height := 10, ElectedNextRoot := none }
      { NextCommittee := none, NextRealCommittee := none,
        Txs := [{ To := some [1], Input := [1], TxHash := [11] }] }
      10 10 rfl rfl (by decide)
      ⟨fun _ => ⟨sampleTxProof [11], rfl, fun _ => ⟨rfl, _, rfl, fun i rlog hl =>
        ⟨{ OrderId := [9], ToChain := some 1 }, rfl, rfl⟩⟩⟩, trivial⟩).1,
   by decide⟩


/-- C18 at a receipt of version 2 whose second log is the first to match address
`[1]` and topic `[2]`: the emitted log has that log's address, topics and data and
the emitted receipt has no logs; with topic `[3]`, which no log has, an error. -/
theorem receiptProof_checks_witness :
    T2LN.ReceiptProof sampleLib (some (sampleTxProof [11])) [1] [2]
        = .ok (some
            { Receipt := T2LN.Receipt { Status := 1, Logs := [], TxHash := [11], Version := 2 },
              Log := { Address := [1], Topics := [[2]], Data := [7] },
              LogProof := T2LN.MerkleProofs [([1], true)],
              Proofs := T2LN.MerkleProofs [([3], true)],
              Header := T2LN.Header { ChainID := 1, Height := 10, ElectedNextRoot := none },
              Signatures := T2LN.PaSs [] })
      ∧ ((T2LN.Receipt { Status := 1, Logs := [], TxHash := [11], Version := 2 }).Logs = []
        ∧ ∃ (i : Nat) (l : Log),
            [{ Address := [5], Topics := [], Data := [] }, sampleTransferLog][i]? = some l
            ∧ logMatches [1] [2] l
            ∧ (∀ (j : Nat) (l2 : Log), j < i →
                [{ Address := [5], Topics := [], Data := [] }, sampleTransferLog][j]? = some l2 →
                ¬ logMatches [1] [2] l2)
            ∧ ({ Address := [1], Topics := [[2]], Data := [7] } : TKMLog)
                = T2LN.ReceiptLog (some l)
            ∧ [1] = l.Address ∧ [[2]] = l.Topics ∧ [7] = l.Data
            ∧ ([1] : Bytes) = [1] ∧ ([[2]] : List CommonHash).head? = some [2])
      ∧ ∃ e, T2LN.ReceiptProof sampleLib (some (sampleTxProof [11])) [1] [3] = .error e :=
  ⟨rfl,
    (receiptProof_checks sampleLib (sampleTxProof [11]) [1] [2]).2.2.1
      { Status := 1, Logs := [{ Address := [5], Topics := [], Data := [] }, sampleTransferLog],
        TxHash := [11], Version := 2 }
      { Receipt := T2LN.Receipt { Status := 1, Logs := [], TxHash := [11], Version := 2 },
        Log := { Address := [1], Topics := [[2]], Data := [7] },
        LogProof := T2LN.MerkleProofs [([1], true)],
        Proofs := T2LN.MerkleProofs [([3], true)],
        Header := T2LN.Header { ChainID := 1, Height := 10, ElectedNextRoot := none },
        Signatures := T2LN.PaSs [] } rfl (by decide) rfl,
    ((receiptProof_checks sampleLib (sampleTxProof [11]) [1] [3]).2.1
      { Status := 1, Logs := [{ Address := [5], Topics := [], Data := [] }, sampleTransferLog],
        TxHash := [11], Version := 2 } rfl (by decide)
      (by intro l hl; simp [sampleTransferLog] at hl; rcases hl with rfl | rfl <;>
        simp [logMatches])).1⟩

/-! ### C19: the key xmaintain reads and the key xsync writes -/

/-- C19, as the code has it: for the target name flag `eth` and source chain 1 the
key `xmaintainer.syncStartHeightKey` is `xsync_ETH_start_1`, while the cursor key of
the xsync process started with the same flag and chain id is `xsync_eth_start_1`:
both take the upper-cased target name, and only the xsync key is lower-cased as a
whole. For a target name without letters, such as `56`, the two keys are equal. -/
theorem xsync_key_mismatch :
    xmaintainer.syncStartHeightKey sampleLib "eth" 1 = "xsync_ETH_start_1"
      ∧ xsyncer.startHeightKey sampleLib "eth" 1 = "xsync_eth_start_1"
      ∧ xmaintainer.syncStartHeightKey sampleLib "eth" 1
          ≠ xsyncer.startHeightKey sampleLib "eth" 1
      ∧ xmaintainer.syncStartHeightKey sampleLib "56" 1
          = xsyncer.startHeightKey sampleLib "56" 1 := by
  decide

/-! ### C20: the checks of the configuration sub-structs -/

theorem chainIdInvalid_false (id : Option Int) :
    chainIdInvalid id = false ↔ ∃ v, id = some v ∧ 0 ≤ v := by
  cases id with
  | none => simp [chainIdInvalid]
  | some v => simp [chainIdInvalid]

theorem synchronize_validate_ok (lib : Lib) (s : Synchronize) :
    Synchronize.validate lib s = none
      ↔ (∃ v, s.TkmChainId = some v ∧ 0 ≤ v) ∧ s.TkmMCSAddress ≠ lib.EmptyAddress
          ∧ s.TargetMSCAddr ≠ lib.EmptyAddress := by
  rw [← chainIdInvalid_false]
  unfold Synchronize.validate
  cases chainIdInvalid s.TkmChainId <;> simp
  split_ifs <;> simp_all

theorem xsynchronize_validate_ok (lib : Lib) (s : XSynchronize) :
    XSynchronize.validate lib s = none
      ↔ (∃ v, s.XChainId = some v ∧ 0 ≤ v) ∧ s.XMCSAddress ≠ lib.EmptyAddress
          ∧ s.TargetMSCAddr ≠ lib.EmptyAddress := by
  rw [← chainIdInvalid_false]
  unfold XSynchronize.validate
  cases chainIdInvalid s.XChainId <;> simp
  split_ifs <;> simp_all

/-- C20, as the code has it: `Synchronize.validate` and `XSynchronize.validate`
return nil for a configuration whose chain id and two MCS addresses are set and whose
target light-client address is the empty address; they succeed exactly when the chain
id is present and not negative and the two MCS addresses are not empty, whatever the
light-client address. `Maintain.validate` and `Update.validate` fail exactly when the
target light-client address is the empty address. -/
theorem sync_validate_skips_light_client :
    sampleSynchronize.TargetLCAddr = sampleLib.EmptyAddress
      ∧ Synchronize.validate sampleLib sampleSynchronize = none
      ∧ sampleXSynchronize.TargetLCAddr = sampleLib.EmptyAddress
      ∧ XSynchronize.validate sampleLib sampleXSynchronize = none
      ∧ (∀ (lib : Lib) (s : Synchronize) (lc : Bytes),
          Synchronize.validate lib { s with TargetLCAddr := lc } = Synchronize.validate lib s)
      ∧ (∀ (lib : Lib) (s : XSynchronize) (lc : Bytes),
          XSynchronize.validate lib { s with TargetLCAddr := lc }
            = XSynchronize.validate lib s)
      ∧ (∀ (lib : Lib) (m : Maintain),
          (Maintain.validate lib m).isSome = true ↔ m.TargetLCAddr = lib.EmptyAddress)
      ∧ (∀ (lib : Lib) (u : Update),
          (Update.validate lib u).isSome = true ↔ u.TargetLCAddr = lib.EmptyAddress) := by
  refine ⟨by decide, by decide, by decide, by decide, fun _ _ _ => rfl, fun _ _ _ => rfl, ?_, ?_⟩
  · intro lib m
    unfold Maintain.validate
    split_ifs <;> simp_all
  · intro lib u
    unfold Update.validate
    split_ifs <;> simp_all

/-! ### C29: committee comparison -/

theorem addrMapOf_spec : ∀ (addrs m : List Bytes), m.Nodup →
    (addrMapOf addrs m).Nodup ∧ ∀ x, x ∈ addrMapOf addrs m ↔ x ∈ m ∨ x ∈ addrs := by
  intro addrs
  induction addrs with
  | nil => intro m hm; simp [addrMapOf, hm]
  | cons a rest ih =>
    intro m hm
    unfold addrMapOf
    simp only [List.foldl_cons]
    by_cases ha : a ∈ m
    · simp only [ha, if_true]
      obtain ⟨h1, h2⟩ := ih m hm
      refine ⟨h1, fun x => ?_⟩
      rw [show List.foldl (fun keys a => if a ∈ keys then keys else keys ++ [a]) m rest
        = addrMapOf rest m from rfl, h2 x]
      constructor
      · rintro (h | h)
        · exact Or.inl h
        · exact Or.inr (List.mem_cons_of_mem _ h)
      · rintro (h | h)
        · exact Or.inl h
        · rcases List.mem_cons.1 h with rfl | h
          · exact Or.inl ha
          · exact Or.inr h
    · simp only [ha, if_false]
      have hm2 : (m ++ [a]).Nodup := by
        rw [List.nodup_append]
        refine ⟨hm, List.nodup_singleton a, ?_⟩
        intro x hx hx2
        rw [List.mem_singleton] at hx2
        subst hx2
        exact ha hx
      obtain ⟨h1, h2⟩ := ih (m ++ [a]) hm2
      refine ⟨h1, fun x => ?_⟩
      rw [show List.foldl (fun keys a => if a ∈ keys then keys else keys ++ [a]) (m ++ [a]) rest
        = addrMapOf rest (m ++ [a]) from rfl, h2 x]
      simp only [List.mem_append, List.mem_singleton, List.mem_cons]
      tauto

theorem filter_ne_perm {α : Type} [DecidableEq α] (d : α) (D K : List α) (hK : K.Nodup)
    (hd : d ∈ K) : D.Perm (K.filter (fun a => decide (a ≠ d))) ↔ (d :: D).Perm K := by
  rw [List.cons_perm_iff_perm_erase, hK.erase_eq_filter]
  have hf : K.filter (fun a => decide (a ≠ d)) = K.filter (fun x => x != d) := by
    apply List.filter_congr
    intro x _
    by_cases hx : x = d <;> simp [hx]
  rw [hf]
  simp [hd]

theorem committeeEqualsLoop_perm (lib : Lib) : ∀ (D K : List Bytes), K.Nodup →
    (committeeEqualsLoop lib D K = true ↔ (D.map lib.NodeAddress).Perm K) := by
  intro D
  induction D with
  | nil =>
    intro K _
    cases K <;> simp [committeeEqualsLoop]
  | cons d D ih =>
    intro K hK
    simp only [committeeEqualsLoop, List.map_cons]
    by_cases h : lib.NodeAddress d ∈ K
    · simp only [h, if_true]
      rw [ih _ (hK.filter _), filter_ne_perm _ _ _ hK h]
    · simp only [h, if_false, Bool.false_eq_true, false_iff]
      intro hp
      exact h (hp.subset (List.mem_cons_self _ _))

theorem perm_addrMap_iff (D addrs : List Bytes) (hlen : D.length = addrs.length) :
    D.Perm (addrMapOf addrs []) ↔ D.Perm addrs ∧ addrs.Nodup := by
  obtain ⟨hnd, hmem⟩ := addrMapOf_spec addrs [] List.nodup_nil
  constructor
  · intro hp
    have hsub : addrMapOf addrs [] ⊆ addrs := by
      intro x hx
      rcases (hmem x).1 hx with h | h
      · cases h
      · exact h
    have hsp := List.subperm_of_subset hnd hsub
    have hperm : (addrMapOf addrs []).Perm addrs :=
      hsp.perm_of_length_le (by rw [← hp.length_eq, hlen])
    exact ⟨hp.trans hperm, hperm.nodup_iff.1 hnd⟩
  · rintro ⟨hp, hn⟩
    have hperm : (addrMapOf addrs []).Perm addrs :=
      (List.perm_ext_iff_of_nodup hnd hn).2 (fun x => by simp [hmem x])
    exact hp.trans hperm.symm

/-- C29: for a committee whose `Size()` is its number of members (and 0 for a nil
committee), `committeeEquals(comm, addrs)` returns true exactly when the addresses
derived from the members, in member order, are a permutation of `addrs` and `addrs`
has no repeated address; so it returns false when the sizes differ and when either
side repeats an address, and true for two empty lists. A nil committee equals the
empty list only. -/
theorem committeeEquals_iff_perm (lib : Lib) (c : Committee) (addrs : List Bytes)
    (hsize : lib.CommSize (some c) = c.Members.length) (hnil : lib.CommSize none = 0) :
    (committeeEquals lib (some c) addrs = some true
        ∨ committeeEquals lib (some c) addrs = some false)
      ∧ (committeeEquals lib (some c) addrs = some true
          ↔ (c.Members.map lib.NodeAddress).Perm addrs ∧ addrs.Nodup)
      ∧ (c.Members.length ≠ addrs.length → committeeEquals lib (some c) addrs = some false)
      ∧ (¬ addrs.Nodup → committeeEquals lib (some c) addrs = some false)
      ∧ (¬ (c.Members.map lib.NodeAddress).Nodup →
          committeeEquals lib (some c) addrs = some false)
      ∧ (c.Members = [] → committeeEquals lib (some c) [] = some true)
      ∧ (committeeEquals lib none addrs = some (decide (addrs = []))) := by
  have hiff : committeeEquals lib (some c) addrs = some true
      ↔ (c.Members.map lib.NodeAddress).Perm addrs ∧ addrs.Nodup := by
    unfold committeeEquals
    rw [hsize]
    by_cases h0 : c.Members.length = 0 ∧ addrs.length = 0
    · simp only [h0, and_self, if_true, true_iff]
      have h1 : c.Members = [] := List.length_eq_zero.1 h0.1
      have h2 : addrs = [] := List.length_eq_zero.1 h0.2
      simp [h1, h2]
    · simp only [h0, if_false]
      by_cases hl : c.Members.length ≠ addrs.length
      · simp only [hl, if_true, ne_eq, not_false_eq_true]
        constructor
        · intro h; cases h
        · rintro ⟨hp, _⟩
          exact absurd (by simpa using hp.length_eq) hl
      · have hl2 : c.Members.length = addrs.length := not_not.1 hl
        simp only [hl, if_false, Option.some.injEq]
        rw [committeeEqualsLoop_perm lib _ _ (addrMapOf_spec addrs [] List.nodup_nil).1,
          perm_addrMap_iff _ _ (by simpa using hl2)]
  have hbool : committeeEquals lib (some c) addrs = some true
      ∨ committeeEquals lib (some c) addrs = some false := by
    unfold committeeEquals
    split_ifs
    · exact Or.inl rfl
    · exact Or.inr rfl
    · cases committeeEqualsLoop lib c.Members (addrMapOf addrs []) <;> simp
  have hfalse : ∀ {P : Prop}, ((c.Members.map lib.NodeAddress).Perm addrs ∧ addrs.Nodup → P → False)
      → P → committeeEquals lib (some c) addrs = some false := by
    intro P hP hp
    rcases hbool with h | h
    · exact absurd hp (fun hp2 => hP (hiff.1 h) hp2)
    · exact h
  refine ⟨hbool, hiff, ?_, ?_, ?_, ?_, ?_⟩
  · exact hfalse (fun h hne => hne (by simpa using h.1.length_eq))
  · exact hfalse (fun h hne => hne h.2)
  · exact hfalse (fun h hne => hne (h.1.nodup_iff.2 h.2))
  · intro hm
    unfold committeeEquals
    simp [hsize, hm]
  · unfold committeeEquals
    rw [hnil]
    cases addrs with
    | nil => simp
    | cons a rest => simp

/-- C29 at three members against a reordering, against a list with a repeated
address, and against a longer list. -/
theorem committeeEquals_iff_perm_witness :
    committeeEquals sampleLib (some { Members := [[1], [2], [3]] }) [[3], [1], [2]] = some true
      ∧ committeeEquals sampleLib (some { Members := [[1], [2], [2]] }) [[1], [2], [2]]
          = some false
      ∧ committeeEquals sampleLib (some { Members := [[1], [2]] }) [[1], [2], [3]] = some false
      ∧ (committeeEquals sampleLib (some { Members := [[1], [2], [3]] }) [[3], [1], [2]]
            = some true
          ↔ (List.map sampleLib.NodeAddress [[1], [2], [3]]).Perm [[3], [1], [2]]
              ∧ [[3], [1], [2]].Nodup) :=
  ⟨by decide, by decide, by decide,
    (committeeEquals_iff_perm sampleLib { Members := [[1], [2], [3]] } [[3], [1], [2]]
      rfl rfl).2.1⟩

/-! ### C21, C22, C30: the updater's clock arithmetic -/

theorem canonicalTime_eq (conf : UpdaterConf) (clock : Int)
    (hnow : 0 ≤ clock) (hnow63 : clock < 2 ^ 63)
    (h1 : 1 < conf.Interval) (h63 : (conf.Interval : Int) < 2 ^ 63) :
    updater._canonicalTime conf clock = clock - clock % (conf.Interval : Int) := by
  have hi : int64OfUint64 conf.Interval = (conf.Interval : Int) :=
    wrapInt64_of_range _ (by omega) h63
  have hpos : (1 : Int) < (conf.Interval : Int) := by exact_mod_cast h1
  have hmod : Int.tmod clock (conf.Interval : Int) = clock % (conf.Interval : Int) :=
    Int.tmod_eq_emod hnow (by omega)
  have hm0 : 0 ≤ clock % (conf.Interval : Int) := Int.emod_nonneg _ (by omega)
  have hm1 : clock % (conf.Interval : Int) ≤ clock := by
    have hd : 0 ≤ clock / (conf.Interval : Int) := Int.ediv_nonneg hnow (by omega)
    have hmul := mul_nonneg (by omega : (0 : Int) ≤ (conf.Interval : Int)) hd
    have e := Int.ediv_add_emod clock (conf.Interval : Int)
    omega
  unfold updater._canonicalTime
  simp only [hi, hmod]
  rw [if_neg (by omega)]
  exact wrapInt64_of_range _ (by omega) (by omega)

theorem canonicalTime_small (conf : UpdaterConf) (clock : Int) (h1 : conf.Interval ≤ 1) :
    updater._canonicalTime conf clock = clock := by
  have hi : int64OfUint64 conf.Interval = (conf.Interval : Int) :=
    wrapInt64_of_range _ (by omega) (by omega)
  have hle : (conf.Interval : Int) ≤ 1 := by exact_mod_cast h1
  unfold updater._canonicalTime
  simp only [hi]
  rw [if_pos hle]

theorem forceUpdate_cases (lib : Lib) (env : ForceEnv) (epoch : Nat) (comm : Option Committee) :
    updater._forceUpdate lib env epoch comm = ([], some (.plain "not available"))
      ∨ (∃ pre, updater._forceUpdate lib env epoch comm
            = (pre ++ (updater.pushAndFinish env epoch).1, (updater.pushAndFinish env epoch).2)
          ∧ cacheSets pre = [])
      ∨ (∃ pre, updater._forceUpdate lib env epoch comm
            = (pre ++ (updater.finishUpdate env).1, (updater.finishUpdate env).2)
          ∧ cacheSets pre = []) := by
  unfold updater._forceUpdate
  split_ifs
  · exact Or.inl rfl
  · cases env.lastEpochInLC with
    | error e => exact Or.inr (Or.inl ⟨[UCall.lastEpochInLC], rfl, rfl⟩)
    | ok lastEpoch =>
      simp only
      split_ifs
      · exact Or.inr (Or.inl ⟨[UCall.lastEpochInLC], rfl, rfl⟩)
      · cases env.lastCommitteeInLC with
        | error e =>
          exact Or.inr (Or.inl ⟨[UCall.lastEpochInLC, UCall.lastCommitteeInLC], rfl, rfl⟩)
        | ok lastComm =>
          simp only
          split_ifs
          · exact Or.inr (Or.inr ⟨[UCall.lastEpochInLC, UCall.lastCommitteeInLC], rfl, rfl⟩)
          · exact Or.inr (Or.inl ⟨[UCall.lastEpochInLC, UCall.lastCommitteeInLC], rfl, rfl⟩)
      · exact Or.inr (Or.inl ⟨[UCall.lastEpochInLC], rfl, rfl⟩)

theorem cacheSets_append (xs ys : List UCall) :
    cacheSets (xs ++ ys) = cacheSets xs ++ cacheSets ys := by
  induction xs with
  | nil => rfl
  | cons e xs ih => cases e <;> simp [cacheSets, ih]

theorem finishUpdate_done (env : ForceEnv) (h : (updater.finishUpdate env).2 = none) :
    cacheSets (updater.finishUpdate env).1 = [wrapInt64 (env.clock + 10)] := by
  unfold updater.finishUpdate updater._updateLastUpdateTimeInCache
    updater._updateToLastUpdateTimeInCache at *
  cases hs : env.cacheSet with
  | some e => simp [hs] at h
  | none => simp [cacheSets]

theorem pushAndFinish_done (env : ForceEnv) (epoch : Nat)
    (h : (updater.pushAndFinish env epoch).2 = none) :
    cacheSets (updater.pushAndFinish env epoch).1 = [wrapInt64 (env.clock + 10)] := by
  unfold updater.pushAndFinish at *
  cases hu : env.updateCommittee with
  | some e => simp [hu] at h
  | none =>
    simp only [hu] at h ⊢
    simpa [cacheSets] using finishUpdate_done env h

theorem forceUpdate_done (lib : Lib) (env : ForceEnv) (epoch : Nat) (comm : Option Committee)
    (h : (updater._forceUpdate lib env epoch comm).2 = none) :
    cacheSets (updater._forceUpdate lib env epoch comm).1 = [wrapInt64 (env.clock + 10)] := by
  rcases forceUpdate_cases lib env epoch comm with h1 | ⟨pre, h1, hp⟩ | ⟨pre, h1, hp⟩
  · rw [h1] at h; cases h
  · rw [h1] at h ⊢
    simp only [cacheSets_append, hp, List.nil_append]
    exact pushAndFinish_done env epoch h
  · rw [h1] at h ⊢
    simp only [cacheSets_append, hp, List.nil_append]
    exact finishUpdate_done env h

/-- C21: for a clock value `now` with `0 <= now < 2^63` and an interval below `2^63`
(larger ones are refused by `prepareConfig`), `_canonicalTime` returns
`now - now mod interval` when the interval is above 1, a multiple of the interval
with `0 <= now - canonical < interval`, and `now` itself when the interval is at
most 1. An absent last-update key reads as 0, and when the key is read `_once` asks
the source for the current committee, the first step of a push, exactly when the
canonical time is above the value read. -/
theorem canonical_time_and_push (lib : Lib) (conf : UpdaterConf) (env : OnceEnv)
    (hnow : 0 ≤ env.clock) (hnow63 : env.clock < 2 ^ 63)
    (h63 : (conf.Interval : Int) < 2 ^ 63) :
    (1 < conf.Interval →
        updater._canonicalTime conf env.clock = env.clock - env.clock % (conf.Interval : Int)
          ∧ (conf.Interval : Int) ∣ updater._canonicalTime conf env.clock
          ∧ 0 ≤ env.clock - updater._canonicalTime conf env.clock
          ∧ env.clock - updater._canonicalTime conf env.clock < (conf.Interval : Int))
      ∧ (conf.Interval ≤ 1 → updater._canonicalTime conf env.clock = env.clock)
      ∧ updater._lastUpdateTimeInCache CacheReply.absent = (0, none)
      ∧ (∀ lastTime, updater._lastUpdateTimeInCache env.cacheGet = (lastTime, none) →
          (UCall.chainStats ∈ (updater._once lib conf env).1
            ↔ updater._canonicalTime conf env.clock > lastTime)) := by
  refine ⟨?_, canonicalTime_small conf env.clock, rfl, ?_⟩
  · intro h1
    have hc := canonicalTime_eq conf env.clock hnow hnow63 h1 h63
    have hpos : (0 : Int) < (conf.Interval : Int) := by
      have : (1 : Int) < (conf.Interval : Int) := by exact_mod_cast h1
      omega
    have hm0 : 0 ≤ env.clock % (conf.Interval : Int) := Int.emod_nonneg _ (by omega)
    have hm1 : env.clock % (conf.Interval : Int) < (conf.Interval : Int) :=
      Int.emod_lt_of_pos _ hpos
    refine ⟨hc, ?_, ?_, ?_⟩
    · rw [hc]
      exact Int.dvd_sub_of_emod_eq rfl
    · rw [hc]; omega
    · rw [hc]; omega
  · intro lastTime hget
    unfold updater._once
    simp only [hget]
    by_cases hgt : updater._canonicalTime conf env.clock > lastTime
    · simp only [hgt, if_true, iff_true]
      cases env.currentCommittee with
      | error e => simp
      | ok ec =>
        obtain ⟨epoch, comm⟩ := ec
        simp
    · simp only [hgt, if_false, iff_false]
      simp

/-- C21 with an interval of 3600 s at clock time 10000: the canonical time is 7200;
with the key absent `_once` pushes, with 7200 stored it makes the read only. -/
theorem canonical_time_and_push_witness :
    (1 < (3600 : Nat) →
        updater._canonicalTime { Interval := 3600, ForceEpoch := 0 } 10000 = 10000 - 10000 % 3600
          ∧ ((3600 : Nat) : Int) ∣ updater._canonicalTime { Interval := 3600, ForceEpoch := 0 } 10000
          ∧ 0 ≤ 10000 - updater._canonicalTime { Interval := 3600, ForceEpoch := 0 } 10000
          ∧ 10000 - updater._canonicalTime { Interval := 3600, ForceEpoch := 0 } 10000
              < ((3600 : Nat) : Int))
      ∧ updater._canonicalTime { Interval := 3600, ForceEpoch := 0 } 10000 = 7200
      ∧ (updater._once sampleLib { Interval := 3600, ForceEpoch := 0 }
            (sampleOnceEnv CacheReply.absent 10000)).1
          = [UCall.cacheGet, UCall.chainStats, UCall.lastEpochInLC, UCall.updateCommittee 5,
             UCall.cacheSet 10010]
      ∧ updater._once sampleLib { Interval := 3600, ForceEpoch := 0 }
            (sampleOnceEnv (CacheReply.value 7200) 10000)
          = ([UCall.cacheGet], none) :=
  ⟨(canonical_time_and_push sampleLib { Interval := 3600, ForceEpoch := 0 }
      (sampleOnceEnv CacheReply.absent 10000) (by decide) (by decide) (by decide)).1,
    by decide, by decide, by decide⟩

/-- C22: with a postpone value N above 0 and the last-update key read as T (0 for an
absent key), `updater.doWork` exits with the input-error code without a write when
`N >= MaxInt64` or `T + N > MaxInt64`, the only call made being at most the read;
otherwise its calls are the read and one write of `T + N`, which fits `int64`, and it
returns nil or, when the store refuses the write, exits with the store-error code.
No lease, no source and no target call is made. -/
theorem postpone_adds_to_timestamp (lib : Lib) (conf : UpdaterConf) (env : DoWorkEnv) (T : Int)
    (hN : 0 < env.postpone) (hN64 : env.postpone < 2 ^ 64)
    (hT1 : -(2 ^ 63) ≤ T) (hT2 : T < 2 ^ 63)
    (hget : updater._lastUpdateTimeInCache env.cacheGet = (T, none)) :
    (((env.postpone : Int) ≥ MaxInt64 ∨ T + (env.postpone : Int) > MaxInt64) →
        (∃ e, (updater.doWork lib conf env).2 = some (some (.exit ExitByInput e)))
          ∧ ((updater.doWork lib conf env).1 = []
              ∨ (updater.doWork lib conf env).1 = [UCall.cacheGet]))
      ∧ (¬ ((env.postpone : Int) ≥ MaxInt64 ∨ T + (env.postpone : Int) > MaxInt64) →
        (updater.doWork lib conf env).1
            = [UCall.cacheGet, UCall.cacheSet (T + (env.postpone : Int))]
          ∧ -(2 ^ 63) ≤ T + (env.postpone : Int) ∧ T + (env.postpone : Int) < 2 ^ 63
          ∧ ((updater.doWork lib conf env).2 = some none
              ∨ ∃ e, (updater.doWork lib conf env).2 = some (some (.exit ExitRedisErr e))))
      ∧ (∀ c ∈ (updater.doWork lib conf env).1, c = UCall.cacheGet ∨ ∃ v, c = UCall.cacheSet v) := by
  have hcases : ((env.postpone : Int) ≥ MaxInt64 ∨ T + (env.postpone : Int) > MaxInt64) →
      (∃ e, (updater.doWork lib conf env).2 = some (some (.exit ExitByInput e)))
        ∧ ((updater.doWork lib conf env).1 = []
            ∨ (updater.doWork lib conf env).1 = [UCall.cacheGet]) := by
    intro hbig
    unfold updater.doWork
    simp only [hN, if_true, gt_iff_lt]
    by_cases h1 : (env.postpone : Int) ≥ MaxInt64
    · simp only [h1, if_true]
      exact ⟨⟨_, rfl⟩, Or.inl trivial⟩
    · simp only [h1, if_false, hget]
      have h2 : T + (env.postpone : Int) > MaxInt64 := by
        rcases hbig with h | h
        · exact absurd h h1
        · exact h
      have hu : uint64OfInt64 (wrapInt64 (MaxInt64 - T)) < env.postpone := by
        unfold uint64OfInt64 wrapInt64 MaxInt64 at *
        omega
      simp only [hu, if_true]
      exact ⟨⟨_, rfl⟩, Or.inr trivial⟩
  have hok : ¬ ((env.postpone : Int) ≥ MaxInt64 ∨ T + (env.postpone : Int) > MaxInt64) →
      (updater.doWork lib conf env).1
          = [UCall.cacheGet, UCall.cacheSet (T + (env.postpone : Int))]
        ∧ -(2 ^ 63) ≤ T + (env.postpone : Int) ∧ T + (env.postpone : Int) < 2 ^ 63
        ∧ ((updater.doWork lib conf env).2 = some none
            ∨ ∃ e, (updater.doWork lib conf env).2 = some (some (.exit ExitRedisErr e))) := by
    intro hsmall
    have h1 : ¬ (env.postpone : Int) ≥ MaxInt64 := fun h => hsmall (Or.inl h)
    have h2 : ¬ T + (env.postpone : Int) > MaxInt64 := fun h => hsmall (Or.inr h)
    have hu : ¬ uint64OfInt64 (wrapInt64 (MaxInt64 - T)) < env.postpone := by
      unfold uint64OfInt64 wrapInt64 MaxInt64 at *
      omega
    have hv : wrapInt64 (T + int64OfUint64 env.postpone) = T + (env.postpone : Int) := by
      unfold int64OfUint64 wrapInt64 MaxInt64 at *
      omega
    have hr1 : -(2 ^ 63) ≤ T + (env.postpone : Int) := by omega
    have hr2 : T + (env.postpone : Int) < 2 ^ 63 := by
      unfold MaxInt64 at h2
      omega
    unfold updater.doWork
    simp only [hN, if_true, gt_iff_lt, h1, if_false, hget, hu, hv,
      updater._updateToLastUpdateTimeInCache]
    cases env.cacheSet with
    | some e => exact ⟨rfl, hr1, hr2, Or.inr ⟨_, rfl⟩⟩
    | none => exact ⟨rfl, hr1, hr2, Or.inl rfl⟩
  refine ⟨hcases, hok, ?_⟩
  intro c hc
  by_cases hbig : (env.postpone : Int) ≥ MaxInt64 ∨ T + (env.postpone : Int) > MaxInt64
  · rcases (hcases hbig).2 with h | h
    · rw [h] at hc; cases hc
    · rw [h] at hc
      simp only [List.mem_singleton] at hc
      exact Or.inl hc
  · rw [(hok hbig).1] at hc
    simp only [List.mem_cons, List.mem_singleton, List.not_mem_nil, or_false] at hc
    rcases hc with h | h
    · exact Or.inl h
    · exact Or.inr ⟨_, h⟩

/-- C22 with postpone 600: from 7200 the key is set to 7800; from `2^63 - 100` the
call exits with the input-error code and writes nothing. -/
theorem postpone_adds_to_timestamp_witness :
    updater.doWork sampleLib { Interval := 3600, ForceEpoch := 0 }
        (sampleDoWorkEnv 600 (CacheReply.value 7200))
      = ([UCall.cacheGet, UCall.cacheSet 7800], some none)
    ∧ (updater.doWork sampleLib { Interval := 3600, ForceEpoch := 0 }
        (sampleDoWorkEnv 600 (CacheReply.value 7200))).1
      = [UCall.cacheGet, UCall.cacheSet (7200 + ((600 : Nat) : Int))]
    ∧ updater.doWork sampleLib { Interval := 3600, ForceEpoch := 0 }
        (sampleDoWorkEnv 600 (CacheReply.value (2 ^ 63 - 100)))
      = ([UCall.cacheGet], some (some (.exit ExitByInput (.plain "unix time overflow")))) :=
  ⟨by decide,
    ((postpone_adds_to_timestamp sampleLib { Interval := 3600, ForceEpoch := 0 }
      (sampleDoWorkEnv 600 (CacheReply.value 7200)) 7200 (by decide) (by decide) (by decide)
      (by decide) rfl).2.1 (by decide)).1,
    by decide⟩

/-- C30: in periodic mode with an interval above 1 and below `2^63`, a `_forceUpdate`
that returns nil at clock time `t0` (`0 <= t0`, `t0 + 10 < 2^63`) writes `t0 + 10` to
the last-update key, once; and a later `_once` at clock time `t >= t0` of the same
interval window that reads that value makes no call but the read: no committee push
and no write. -/
theorem same_window_no_push (lib : Lib) (conf : UpdaterConf) (fenv : ForceEnv) (env : OnceEnv)
    (epoch : Nat) (comm : Option Committee) (t0 t : Int)
    (h1 : 1 < conf.Interval) (h63 : (conf.Interval : Int) < 2 ^ 63)
    (ht0 : 0 ≤ t0) (hov : t0 + 10 < 2 ^ 63) (ht : t0 ≤ t) (ht63 : t < 2 ^ 63)
    (hwin : t / (conf.Interval : Int) = t0 / (conf.Interval : Int))
    (hclock0 : fenv.clock = t0)
    (hdone : (updater._forceUpdate lib fenv epoch comm).2 = none)
    (hclock : env.clock = t) (hget : env.cacheGet = CacheReply.value (t0 + 10)) :
    cacheSets (updater._forceUpdate lib fenv epoch comm).1 = [t0 + 10]
      ∧ updater._once lib conf env = ([UCall.cacheGet], none) := by
  have hw : wrapInt64 (t0 + 10) = t0 + 10 := wrapInt64_of_range _ (by omega) hov
  have hpos : (0 : Int) < (conf.Interval : Int) := by
    have : (1 : Int) < (conf.Interval : Int) := by exact_mod_cast h1
    omega
  have hc := canonicalTime_eq conf t (by omega) ht63 h1 h63
  have hle : updater._canonicalTime conf t ≤ t0 := by
    rw [hc]
    have e1 := Int.ediv_add_emod t (conf.Interval : Int)
    have e2 := Int.ediv_add_emod t0 (conf.Interval : Int)
    have hm0 : 0 ≤ t0 % (conf.Interval : Int) := Int.emod_nonneg _ (by omega)
    rw [hwin] at e1
    omega
  refine ⟨?_, ?_⟩
  · rw [forceUpdate_done lib fenv epoch comm hdone, hclock0, hw]
  · unfold updater._once
    simp only [hget, updater._lastUpdateTimeInCache, hclock]
    rw [if_neg (by omega)]

/-- C30 with an interval of 3600 s: an update finished at 7300 stores 7310, and
`_once` at 10799, the last second of that window, makes the read only. -/
theorem same_window_no_push_witness :
    cacheSets (updater._forceUpdate sampleLib (sampleForceEnv 7300) 5
        (some { Members := [[1]] })).1 = [7300 + 10]
      ∧ updater._once sampleLib { Interval := 3600, ForceEpoch := 0 }
          (sampleOnceEnv (CacheReply.value (7300 + 10)) 10799) = ([UCall.cacheGet], none) :=
  same_window_no_push sampleLib { Interval := 3600, ForceEpoch := 0 } (sampleForceEnv 7300)
    (sampleOnceEnv (CacheReply.value (7300 + 10)) 10799) 5 (some { Members := [[1]] })
    7300 10799 (by decide) (by decide) (by decide) (by decide) (by decide) (by decide)
    (by decide) rfl (by decide) rfl rfl

/-! ### C23: which committee the maintain handlers take -/

/-- C23: with `IsAvailable` false on a nil committee, `maintainer.processBlock` and
`xmaintainer.processBlock` on a block whose `NextCommittee` or `NextRealCommittee`
has a size above 0 call `_targetUpdateComm` on a proof holding `NextCommittee` when
that is available, on a proof holding `NextRealCommittee` when `NextCommittee` is
not available and `NextRealCommittee` is, and make no call and return a warning and
no fatal error when neither is available; on a block where both sizes are 0 they
make no call and return neither. -/
theorem processBlock_prefers_next (lib : Lib) (env : UpdateEnv)
    (syncingHeight : Except GoError Nat) (block : BlockEMessage) (body : BlockBody)
    (hbody : block.BlockBody = some body) (hnil : lib.CommIsAvailable none = false) :
    ((lib.CommSize body.NextCommittee > 0 ∨ lib.CommSize body.NextRealCommittee > 0) →
        (lib.CommIsAvailable body.NextCommittee = true →
          ∃ r rx, maintainer.processBlock lib env block = some r
            ∧ r.effects = (maintainer._targetUpdateComm lib env
                { Header := block.BlockHeader, Comm := body.NextCommittee,
                  PaSs := block.BlockPass, SyncingEpoch := 0 }).1
            ∧ r.fatal = ((maintainer._targetUpdateComm lib env
                { Header := block.BlockHeader, Comm := body.NextCommittee,
                  PaSs := block.BlockPass, SyncingEpoch := 0 }).2).map
                    (GoError.wrap "update failed")
            ∧ r.warning = none
            ∧ xmaintainer.processBlock lib env syncingHeight block = some rx
            ∧ rx.effects = Effect.syncingEpochRead :: (xmaintainer._targetUpdateComm lib env
                { Header := block.BlockHeader, Comm := body.NextCommittee,
                  PaSs := block.BlockPass,
                  SyncingEpoch := xmaintainer.syncingEpoch lib syncingHeight }).1
            ∧ rx.fatal = ((xmaintainer._targetUpdateComm lib env
                { Header := block.BlockHeader, Comm := body.NextCommittee,
                  PaSs := block.BlockPass,
                  SyncingEpoch := xmaintainer.syncingEpoch lib syncingHeight }).2).map
                    (GoError.wrap "update failed")
            ∧ rx.warning = none)
        ∧ (lib.CommIsAvailable body.NextCommittee = false →
            lib.CommIsAvailable body.NextRealCommittee = true →
          ∃ r rx, maintainer.processBlock lib env block = some r
            ∧ r.effects = (maintainer._targetUpdateComm lib env
                { Header := block.BlockHeader, Comm := body.NextRealCommittee,
                  PaSs := block.BlockPass, SyncingEpoch := 0 }).1
            ∧ r.fatal = ((maintainer._targetUpdateComm lib env
                { Header := block.BlockHeader, Comm := body.NextRealCommittee,
                  PaSs := block.BlockPass, SyncingEpoch := 0 }).2).map
                    (GoError.wrap "update failed")
            ∧ r.warning = none
            ∧ xmaintainer.processBlock lib env syncingHeight block = some rx
            ∧ rx.effects = Effect.syncingEpochRead :: (xmaintainer._targetUpdateComm lib env
                { Header := block.BlockHeader, Comm := body.NextRealCommittee,
                  PaSs := block.BlockPass,
                  SyncingEpoch := xmaintainer.syncingEpoch lib syncingHeight }).1
            ∧ rx.fatal = ((xmaintainer._targetUpdateComm lib env
                { Header := block.BlockHeader, Comm := body.NextRealCommittee,
                  PaSs := block.BlockPass,
                  SyncingEpoch := xmaintainer.syncingEpoch lib syncingHeight }).2).map
                    (GoError.wrap "update failed")
            ∧ rx.warning = none)
        ∧ (lib.CommIsAvailable body.NextCommittee = false →
            lib.CommIsAvailable body.NextRealCommittee = false →
          ∃ w, maintainer.processBlock lib env block
              = some { effects := [], fatal := none, warning := some w }
            ∧ xmaintainer.processBlock lib env syncingHeight block
              = some { effects := [], fatal := none, warning := some w }))
      ∧ (¬ (lib.CommSize body.NextCommittee > 0 ∨ lib.CommSize body.NextRealCommittee > 0) →
          maintainer.processBlock lib env block
              = some { effects := [], fatal := none, warning := none }
            ∧ xmaintainer.processBlock lib env syncingHeight block
              = some { effects := [], fatal := none, warning := none }) := by
  have hupd : ∀ (update : CommitteeProof → List Effect × Option GoError) (pre : List Effect)
      (cp : CommitteeProof), lib.CommIsAvailable cp.Comm = true →
      (maintainUpdate update pre cp).effects = pre ++ (update cp).1
        ∧ (maintainUpdate update pre cp).fatal = ((update cp).2).map (GoError.wrap "update failed")
        ∧ (maintainUpdate update pre cp).warning = none := by
    intro update pre cp hav
    unfold maintainUpdate
    cases hc : cp.Comm with
    | none => rw [hc, hnil] at hav; cases hav
    | some c =>
      simp only
      cases hu : update cp with
      | mk effs r =>
        cases r with
        | some err => simp
        | none => simp
  refine ⟨fun hsize => ⟨?_, ?_, ?_⟩, ?_⟩
  · intro hav
    obtain ⟨h1, h2, h3⟩ := hupd (maintainer._targetUpdateComm lib env) []
      { Header := block.BlockHeader, Comm := body.NextCommittee, PaSs := block.BlockPass,
        SyncingEpoch := 0 } hav
    obtain ⟨h4, h5, h6⟩ := hupd (xmaintainer._targetUpdateComm lib env) [Effect.syncingEpochRead]
      { Header := block.BlockHeader, Comm := body.NextCommittee, PaSs := block.BlockPass,
        SyncingEpoch := xmaintainer.syncingEpoch lib syncingHeight } hav
    refine ⟨_, _, ?_, ?_, h2, h3, ?_, ?_, h5, h6⟩
    · simp only [maintainer.processBlock, hbody, hsize, if_true, hav]
    · simpa using h1
    · simp only [xmaintainer.processBlock, hbody, hsize, if_true, hav]
    · simpa using h4
  · intro hnext hav
    obtain ⟨h1, h2, h3⟩ := hupd (maintainer._targetUpdateComm lib env) []
      { Header := block.BlockHeader, Comm := body.NextRealCommittee, PaSs := block.BlockPass,
        SyncingEpoch := 0 } hav
    obtain ⟨h4, h5, h6⟩ := hupd (xmaintainer._targetUpdateComm lib env) [Effect.syncingEpochRead]
      { Header := block.BlockHeader, Comm := body.NextRealCommittee, PaSs := block.BlockPass,
        SyncingEpoch := xmaintainer.syncingEpoch lib syncingHeight } hav
    refine ⟨_, _, ?_, ?_, h2, h3, ?_, ?_, h5, h6⟩
    · simp only [maintainer.processBlock, hbody, hsize, if_true, hnext, hav,
        Bool.false_eq_true, if_false]
    · simpa using h1
    · simp only [xmaintainer.processBlock, hbody, hsize, if_true, hnext, hav,
        Bool.false_eq_true, if_false]
    · simpa using h4
  · intro hnext hreal
    refine ⟨.plain "no available committee found", ?_, ?_⟩
    · simp only [maintainer.processBlock, hbody, hsize, if_true, hnext, hreal,
        Bool.false_eq_true, if_false]
    · simp only [xmaintainer.processBlock, hbody, hsize, if_true, hnext, hreal,
        Bool.false_eq_true, if_false]
  · intro hsize
    constructor
    · simp only [maintainer.processBlock, hbody, hsize, if_false]
    · simp only [xmaintainer.processBlock, hbody, hsize, if_false]

/-- C23 on a block whose next committee is available, which is the one sent, and on a
block with both committee fields nil, for which nothing is done. -/
theorem processBlock_prefers_next_witness :
    maintainer.processBlock sampleLib (sampleUpdateEnv 6 [7, 8, 9])
        (sampleCommBlock 5000 (some { Members := [[7], [8], [9]] }) (some { Members := [[1]] }))
      = some { effects := [Effect.sendingFetch, Effect.suggestGasPrice, Effect.nonceQuery,
                 Effect.txSend 3, Effect.receiptPoll, Effect.sendingRelease],
               fatal := none, warning := none }
    ∧ (maintainer.processBlock sampleLib (sampleUpdateEnv 6 [7, 8, 9])
            (sampleCommBlock 5000 none none)
          = some { effects := [], fatal := none, warning := none }
        ∧ xmaintainer.processBlock sampleLib (sampleUpdateEnv 6 [7, 8, 9]) (.ok 500)
            (sampleCommBlock 5000 none none)
          = some { effects := [], fatal := none, warning := none }) :=
  ⟨by decide,
    (processBlock_prefers_next sampleLib (sampleUpdateEnv 6 [7, 8, 9]) (.ok 500)
      (sampleCommBlock 5000 none none)
      { NextCommittee := none, NextRealCommittee := none, Txs := [] }
      rfl rfl).2 (by decide)⟩

/-! ### C24: the height the light client can validate -/

/-- C24, as the code has it: for an updatable light client whose last epoch is 5,
with epochs of 1000 blocks, `_maxValidatableHeightFromLC` returns 5999, the last
height of epoch 5, and not the height one past it. -/
theorem maxValidatable_is_last_height :
    syncer._maxValidatableHeightFromLC sampleLib true sampleLCEnv = .ok 5999
      ∧ sampleLib.EpochLastHeight 5 = 5999
      ∧ syncer._maxValidatableHeightFromLC sampleLib true sampleLCEnv
          ≠ .ok (sampleLib.EpochLastHeight 5 + 1) := by
  refine ⟨rfl, rfl, ?_⟩
  intro h
  have h2 : syncer._maxValidatableHeightFromLC sampleLib true sampleLCEnv = .ok 5999 := rfl
  rw [h2] at h
  simp only [Except.ok.injEq] at h
  revert h
  decide

theorem epoch_last_height_div (E B : Nat) (hB : 0 < B) :
    (E * B + (B - 1)) / B = E ∧ (E * B + (B - 1) + 1) / B = E + 1 := by
  constructor
  · rw [Nat.mul_comm, Nat.mul_add_div hB, Nat.div_eq_of_lt (by omega)]
    rfl
  · have h : E * B + (B - 1) + 1 = (E + 1) * B := by
      rw [Nat.add_mul, Nat.one_mul]
      omega
    rw [h, Nat.mul_div_cancel _ hB]

/-- C24, amended: with epochOf(h) = h / blocksInEpoch and the last height of epoch e
being e * blocksInEpoch + (blocksInEpoch - 1), as the library has them at the values
read, `_maxValidatableHeightFromLC` returns, for an updatable light client whose
last epoch is E, the last height r of epoch E (epochOf(r) = E and epochOf(r + 1) =
E + 1) and not the height one past it; and for a plain light client whose last
height is h, the last height r of epoch epochOf(h) + 1 (epochOf(r) = h /
blocksInEpoch + 1 and epochOf(r + 1) = h / blocksInEpoch + 2); a nil last epoch or
a nil last height gives an exit error with the light-client code. -/
theorem maxValidatable_values (lib : Lib) (env : LCEnv) (hB : 1 < lib.BlocksInEpoch) :
    (∀ E, env.lastEpoch = .ok E → lib.EpochIsNil E = false →
        lib.EpochLastHeight E = E * lib.BlocksInEpoch + (lib.BlocksInEpoch - 1) →
        ∃ r, syncer._maxValidatableHeightFromLC lib true env = .ok r
          ∧ r = E * lib.BlocksInEpoch + (lib.BlocksInEpoch - 1)
          ∧ r / lib.BlocksInEpoch = E ∧ (r + 1) / lib.BlocksInEpoch = E + 1
          ∧ syncer._maxValidatableHeightFromLC lib true env ≠ .ok (r + 1))
      ∧ (∀ h, env.lastHeight = .ok h → h < 2 ^ 64 → lib.HeightIsNil h = false →
        lib.HeightEpochNum h = h / lib.BlocksInEpoch →
        lib.EpochLastHeight (h / lib.BlocksInEpoch + 1)
          = (h / lib.BlocksInEpoch + 1) * lib.BlocksInEpoch + (lib.BlocksInEpoch - 1) →
        ∃ r, syncer._maxValidatableHeightFromLC lib false env = .ok r
          ∧ r = (h / lib.BlocksInEpoch + 1) * lib.BlocksInEpoch + (lib.BlocksInEpoch - 1)
          ∧ r / lib.BlocksInEpoch = h / lib.BlocksInEpoch + 1
          ∧ (r + 1) / lib.BlocksInEpoch = h / lib.BlocksInEpoch + 2)
      ∧ (∀ E, env.lastEpoch = .ok E → lib.EpochIsNil E = true →
        ∃ e, syncer._maxValidatableHeightFromLC lib true env = .error (.exit ExitLCErr e))
      ∧ (∀ h, env.lastHeight = .ok h → lib.HeightIsNil h = true →
        ∃ e, syncer._maxValidatableHeightFromLC lib false env = .error (.exit ExitLCErr e)) := by
  have hB0 : 0 < lib.BlocksInEpoch := by omega
  refine ⟨?_, ?_, ?_, ?_⟩
  · intro E hE hnil hlast
    obtain ⟨h1, h2⟩ := epoch_last_height_div E lib.BlocksInEpoch hB0
    have hres : syncer._maxValidatableHeightFromLC lib true env
        = .ok (E * lib.BlocksInEpoch + (lib.BlocksInEpoch - 1)) := by
      simp [syncer._maxValidatableHeightFromLC, hE, hnil, hlast]
    refine ⟨_, hres, rfl, h1, h2, ?_⟩
    rw [hres]
    intro hcontra
    simp only [Except.ok.injEq] at hcontra
    omega
  · intro h hh hlt hnil hepoch hlast
    have hdiv : h / lib.BlocksInEpoch ≤ h / 2 := by
      rw [Nat.div_le_iff_le_mul_add_pred hB0]
      have h3 : h / 2 * 2 ≤ lib.BlocksInEpoch * (h / 2) := by
        rw [Nat.mul_comm]
        exact Nat.mul_le_mul_right _ hB
      omega
    have hmod : (h / lib.BlocksInEpoch + 1) % 2 ^ 64 = h / lib.BlocksInEpoch + 1 :=
      Nat.mod_eq_of_lt (by omega)
    obtain ⟨h1, h2⟩ := epoch_last_height_div (h / lib.BlocksInEpoch + 1) lib.BlocksInEpoch hB0
    have hres : syncer._maxValidatableHeightFromLC lib false env
        = .ok ((h / lib.BlocksInEpoch + 1) * lib.BlocksInEpoch + (lib.BlocksInEpoch - 1)) := by
      unfold syncer._maxValidatableHeightFromLC
      simp only [hh, hnil, hepoch, hmod, hlast, Bool.false_eq_true, if_false]
    exact ⟨_, hres, rfl, h1, h2⟩
  · intro E hE hnil
    exact ⟨.plain "unavailable last epoch in LC",
      by simp [syncer._maxValidatableHeightFromLC, hE, hnil]⟩
  · intro h hh hnil
    exact ⟨.plain "unavailable last height in LC",
      by simp [syncer._maxValidatableHeightFromLC, hh, hnil]⟩

/-- C24, amended, with epochs of 1000 blocks: last epoch 5 gives 5999, last height
5000 gives 6999, a nil last height gives the exit error. -/
theorem maxValidatable_values_witness :
    (∃ r, syncer._maxValidatableHeightFromLC sampleLib true sampleLCEnv = .ok r
        ∧ r = 5 * sampleLib.BlocksInEpoch + (sampleLib.BlocksInEpoch - 1)
        ∧ r / sampleLib.BlocksInEpoch = 5 ∧ (r + 1) / sampleLib.BlocksInEpoch = 5 + 1
        ∧ syncer._maxValidatableHeightFromLC sampleLib true sampleLCEnv ≠ .ok (r + 1))
      ∧ 5 * sampleLib.BlocksInEpoch + (sampleLib.BlocksInEpoch - 1) = 5999
      ∧ (∃ r, syncer._maxValidatableHeightFromLC sampleLib false sampleLCEnv = .ok r
        ∧ r = (5000 / sampleLib.BlocksInEpoch + 1) * sampleLib.BlocksInEpoch
            + (sampleLib.BlocksInEpoch - 1)
        ∧ r / sampleLib.BlocksInEpoch = 5000 / sampleLib.BlocksInEpoch + 1
        ∧ (r + 1) / sampleLib.BlocksInEpoch = 5000 / sampleLib.BlocksInEpoch + 2)
      ∧ (5000 / sampleLib.BlocksInEpoch + 1) * sampleLib.BlocksInEpoch
          + (sampleLib.BlocksInEpoch - 1) = 6999
      ∧ ∃ e, syncer._maxValidatableHeightFromLC sampleLib false
          { lastEpoch := .ok 5, lastHeight := .ok (2 ^ 64 - 1) } = .error (.exit ExitLCErr e) :=
  ⟨(maxValidatable_values sampleLib sampleLCEnv (by decide)).1 5 rfl (by decide) (by decide),
    by decide,
    (maxValidatable_values sampleLib sampleLCEnv (by decide)).2.1 5000 rfl (by decide)
      (by decide) (by decide) (by decide),
    by decide,
    (maxValidatable_values sampleLib
      { lastEpoch := .ok 5, lastHeight := .ok (2 ^ 64 - 1) } (by decide)).2.2.2 (2 ^ 64 - 1) rfl
      (by decide)⟩

/-! ### C26: start-up of xmaintain -/

/-- C26, as the code has it: `xmaintainer.prepareConfig` never returns nil. With a
valid sender key, the target name `eth` and a flag that decodes to the address
`00..01` it fails with the error of `XMaintain.validate` for an empty
`XsyncStartHeightKey`, a field nothing assigns. -/
theorem xmaintain_never_starts :
    xmaintainer.prepareConfig sampleLib { sender := none, targetName := "eth" } true
        (.ok sampleAddress)
      = ({ TargetLCAddr := sampleAddress, XsyncStartHeightKey := "" },
         some (.plain "xsync start height key is missing"))
    ∧ sampleAddress ≠ sampleLib.EmptyAddress
    ∧ sampleAddress.length = 20
    ∧ ∀ (lib : Lib) (flags : RunnerFlags) (eventExists : Bool) (decoded : Except GoError Bytes),
        (xmaintainer.prepareConfig lib flags eventExists decoded).2 ≠ none := by
  refine ⟨rfl, by decide, by decide, ?_⟩
  intro lib flags eventExists decoded
  unfold xmaintainer.prepareConfig
  cases runner.prepareConfig lib flags with
  | some err => simp
  | none =>
    cases eventExists with
    | false => simp
    | true =>
      cases stringToAddress lib decoded with
      | error err => simp
      | ok addr =>
        simp only [Bool.not_true, Bool.false_eq_true, if_false, XMaintain.validate,
          runner.XMaintainer]
        split_ifs <;> simp

/-! ### C27: one proof per source transaction -/

theorem txLoop_length (conf : SyncConf) (env : SyncEnv) (maxMain : Nat) :
    ∀ (txs : List Transaction) (acc proofs : List TxFinalProof),
      (syncer.txLoop conf env maxMain txs acc).2 = .ok proofs →
      proofs.length ≤ acc.length + txs.length := by
  intro txs
  induction txs with
  | nil =>
    intro acc proofs h
    simp only [syncer.txLoop, Except.ok.injEq] at h
    simp [← h]
  | cons tx rest ih =>
    intro acc proofs h
    unfold syncer.txLoop at h
    by_cases hc : (tx.To.isSome && decide (tx.Input.length > 0)) = true
    · simp only [hc, if_true] at h
      cases hp : env.txFinalProof tx.TxHash maxMain with
      | error e => simp [hp] at h
      | ok op =>
        cases op with
        | none => simp [hp] at h
        | some proof =>
          simp only [hp] at h
          by_cases hs : env.receiptSuccess proof.Receipt = true
          · simp only [hs, Bool.not_true, Bool.false_eq_true, if_false] at h
            cases hv : env.finalVerify proof with
            | some e => simp [hv] at h
            | none =>
              simp only [hv] at h
              cases hr : proof.Receipt with
              | none => simp [hr] at h
              | some rcpt =>
                simp only [hr] at h
                cases hl : locateLog rcpt.Logs conf.mcsAddress conf.watchTopicId with
                | none =>
                  simp only [hl] at h
                  have := ih acc proofs h
                  simp only [List.length_cons]
                  omega
                | some il =>
                  obtain ⟨i, rlog⟩ := il
                  simp only [hl] at h
                  cases hu : env.unpackEvent rlog with
                  | error e => simp [hu] at h
                  | ok out =>
                    simp only [hu] at h
                    cases ho : env.checkOrderId out.OrderId with
                    | error e => simp [ho] at h
                    | ok b =>
                      cases b with
                      | true =>
                        simp only [ho] at h
                        have := ih acc proofs h
                        simp only [List.length_cons]
                        omega
                      | false =>
                        simp only [ho] at h
                        have := ih (acc ++ [proof]) proofs h
                        simp only [List.length_append, List.length_cons, List.length_nil] at this
                        simp only [List.length_cons]
                        omega
          · have hs2 : env.receiptSuccess proof.Receipt = false := by
              cases hb : env.receiptSuccess proof.Receipt with
              | true => exact absurd hb hs
              | false => rfl
            simp only [hs2, Bool.not_false, if_true] at h
            have := ih acc proofs h
            simp only [List.length_cons]
            omega
    · simp only [hc, if_false] at h
      have := ih acc proofs h
      simp only [List.length_cons]
      omega

theorem orderChecks_append (xs ys : List Effect) :
    orderChecks (xs ++ ys) = orderChecks xs ++ orderChecks ys := by
  induction xs with
  | nil => rfl
  | cons e xs ih => cases e <;> simp [orderChecks, ih]

theorem txLoop_orderChecks (conf : SyncConf) (env : SyncEnv) (maxMain : Nat) :
    ∀ (txs : List Transaction) (acc : List TxFinalProof),
      (orderChecks (syncer.txLoop conf env maxMain txs acc).1).length ≤ txs.length := by
  intro txs
  induction txs with
  | nil => intro acc; simp [syncer.txLoop, orderChecks]
  | cons tx rest ih =>
    intro acc
    unfold syncer.txLoop
    by_cases hc : (tx.To.isSome && decide (tx.Input.length > 0)) = true
    · simp only [hc, if_true]
      cases hp : env.txFinalProof tx.TxHash maxMain with
      | error err => simp [orderChecks]
      | ok op =>
        cases op with
        | none => simp [orderChecks]
        | some proof =>
          simp only []
          by_cases hs : env.receiptSuccess proof.Receipt = true
          · simp only [hs, Bool.not_true, Bool.false_eq_true, if_false]
            cases hv : env.finalVerify proof with
            | some err => simp [orderChecks]
            | none =>
              simp only []
              cases hr : proof.Receipt with
              | none => simp [orderChecks]
              | some rcpt =>
                simp only []
                cases hl : locateLog rcpt.Logs conf.mcsAddress conf.watchTopicId with
                | none =>
                  have := ih acc
                  simp only [orderChecks_append, orderChecks, List.nil_append,
                    List.length_cons, List.append_eq]
                  omega
                | some il =>
                  obtain ⟨i, rlog⟩ := il
                  simp only []
                  cases hu : env.unpackEvent rlog with
                  | error err => simp [orderChecks]
                  | ok out =>
                    simp only []
                    cases ho : env.checkOrderId out.OrderId with
                    | error err => simp [orderChecks, orderChecks_append]
                    | ok b =>
                      cases b with
                      | true =>
                        have := ih acc
                        simp only [orderChecks_append, orderChecks, List.nil_append,
                          List.length_cons, List.append_eq]
                        omega
                      | false =>
                        have := ih (acc ++ [proof])
                        simp only [orderChecks_append, orderChecks, List.nil_append,
                          List.length_cons, List.append_eq]
                        omega
          · have hs2 : env.receiptSuccess proof.Receipt = false := by
              cases hb : env.receiptSuccess proof.Receipt with
              | true => exact absurd hb hs
              | false => rfl
            have := ih acc
            simp only [hs2, Bool.not_false, if_true, orderChecks_append, orderChecks,
              List.nil_append, List.length_cons, List.append_eq]
            omega
    · have := ih acc
      simp only [hc, Bool.false_eq_true, if_false, List.length_cons]
      omega

theorem ReceiptProof_emits_located (lib : Lib) (p : TxFinalProof) (r : Receipt)
    (a : Bytes) (t : CommonHash) (out : TKMReceiptProof)
    (hr : p.Receipt = some r) (hv : r.Version ≥ ReceiptV2)
    (hok : T2LN.ReceiptProof lib (some p) a t = .ok (some out)) :
    ∃ i l, locateLog r.Logs a t = some (i, l) ∧ out.Log = T2LN.ReceiptLog (some l) := by
  cases hh : p.Header with
  | none => simp [T2LN.ReceiptProof, hh] at hok
  | some hd =>
    simp only [T2LN.ReceiptProof, hh, hr] at hok
    by_cases hp : p.ReceiptProof.length = 0
    · simp [hp] at hok
    · simp only [hp, if_false, hv, if_true] at hok
      unfold T2LN.RcptAndTargetLog at hok
      simp only at hok
      split_ifs at hok
      cases hloc : locateLog r.Logs a t with
      | none => simp [hloc] at hok
      | some il =>
        obtain ⟨i, l⟩ := il
        simp only [hloc] at hok
        cases hm : lib.LogsMerkleRoot r.Logs i with
        | error e => simp [hm] at hok
        | ok lp =>
          simp only [hm, Except.ok.injEq, Option.some.injEq] at hok
          exact ⟨i, l, rfl, by rw [← hok]⟩

/-- C27: when the transaction loop of `syncer.processBlock` returns its proofs for the
transactions of a block, there are at most as many proofs, order checks and sent
transactions as the block has transactions; and every collected proof belongs to a
receipt in which the log that was unpacked and order-checked is the matching log of
lowest index, which is also the only log `T2LN.ReceiptProof` emits for a receipt of
version 2 or more. -/
theorem one_proof_per_transaction (lib : Lib) (conf : SyncConf) (env : SyncEnv)
    (txs : List Transaction) (maxMain : Nat) (proofs : List TxFinalProof)
    (h : (syncer.txLoop conf env maxMain txs []).2 = .ok proofs) :
    proofs.length ≤ txs.length
      ∧ (orderChecks (syncer.txLoop conf env maxMain txs []).1).length ≤ txs.length
      ∧ (txSends (_mcsProofs env.mcs proofs).1).length ≤ txs.length
      ∧ ∀ p ∈ proofs, ∃ (rcpt : Receipt) (i : Nat) (l : Log) (out : MapTransferOutLog),
          p.Receipt = some rcpt
            ∧ rcpt.Logs[i]? = some l
            ∧ logMatches conf.mcsAddress conf.watchTopicId l
            ∧ (∀ (j : Nat) (l2 : Log), j < i → rcpt.Logs[j]? = some l2 →
                ¬ logMatches conf.mcsAddress conf.watchTopicId l2)
            ∧ env.unpackEvent l = .ok out
            ∧ syncer.orderIdOf conf env p = some out.OrderId
            ∧ (∀ o, rcpt.Version ≥ ReceiptV2 →
                T2LN.ReceiptProof lib (some p) conf.mcsAddress conf.watchTopicId = .ok (some o) →
                o.Log = T2LN.ReceiptLog (some l)) := by
  have hlen := txLoop_length conf env maxMain txs [] proofs h
  simp only [List.length_nil, Nat.zero_add] at hlen
  obtain ⟨new, hnew, hall⟩ := txLoop_collects conf env maxMain txs [] proofs h
  simp only [List.nil_append] at hnew
  subst hnew
  refine ⟨hlen, txLoop_orderChecks conf env maxMain txs [],
    le_trans (mcsProofs_sends env.mcs _) hlen, ?_⟩
  intro p hp
  obtain ⟨oid, hoid, _⟩ := hall p hp
  unfold syncer.orderIdOf at hoid
  cases hr : p.Receipt with
  | none => simp [hr] at hoid
  | some rcpt =>
    simp only [hr] at hoid
    cases hl : locateLog rcpt.Logs conf.mcsAddress conf.watchTopicId with
    | none => simp [hl] at hoid
    | some il =>
      obtain ⟨i, l⟩ := il
      simp only [hl] at hoid
      cases hu : env.unpackEvent l with
      | error e => simp [hu] at hoid
      | ok out =>
        obtain ⟨j, hi, hget, hm, hmin⟩ :=
          locateLogFrom_some conf.mcsAddress conf.watchTopicId rcpt.Logs 0 i l hl
        refine ⟨rcpt, j, l, out, rfl, hget, hm, hmin, hu, ?_, ?_⟩
        · simp [syncer.orderIdOf, hr, hl, hu]
        · intro o hv hok
          obtain ⟨i2, l2, hl2, ho⟩ := ReceiptProof_emits_located lib p rcpt _ _ o hr hv hok
          rw [hl] at hl2
          simp only [Option.some.injEq, Prod.mk.injEq] at hl2
          rw [ho, ← hl2.2]

/-- C27 on a block of one transaction whose receipt holds one matching log. -/
theorem one_proof_per_transaction_witness :
    (syncer.txLoop sampleSyncConf (sampleOrderEnv false) 10
        [{ To := some [1], Input := [1], TxHash := [11] }] []).2 = .ok [sampleTxProof [11]]
      ∧ [sampleTxProof [11]].length ≤ [({ To := some [1], Input := [1], TxHash := [11] } : Transaction)].length
      ∧ (orderChecks (syncer.txLoop sampleSyncConf (sampleOrderEnv false) 10
          [{ To := some [1], Input := [1], TxHash := [11] }] []).1).length
          ≤ [({ To := some [1], Input := [1], TxHash := [11] } : Transaction)].length :=
  ⟨rfl,
    (one_proof_per_transaction sampleLib sampleSyncConf (sampleOrderEnv false)
      [{ To := some [1], Input := [1], TxHash := [11] }] 10 [sampleTxProof [11]] rfl).1,
    (one_proof_per_transaction sampleLib sampleSyncConf (sampleOrderEnv false)
      [{ To := some [1], Input := [1], TxHash := [11] }] 10 [sampleTxProof [11]] rfl).2.1⟩

/-! ### C25, C28: receipt polling -/

theorem pollQueries_append (xs ys : List PollCall) :
    pollQueries (xs ++ ys) = pollQueries xs ++ pollQueries ys := by
  induction xs with
  | nil => rfl
  | cons e xs ih => cases e <;> simp [pollQueries, ih]

theorem pollRounds_append (xs ys : List PollCall) :
    pollRounds (xs ++ ys) = pollRounds xs + pollRounds ys := by
  induction xs with
  | nil => simp [pollRounds]
  | cons e xs ih =>
    cases e with
    | lockRefresh => simpa [pollRounds] using ih
    | sleep =>
      simp only [List.cons_append, List.append_eq, pollRounds, ih]
      omega
    | getReceipt h => simpa [pollRounds] using ih

theorem refresh_queries (b : Bool) :
    pollQueries (if b = true then [PollCall.lockRefresh] else []) = [] := by
  cases b <;> rfl

theorem refresh_rounds (b : Bool) :
    pollRounds (if b = true then [PollCall.lockRefresh] else []) = 0 := by
  cases b <;> rfl

theorem checkReceiptLoop_bound {R T : Type} (env : PollEnv R T) (h : CommonHash) :
    ∀ (n i : Nat), (pollQueries (EthClient.checkReceiptLoop env h n i).1).length ≤ n := by
  intro n
  induction n with
  | zero => intro i; simp [EthClient.checkReceiptLoop, pollQueries]
  | succ n ih =>
    intro i
    unfold EthClient.checkReceiptLoop
    simp only
    by_cases hc : env.ctxDoneAt i = true
    · simp [hc, refresh_queries]
    · have hc2 : env.ctxDoneAt i = false := by
        cases hb : env.ctxDoneAt i with
        | true => exact absurd hb hc
        | false => rfl
      simp only [hc2, Bool.false_eq_true, if_false]
      cases hg : env.getReceipt i with
      | none =>
        have := ih (i + 1)
        simp only [pollQueries_append, refresh_queries, pollQueries, List.nil_append,
          List.length_cons]
        omega
      | some rec =>
        simp only [pollQueries_append, refresh_queries, pollQueries, List.nil_append,
          List.length_cons, List.length_nil]
        omega

theorem checkReceiptLoop_skip {R T : Type} (env : PollEnv R T) (h : CommonHash) :
    ∀ (d n i : Nat), d ≤ n →
      (∀ j, i ≤ j → j < i + d → env.ctxDoneAt j = false ∧ env.getReceipt j = none) →
      pollQueries (EthClient.checkReceiptLoop env h n i).1
          = List.replicate d h ++ pollQueries (EthClient.checkReceiptLoop env h (n - d) (i + d)).1
        ∧ (EthClient.checkReceiptLoop env h n i).2
          = (EthClient.checkReceiptLoop env h (n - d) (i + d)).2 := by
  intro d
  induction d with
  | zero => intro n i _ _; simp
  | succ d ih =>
    intro n i hd hall
    cases n with
    | zero => omega
    | succ n =>
      obtain ⟨hc, hg⟩ := hall i (le_refl _) (by omega)
      obtain ⟨h1, h2⟩ := ih n (i + 1) (by omega) (fun j hj1 hj2 => hall j (by omega) (by omega))
      have e1 : n + 1 - (d + 1) = n - d := by omega
      have e2 : i + (d + 1) = i + 1 + d := by omega
      rw [e1, e2]
      constructor
      · conv_lhs => unfold EthClient.checkReceiptLoop
        simp only [hc, Bool.false_eq_true, if_false, hg, pollQueries_append, refresh_queries,
          pollQueries, List.nil_append, h1, List.replicate_succ, List.cons_append]
      · conv_lhs => unfold EthClient.checkReceiptLoop
        simp only [hc, Bool.false_eq_true, if_false, hg, h2]

theorem checkReceiptLoop_found {R T : Type} (env : PollEnv R T) (h : CommonHash)
    (n i : Nat) (rec : R) (hc : env.ctxDoneAt i = false) (hg : env.getReceipt i = some rec) :
    pollQueries (EthClient.checkReceiptLoop env h (n + 1) i).1 = [h]
      ∧ (EthClient.checkReceiptLoop env h (n + 1) i).2 = env.convert rec := by
  unfold EthClient.checkReceiptLoop
  simp only [hc, Bool.false_eq_true, if_false, hg, pollQueries_append, refresh_queries,
    pollQueries, List.nil_append, and_self]

theorem checkReceiptLoop_cancel {R T : Type} (env : PollEnv R T) (h : CommonHash)
    (n i : Nat) (hc : env.ctxDoneAt i = true) :
    (EthClient.checkReceiptLoop env h (n + 1) i).2 = .error ctxErr := by
  unfold EthClient.checkReceiptLoop
  simp only [hc, if_true]

theorem lookup_isSome_iff {V : Type} (m : List (CommonHash × V)) (k : CommonHash) :
    (m.lookup k).isSome = true ↔ k ∈ m.map Prod.fst := by
  induction m with
  | nil => simp
  | cons e m ih =>
    obtain ⟨a, b⟩ := e
    by_cases hk : k = a
    · subst hk
      simp [List.lookup]
    · have hb : (k == a) = false := by simpa using hk
      simp only [List.lookup, hb, ih, List.map_cons, List.mem_cons, hk, false_or]

theorem mapSet_keys {V : Type} (m : List (CommonHash × V)) (k : CommonHash) (v : V) :
    (mapSet m k v).map Prod.fst
      = if k ∈ m.map Prod.fst then m.map Prod.fst else m.map Prod.fst ++ [k] := by
  unfold mapSet
  by_cases hk : k ∈ m.map Prod.fst
  · have hl : (m.lookup k).isSome = true := (lookup_isSome_iff m k).2 hk
    simp only [hl, if_true, hk, List.map_map]
    apply List.map_congr_left
    intro e _
    by_cases he : e.1 = k
    · simp [he]
    · simp [he]
  · have hl : ¬ (m.lookup k).isSome = true := fun h => hk ((lookup_isSome_iff m k).1 h)
    simp only [hl, Bool.false_eq_true, if_false, hk, List.map_append, List.map_cons,
      List.map_nil]

theorem mapSet_keys_nodup {V : Type} (m : List (CommonHash × V)) (k : CommonHash) (v : V)
    (hm : (m.map Prod.fst).Nodup) :
    ((mapSet m k v).map Prod.fst).Nodup
      ∧ ∀ x, x ∈ (mapSet m k v).map Prod.fst ↔ x ∈ m.map Prod.fst ∨ x = k := by
  rw [mapSet_keys]
  by_cases hk : k ∈ m.map Prod.fst
  · simp only [hk, if_true]
    refine ⟨hm, fun x => ⟨Or.inl, ?_⟩⟩
    rintro (h | h)
    · exact h
    · rw [h]; exact hk
  · simp only [hk, if_false]
    refine ⟨?_, fun x => by simp⟩
    rw [List.nodup_append]
    refine ⟨hm, List.nodup_singleton k, ?_⟩
    intro x hx hx2
    rw [List.mem_singleton] at hx2
    subst hx2
    exact hk hx

theorem txMapOf_keys : ∀ (ethtxs : List (Option EthTx)) (m : List (CommonHash × EthTx)),
    (m.map Prod.fst).Nodup →
    ((txMapOf ethtxs m).map Prod.fst).Nodup
      ∧ ∀ x, x ∈ (txMapOf ethtxs m).map Prod.fst
          ↔ x ∈ m.map Prod.fst ∨ x ∈ txHashListOf ethtxs := by
  intro ethtxs
  induction ethtxs with
  | nil => intro m hm; simp [txMapOf, txHashListOf, hm]
  | cons e rest ih =>
    intro m hm
    cases e with
    | none => simpa [txMapOf, txHashListOf] using ih m hm
    | some tx =>
      obtain ⟨h1, h2⟩ := mapSet_keys_nodup m tx.Hash tx hm
      obtain ⟨h3, h4⟩ := ih (mapSet m tx.Hash tx) h1
      refine ⟨by simpa [txMapOf] using h3, fun x => ?_⟩
      have h5 := h4 x
      rw [h2 x] at h5
      simp only [txMapOf, txHashListOf, List.mem_cons]
      rw [h5]
      tauto

theorem pollRound_keys {R T : Type} (env : PollsEnv R T) (txMap : List (CommonHash × EthTx))
    (i : Nat) : ∀ (rest : List CommonHash) (j : Nat) (m : List (CommonHash × T)),
    (m.map Prod.fst).Nodup →
    (((EthClient.pollRound env txMap i j rest m).2).map Prod.fst).Nodup
      ∧ ∀ x, x ∈ ((EthClient.pollRound env txMap i j rest m).2).map Prod.fst →
          x ∈ m.map Prod.fst ∨ x ∈ rest := by
  intro rest
  induction rest with
  | nil => intro j m hm; simp [EthClient.pollRound, hm]
  | cons h rest ih =>
    intro j m hm
    have hkeep : (((EthClient.pollRound env txMap i (j + 1) rest m).2).map Prod.fst).Nodup
        ∧ ∀ x, x ∈ ((EthClient.pollRound env txMap i (j + 1) rest m).2).map Prod.fst →
            x ∈ m.map Prod.fst ∨ x ∈ h :: rest := by
      obtain ⟨h1, h2⟩ := ih (j + 1) m hm
      refine ⟨h1, fun x hx => ?_⟩
      rcases h2 x hx with h3 | h3
      · exact Or.inl h3
      · exact Or.inr (List.mem_cons_of_mem _ h3)
    unfold EthClient.pollRound
    by_cases hl : (m.lookup h).isSome = true
    · simp only [hl, if_true]
      exact hkeep
    · simp only [hl, if_false]
      cases hg : env.getReceipt i j with
      | none => simpa using hkeep
      | some rec =>
        simp only
        cases ht : env.txReceipt (List.lookup h txMap) rec with
        | error e => simpa using hkeep
        | ok r =>
          simp only
          obtain ⟨h1, h2⟩ := mapSet_keys_nodup m h r hm
          obtain ⟨h3, h4⟩ := ih (j + 1) (mapSet m h r) h1
          refine ⟨h3, fun x hx => ?_⟩
          rcases h4 x hx with h5 | h5
          · rcases (h2 x).1 h5 with h6 | h6
            · exact Or.inl h6
            · exact Or.inr (by rw [h6]; exact List.mem_cons_self _ _)
          · exact Or.inr (List.mem_cons_of_mem _ h5)

theorem pollRound_rounds {R T : Type} (env : PollsEnv R T) (txMap : List (CommonHash × EthTx))
    (i : Nat) : ∀ (rest : List CommonHash) (j : Nat) (m : List (CommonHash × T)),
    pollRounds (EthClient.pollRound env txMap i j rest m).1 = 0 := by
  intro rest
  induction rest with
  | nil => intro j m; simp [EthClient.pollRound, pollRounds]
  | cons h rest ih =>
    intro j m
    unfold EthClient.pollRound
    by_cases hl : (m.lookup h).isSome = true
    · simp only [hl, if_true]
      exact ih (j + 1) m
    · simp only [hl, if_false]
      cases hg : env.getReceipt i j with
      | none => simpa [pollRounds] using ih (j + 1) m
      | some rec =>
        simp only
        cases ht : env.txReceipt (List.lookup h txMap) rec with
        | error e => simpa [pollRounds] using ih (j + 1) m
        | ok r => simpa [pollRounds] using ih (j + 1) (mapSet m h r)

theorem rptMapAfter_keys {R T : Type} (env : PollsEnv R T) (txHashList : List CommonHash)
    (txMap : List (CommonHash × EthTx)) : ∀ (k : Nat),
    (((EthClient.rptMapAfter env txHashList txMap k : List (CommonHash × T))).map Prod.fst).Nodup
      ∧ ∀ x, x ∈ ((EthClient.rptMapAfter env txHashList txMap k : List (CommonHash × T))).map
          Prod.fst → x ∈ txHashList := by
  intro k
  induction k with
  | zero => simp [EthClient.rptMapAfter]
  | succ k ih =>
    obtain ⟨h1, h2⟩ := ih
    obtain ⟨h3, h4⟩ := pollRound_keys env txMap k txHashList 0 _ h1
    refine ⟨h3, fun x hx => ?_⟩
    rcases h4 x hx with h5 | h5
    · exact h2 x h5
    · exact h5

theorem complete_iff {R T : Type} (env : PollsEnv R T) (ethtxs : List (Option EthTx)) (k : Nat) :
    ((EthClient.rptMapAfter env (txHashListOf ethtxs) (txMapOf ethtxs []) k :
        List (CommonHash × T))).length = (txMapOf ethtxs []).length
      ↔ allReceived (txHashListOf ethtxs)
          (EthClient.rptMapAfter env (txHashListOf ethtxs) (txMapOf ethtxs []) k :
            List (CommonHash × T)) := by
  obtain ⟨hn, hsub⟩ := rptMapAfter_keys (T := T) env (txHashListOf ethtxs) (txMapOf ethtxs []) k
  obtain ⟨htn, htk⟩ := txMapOf_keys ethtxs [] (by simp)
  have hkeys : ∀ x, x ∈ (txMapOf ethtxs []).map Prod.fst ↔ x ∈ txHashListOf ethtxs := by
    intro x
    rw [htk x]
    simp
  set m := (EthClient.rptMapAfter env (txHashListOf ethtxs) (txMapOf ethtxs []) k :
    List (CommonHash × T)) with hm
  have hsp1 : (m.map Prod.fst).Subperm ((txMapOf ethtxs []).map Prod.fst) :=
    List.subperm_of_subset hn (fun x hx => (hkeys x).2 (hsub x hx))
  constructor
  · intro hlen
    have hperm : (m.map Prod.fst).Perm ((txMapOf ethtxs []).map Prod.fst) :=
      hsp1.perm_of_length_le (by simp [hlen])
    intro h hh
    exact (lookup_isSome_iff m h).2 (hperm.symm.subset ((hkeys h).2 hh))
  · intro hall
    have hsp2 : ((txMapOf ethtxs []).map Prod.fst).Subperm (m.map Prod.fst) :=
      List.subperm_of_subset htn
        (fun x hx => (lookup_isSome_iff m x).1 (hall x ((hkeys x).1 hx)))
    have l1 := hsp1.length_le
    have l2 := hsp2.length_le
    simp only [List.length_map] at l1 l2
    omega

theorem checkReceiptsLoop_bound {R T : Type} (env : PollsEnv R T)
    (txHashList : List CommonHash) (txMap : List (CommonHash × EthTx)) :
    ∀ (n i : Nat) (m : List (CommonHash × T)),
      pollRounds (EthClient.checkReceiptsLoop env txHashList txMap n i m).1 ≤ n := by
  intro n
  induction n with
  | zero => intro i m; simp [EthClient.checkReceiptsLoop, pollRounds]
  | succ n ih =>
    intro i m
    unfold EthClient.checkReceiptsLoop
    simp only
    by_cases hc : env.ctxDoneAt i = true
    · simp [hc, refresh_rounds]
    · have hc2 : env.ctxDoneAt i = false := by
        cases hb : env.ctxDoneAt i with
        | true => exact absurd hb hc
        | false => rfl
      simp only [hc2, Bool.false_eq_true, if_false]
      by_cases hlen : (EthClient.pollRound env txMap i 0 txHashList m).2.length = txMap.length
      · simp only [hlen, if_true, pollRounds_append, refresh_rounds, pollRounds,
          pollRound_rounds]
        omega
      · have := ih (i + 1) (EthClient.pollRound env txMap i 0 txHashList m).2
        simp only [hlen, if_false, pollRounds_append, refresh_rounds, pollRounds,
          pollRound_rounds, List.append_eq]
        omega

theorem checkReceiptsLoop_skip {R T : Type} (env : PollsEnv R T)
    (txHashList : List CommonHash) (txMap : List (CommonHash × EthTx)) :
    ∀ (d n i : Nat), d ≤ n →
      (∀ j, i ≤ j → j < i + d → env.ctxDoneAt j = false
        ∧ ((EthClient.rptMapAfter env txHashList txMap (j + 1) : List (CommonHash × T))).length
            ≠ txMap.length) →
      pollRounds (EthClient.checkReceiptsLoop env txHashList txMap n i
          (EthClient.rptMapAfter env txHashList txMap i : List (CommonHash × T))).1
          = d + pollRounds (EthClient.checkReceiptsLoop env txHashList txMap (n - d) (i + d)
              (EthClient.rptMapAfter env txHashList txMap (i + d) : List (CommonHash × T))).1
        ∧ (EthClient.checkReceiptsLoop env txHashList txMap n i
            (EthClient.rptMapAfter env txHashList txMap i : List (CommonHash × T))).2
          = (EthClient.checkReceiptsLoop env txHashList txMap (n - d) (i + d)
              (EthClient.rptMapAfter env txHashList txMap (i + d) : List (CommonHash × T))).2 := by
  intro d
  induction d with
  | zero => intro n i _ _; simp
  | succ d ih =>
    intro n i hd hall
    cases n with
    | zero => omega
    | succ n =>
      obtain ⟨hc, hg⟩ := hall i (le_refl _) (by omega)
      obtain ⟨h1, h2⟩ := ih n (i + 1) (by omega) (fun j hj1 hj2 => hall j (by omega) (by omega))
      have e1 : n + 1 - (d + 1) = n - d := by omega
      have e2 : i + (d + 1) = i + 1 + d := by omega
      rw [e1, e2]
      have hstep : (EthClient.pollRound env txMap i 0 txHashList
          (EthClient.rptMapAfter env txHashList txMap i : List (CommonHash × T))).2
          = EthClient.rptMapAfter env txHashList txMap (i + 1) := rfl
      constructor
      · conv_lhs => unfold EthClient.checkReceiptsLoop
        simp only [hc, Bool.false_eq_true, if_false, hstep, hg, pollRounds_append,
          refresh_rounds, pollRounds, pollRound_rounds, h1, List.append_eq]
        omega
      · conv_lhs => unfold EthClient.checkReceiptsLoop
        simp only [hc, Bool.false_eq_true, if_false, hstep, hg, h2]

theorem checkReceiptsLoop_stop {R T : Type} (env : PollsEnv R T)
    (txHashList : List CommonHash) (txMap : List (CommonHash × EthTx)) (n i : Nat)
    (hc : env.ctxDoneAt i = false)
    (hg : ((EthClient.rptMapAfter env txHashList txMap (i + 1) : List (CommonHash × T))).length
      = txMap.length) :
    pollRounds (EthClient.checkReceiptsLoop env txHashList txMap (n + 1) i
        (EthClient.rptMapAfter env txHashList txMap i : List (CommonHash × T))).1 = 1
      ∧ (EthClient.checkReceiptsLoop env txHashList txMap (n + 1) i
          (EthClient.rptMapAfter env txHashList txMap i : List (CommonHash × T))).2
        = .ok (EthClient.rptMapAfter env txHashList txMap (i + 1)) := by
  have hstep : (EthClient.pollRound env txMap i 0 txHashList
      (EthClient.rptMapAfter env txHashList txMap i : List (CommonHash × T))).2
      = EthClient.rptMapAfter env txHashList txMap (i + 1) := rfl
  unfold EthClient.checkReceiptsLoop
  simp only [hc, Bool.false_eq_true, if_false, hstep, hg, if_true, pollRounds_append,
    refresh_rounds, pollRounds, pollRound_rounds, and_self]

theorem checkReceiptsLoop_cancel {R T : Type} (env : PollsEnv R T)
    (txHashList : List CommonHash) (txMap : List (CommonHash × EthTx)) (n i : Nat)
    (m : List (CommonHash × T)) (hc : env.ctxDoneAt i = true) :
    (EthClient.checkReceiptsLoop env txHashList txMap (n + 1) i m).2 = .error ctxErr := by
  unfold EthClient.checkReceiptsLoop
  simp only [hc, if_true]

theorem checkReceipts_unfold {R T : Type} (env : PollsEnv R T) (ethtxs : List (Option EthTx))
    (hne : ethtxs ≠ []) :
    (EthClient.checkReceipts env ethtxs).1
        = (EthClient.checkReceiptsLoop env (txHashListOf ethtxs) (txMapOf ethtxs []) 12 0
            ([] : List (CommonHash × T))).1
      ∧ (∀ m, (EthClient.checkReceiptsLoop env (txHashListOf ethtxs) (txMapOf ethtxs []) 12 0
            ([] : List (CommonHash × T))).2 = .ok m →
          (EthClient.checkReceipts env ethtxs).2
            = .ok (fillRet ethtxs.length (txHashListOf ethtxs) m))
      ∧ (∀ e, (EthClient.checkReceiptsLoop env (txHashListOf ethtxs) (txMapOf ethtxs []) 12 0
            ([] : List (CommonHash × T))).2 = .error e →
          (EthClient.checkReceipts env ethtxs).2 = .error e) := by
  have hlen : ¬ ethtxs.length = 0 := fun h => hne (List.length_eq_zero.1 h)
  unfold EthClient.checkReceipts
  simp only [hlen, if_false]
  cases hl : EthClient.checkReceiptsLoop env (txHashListOf ethtxs) (txMapOf ethtxs []) 12 0
      ([] : List (CommonHash × T)) with
  | mk calls r =>
    cases r with
    | error e => simp
    | ok m => simp

/-- C25: with the context never cancelled, `checkReceipt` makes at most 5 receipt
queries, none after the first that yields a receipt, whose conversion it returns, and
(the conversion never returning `ErrNoReceipt` itself) returns `ErrNoReceipt` exactly
when all 5 queries yield none; `checkReceipts` on a list that is not empty makes at
most 12 query rounds, stops after the first round at whose end every transaction hash
has a receipt in the map, and after 12 rounds otherwise. When the context is found
cancelled at the top of an iteration that is reached, both return its error. -/
theorem polling_budget {R T R2 T2 : Type} (env : PollEnv R T) (envs : PollsEnv R2 T2)
    (tx : EthTx)
    (ethtxs : List (Option EthTx)) :
    ((∀ i, env.ctxDoneAt i = false) →
        (pollQueries (EthClient.checkReceipt env tx).1).length ≤ 5
          ∧ (∀ k rec, k < 5 → (∀ j, j < k → env.getReceipt j = none) →
              env.getReceipt k = some rec →
              pollQueries (EthClient.checkReceipt env tx).1 = List.replicate (k + 1) tx.Hash
                ∧ (EthClient.checkReceipt env tx).2 = env.convert rec)
          ∧ ((∀ rec, env.convert rec ≠ .error ErrNoReceipt) →
              ((EthClient.checkReceipt env tx).2 = .error ErrNoReceipt
                ↔ ∀ i, i < 5 → env.getReceipt i = none)))
      ∧ (pollRounds (EthClient.checkReceipts envs ethtxs).1 ≤ 12
          ∧ ((∀ i, envs.ctxDoneAt i = false) → ethtxs ≠ [] →
            (∀ k, k < 12 →
                (∀ j, j < k → ¬ allReceived (txHashListOf ethtxs)
                  (EthClient.rptMapAfter envs (txHashListOf ethtxs) (txMapOf ethtxs []) (j + 1) :
                    List (CommonHash × T2))) →
                allReceived (txHashListOf ethtxs)
                  (EthClient.rptMapAfter envs (txHashListOf ethtxs) (txMapOf ethtxs []) (k + 1) :
                    List (CommonHash × T2)) →
                pollRounds (EthClient.checkReceipts envs ethtxs).1 = k + 1
                  ∧ (EthClient.checkReceipts envs ethtxs).2
                    = .ok (fillRet ethtxs.length (txHashListOf ethtxs)
                        (EthClient.rptMapAfter envs (txHashListOf ethtxs) (txMapOf ethtxs [])
                          (k + 1))))
              ∧ ((∀ j, j < 12 → ¬ allReceived (txHashListOf ethtxs)
                  (EthClient.rptMapAfter envs (txHashListOf ethtxs) (txMapOf ethtxs []) (j + 1) :
                    List (CommonHash × T2))) →
                pollRounds (EthClient.checkReceipts envs ethtxs).1 = 12
                  ∧ (EthClient.checkReceipts envs ethtxs).2
                    = .ok (fillRet ethtxs.length (txHashListOf ethtxs)
                        (EthClient.rptMapAfter envs (txHashListOf ethtxs) (txMapOf ethtxs [])
                          12)))))
      ∧ (∀ k, k < 5 → (∀ j, j < k → env.ctxDoneAt j = false ∧ env.getReceipt j = none) →
          env.ctxDoneAt k = true → (EthClient.checkReceipt env tx).2 = .error ctxErr)
      ∧ (∀ k, k < 12 → ethtxs ≠ [] →
          (∀ j, j < k → envs.ctxDoneAt j = false
            ∧ ¬ allReceived (txHashListOf ethtxs)
                (EthClient.rptMapAfter envs (txHashListOf ethtxs) (txMapOf ethtxs []) (j + 1) :
                  List (CommonHash × T2))) →
          envs.ctxDoneAt k = true → (EthClient.checkReceipts envs ethtxs).2 = .error ctxErr) := by
  have hfound : ∀ k rec, k < 5 → (∀ j, j < k → env.ctxDoneAt j = false ∧ env.getReceipt j = none) →
      env.ctxDoneAt k = false → env.getReceipt k = some rec →
      pollQueries (EthClient.checkReceipt env tx).1 = List.replicate (k + 1) tx.Hash
        ∧ (EthClient.checkReceipt env tx).2 = env.convert rec := by
    intro k rec hk hpre hc hg
    obtain ⟨h1, h2⟩ := checkReceiptLoop_skip env tx.Hash k 5 0 (by omega)
      (fun j _ hj => hpre j (by omega))
    have e : 5 - k = (4 - k) + 1 := by omega
    rw [e, Nat.zero_add] at h1 h2
    obtain ⟨h3, h4⟩ := checkReceiptLoop_found env tx.Hash (4 - k) k rec hc hg
    unfold EthClient.checkReceipt
    rw [h1, h2, h3, h4, List.replicate_succ']
    exact ⟨rfl, rfl⟩
  have hskipR : ∀ k, k ≤ 12 →
      (∀ j, j < k → envs.ctxDoneAt j = false
        ∧ ¬ allReceived (txHashListOf ethtxs)
            (EthClient.rptMapAfter envs (txHashListOf ethtxs) (txMapOf ethtxs []) (j + 1) :
              List (CommonHash × T2))) →
      pollRounds (EthClient.checkReceiptsLoop envs (txHashListOf ethtxs) (txMapOf ethtxs []) 12 0
          ([] : List (CommonHash × T2))).1
          = k + pollRounds (EthClient.checkReceiptsLoop envs (txHashListOf ethtxs)
              (txMapOf ethtxs []) (12 - k) k
              (EthClient.rptMapAfter envs (txHashListOf ethtxs) (txMapOf ethtxs []) k :
                List (CommonHash × T2))).1
        ∧ (EthClient.checkReceiptsLoop envs (txHashListOf ethtxs) (txMapOf ethtxs []) 12 0
            ([] : List (CommonHash × T2))).2
          = (EthClient.checkReceiptsLoop envs (txHashListOf ethtxs) (txMapOf ethtxs [])
              (12 - k) k
              (EthClient.rptMapAfter envs (txHashListOf ethtxs) (txMapOf ethtxs []) k :
                List (CommonHash × T2))).2 := by
    intro k hk hpre
    have h := checkReceiptsLoop_skip (T := T2) envs (txHashListOf ethtxs) (txMapOf ethtxs [])
      k 12 0 hk
      (fun j _ hj => ⟨(hpre j (by omega)).1,
        fun hlen => (hpre j (by omega)).2 ((complete_iff envs ethtxs (j + 1)).1 hlen)⟩)
    rw [Nat.zero_add] at h
    exact h
  refine ⟨fun hctx => ⟨?_, ?_, ?_⟩, ⟨?_, fun hctx hne => ⟨?_, ?_⟩⟩, ?_, ?_⟩
  · exact checkReceiptLoop_bound env tx.Hash 5 0
  · intro k rec hk hpre hg
    exact hfound k rec hk (fun j hj => ⟨hctx j, hpre j hj⟩) (hctx k) hg
  · intro hconv
    constructor
    · intro hres
      by_contra hex
      push_neg at hex
      have hP : ∃ i, i < 5 ∧ env.getReceipt i ≠ none := hex
      classical
      have hk := Nat.find_spec hP
      have hmin : ∀ j, j < Nat.find hP → env.getReceipt j = none := by
        intro j hj
        by_contra hjn
        exact Nat.find_min hP hj ⟨by omega, hjn⟩
      cases hg : env.getReceipt (Nat.find hP) with
      | none => exact hk.2 hg
      | some rec =>
        have := (hfound (Nat.find hP) rec hk.1 (fun j hj => ⟨hctx j, hmin j hj⟩)
          (hctx _) hg).2
        rw [this] at hres
        exact hconv rec hres
    · intro hall
      obtain ⟨_, h2⟩ := checkReceiptLoop_skip env tx.Hash 5 5 0 (le_refl _)
        (fun j _ hj => ⟨hctx j, hall j (by omega)⟩)
      unfold EthClient.checkReceipt
      rw [h2]
      rfl
  · by_cases hne : ethtxs = []
    · subst hne
      simp [EthClient.checkReceipts, pollRounds]
    · rw [(checkReceipts_unfold envs ethtxs hne).1]
      exact checkReceiptsLoop_bound envs _ _ 12 0 _
  · intro k hk hpre hdone
    obtain ⟨hu1, hu2, _⟩ := checkReceipts_unfold (T := T2) envs ethtxs hne
    obtain ⟨h1, h2⟩ := hskipR k (by omega) (fun j hj => ⟨hctx j, hpre j hj⟩)
    have e : 12 - k = (11 - k) + 1 := by omega
    rw [e] at h1 h2
    obtain ⟨h3, h4⟩ := checkReceiptsLoop_stop (T := T2) envs (txHashListOf ethtxs)
      (txMapOf ethtxs []) (11 - k) k (hctx k) ((complete_iff envs ethtxs (k + 1)).2 hdone)
    rw [h3] at h1
    rw [h4] at h2
    exact ⟨by rw [hu1, h1], hu2 _ h2⟩
  · intro hpre
    obtain ⟨hu1, hu2, _⟩ := checkReceipts_unfold (T := T2) envs ethtxs hne
    obtain ⟨h1, h2⟩ := hskipR 12 (le_refl _) (fun j hj => ⟨hctx j, hpre j hj⟩)
    have hz : EthClient.checkReceiptsLoop envs (txHashListOf ethtxs) (txMapOf ethtxs [])
        (12 - 12) 12
        (EthClient.rptMapAfter envs (txHashListOf ethtxs) (txMapOf ethtxs []) 12 :
          List (CommonHash × T2))
        = ([], .ok (EthClient.rptMapAfter envs (txHashListOf ethtxs) (txMapOf ethtxs []) 12)) := by
      simp only [Nat.sub_self, EthClient.checkReceiptsLoop]
    rw [hz] at h1 h2
    simp only [pollRounds, Nat.add_zero] at h1
    exact ⟨by rw [hu1, h1], hu2 _ h2⟩
  · intro k hk hpre hc
    obtain ⟨_, h2⟩ := checkReceiptLoop_skip env tx.Hash k 5 0 (by omega)
      (fun j _ hj => hpre j (by omega))
    have e : 5 - k = (4 - k) + 1 := by omega
    rw [e, Nat.zero_add] at h2
    unfold EthClient.checkReceipt
    rw [h2]
    exact checkReceiptLoop_cancel env tx.Hash (4 - k) k hc
  · intro k hk hne hpre hc
    obtain ⟨_, _, hu3⟩ := checkReceipts_unfold (T := T2) envs ethtxs hne
    obtain ⟨_, h2⟩ := hskipR k (by omega) hpre
    have e : 12 - k = (11 - k) + 1 := by omega
    rw [e] at h2
    rw [checkReceiptsLoop_cancel envs _ _ (11 - k) k _ hc] at h2
    exact hu3 _ h2

/-- C25 with a receipt at the third query of `checkReceipt`, with no receipt within
the five queries, and with two transactions whose receipts arrive in the second
round of `checkReceipts`. -/
theorem polling_budget_witness :
    (pollQueries (EthClient.checkReceipt (samplePollEnv 2) { Hash := [7] }).1
        = List.replicate (2 + 1) [7]
      ∧ (EthClient.checkReceipt (samplePollEnv 2) { Hash := [7] }).2
        = (samplePollEnv 2).convert 1)
      ∧ EthClient.checkReceipt (samplePollEnv 2) { Hash := [7] }
        = ([PollCall.sleep, PollCall.getReceipt [7], PollCall.sleep, PollCall.getReceipt [7],
            PollCall.sleep, PollCall.getReceipt [7]], .ok "receipt")
      ∧ (EthClient.checkReceipt (samplePollEnv 9) { Hash := [7] }).2 = .error ErrNoReceipt
      ∧ EthClient.checkReceipts (samplePollsEnv 1) [some { Hash := [7] }, some { Hash := [8] }]
        = ([PollCall.sleep, PollCall.getReceipt [7], PollCall.getReceipt [8],
            PollCall.sleep, PollCall.getReceipt [7], PollCall.getReceipt [8]],
           .ok [some (some [7]), some (some [8])]) :=
  ⟨((polling_budget (samplePollEnv 2) (samplePollsEnv 1) { Hash := [7] }
      [some { Hash := [7] }, some { Hash := [8] }]).1 (fun _ => rfl)).2.1 2 1 (by decide)
      (by decide) rfl,
    rfl, rfl, rfl⟩

theorem txHashListOf_length_le : ∀ (ethtxs : List (Option EthTx)),
    (txHashListOf ethtxs).length ≤ ethtxs.length := by
  intro ethtxs
  induction ethtxs with
  | nil => simp [txHashListOf]
  | cons e rest ih =>
    cases e with
    | none => simp only [txHashListOf, List.length_cons]; omega
    | some tx => simp only [txHashListOf, List.length_cons]; omega

theorem txHashListOf_all_some : ∀ (ethtxs : List (Option EthTx)),
    (∀ e ∈ ethtxs, e ≠ none) →
    txHashListOf ethtxs
      = ethtxs.map (fun e =>
          match e with
          | some tx => tx.Hash
          | none => []) := by
  intro ethtxs
  induction ethtxs with
  | nil => intro _; rfl
  | cons e rest ih =>
    intro hall
    cases e with
    | none => exact absurd rfl (hall none (List.mem_cons_self _ _))
    | some tx =>
      simp only [txHashListOf, List.map_cons]
      rw [ih (fun x hx => hall x (List.mem_cons_of_mem _ hx))]

/-- C28, as the code has it: on the list `[nil, tx]` `checkReceipts` returns
`[receipt of tx, nil]`: the receipt of the transaction at input index 1 sits at
index 0, where the input has no transaction, because `ret` is filled by the position
in the list of hashes, which skips nil entries. The returned list always has the
length of the input, and for an input without nil entries entry `i` is what the
receipt map holds for the hash of the transaction at index `i`. -/
theorem receipts_shift_past_nil :
    EthClient.checkReceipts (samplePollsEnv 0) [none, some { Hash := [8] }]
      = ([PollCall.sleep, PollCall.getReceipt [8]], .ok [some (some [8]), none])
    ∧ (∀ (R T : Type) (env : PollsEnv R T) (ethtxs : List (Option EthTx)) (ret : List (Option T)),
        (EthClient.checkReceipts env ethtxs).2 = .ok ret → ret.length = ethtxs.length)
    ∧ (∀ (R T : Type) (env : PollsEnv R T) (ethtxs : List (Option EthTx)) (ret : List (Option T)),
        (∀ e ∈ ethtxs, e ≠ none) → (EthClient.checkReceipts env ethtxs).2 = .ok ret →
        ∃ rptMap : List (CommonHash × T),
          ret = ethtxs.map (fun e =>
            match e with
            | some tx => rptMap.lookup tx.Hash
            | none => none)) := by
  have hret : ∀ (R T : Type) (env : PollsEnv R T) (ethtxs : List (Option EthTx))
      (ret : List (Option T)), (EthClient.checkReceipts env ethtxs).2 = .ok ret →
      ethtxs = [] ∧ ret = []
        ∨ ∃ rptMap : List (CommonHash × T),
            ret = fillRet ethtxs.length (txHashListOf ethtxs) rptMap := by
    intro R T env ethtxs ret h
    by_cases hne : ethtxs = []
    · subst hne
      simp only [EthClient.checkReceipts, List.length_nil, if_true, Except.ok.injEq] at h
      exact Or.inl ⟨rfl, h.symm⟩
    · obtain ⟨_, hu2, hu3⟩ := checkReceipts_unfold env ethtxs hne
      cases hl : (EthClient.checkReceiptsLoop env (txHashListOf ethtxs) (txMapOf ethtxs []) 12 0
          ([] : List (CommonHash × T))).2 with
      | error e =>
        rw [hu3 e hl] at h
        cases h
      | ok m =>
        rw [hu2 m hl] at h
        simp only [Except.ok.injEq] at h
        exact Or.inr ⟨m, h.symm⟩
  refine ⟨rfl, ?_, ?_⟩
  · intro R T env ethtxs ret h
    rcases hret R T env ethtxs ret h with ⟨h1, h2⟩ | ⟨m, hm⟩
    · rw [h1, h2]
      rfl
    · have := txHashListOf_length_le ethtxs
      rw [hm]
      simp only [fillRet, List.length_append, List.length_map, List.length_replicate]
      omega
  · intro R T env ethtxs ret hall h
    rcases hret R T env ethtxs ret h with ⟨h1, h2⟩ | ⟨m, hm⟩
    · exact ⟨[], by rw [h1, h2]; rfl⟩
    · refine ⟨m, ?_⟩
      rw [hm, fillRet, txHashListOf_all_some ethtxs hall]
      simp only [List.length_map, Nat.sub_self, List.replicate_zero, List.append_nil,
        List.map_map]
      apply List.map_congr_left
      intro e he
      cases e with
      | none => exact absurd rfl (hall none he)
      | some tx => rfl

end LcAgent
